import Mathlib

/-!
The transfer engine of drivers/usb/serial/usb_wwan.c.

A shallow embedding of the write-slot pool, the read reassembly queue and the
suspend/resume protocol of `usb_wwan.c`.

Conventions of the embedding.

* The constants of `usb-wwan.h` (`N_OUT_URB`, `OUT_BUFLEN`, `N_IN_URB`) and of the
  kernel configuration (`HZ`, `BITS_PER_LONG`) are fields of `Config`.
* A request is named by its place in the port's arrays: `Urb.out i` is
  `portdata->out_urbs[i]`, `Urb.inp j` is `portdata->in_urbs[j]`.  All requests are
  taken to exist (no NULL entry).
* An anchor (`struct usb_anchor`) is the list of the requests on it, oldest first.
  `portdata->submitted` holds exactly the requests that are in flight: the driver
  anchors a request right before `usb_submit_urb` and unanchors it when the
  submission is rejected, and the USB core unanchors a request when it gives it back.
* What the collaborators answer (the result of `usb_submit_urb`, of
  `usb_autopm_get_interface_async`, the room in the tty flip buffer, `jiffies`) is an
  input of each operation.  Every call of `usb_submit_urb` is recorded, with its
  payload and its answer, in the field `wire` of the port.
* The reassembly queue `portdata->in_urb_list` is the list of the indices of the
  read requests linked on it, head first.  `list_add_tail` is the append and
  `list_add` the cons, which is what they do with a request that is not linked yet;
  what the kernel list becomes when a linked request is linked once more is not
  modelled.
* Each operation runs to completion before the next one starts (no interleaving of
  execution contexts); the locks are therefore not modelled.
* `usb_kill_urb` on a request in flight is its give-back with status `-ENOENT`; a
  submission the completion handler makes during the kill is rejected with `-EPERM`.
  `usb_unlink_urb` only records the cancellation request; the give-back it causes is
  a later step.
* Lengths and offsets are natural numbers.  The source computes
  `actual_length - n_read` in `ssize_t`; here the difference is truncated at 0, and
  the two agree whenever `n_read` does not exceed `actual_length`.
* The interrupt-in request, `send_setup` and the tty flags are line-control glue and
  are left out, and so are the calls that change nothing of the state modelled here
  (`usb_serial_port_softint`, `usb_mark_last_busy`, `tty_flip_buffer_push`, `dbg`).
-/

namespace UsbWwan

/-- One byte of payload. -/
abbrev Byte := Nat

/-- Value of EPERM in linux/errno.h. -/
def EPERM : Int := 1

/-- Value of ENOENT in linux/errno.h. -/
def ENOENT : Int := 2

/-- Value of EBUSY in linux/errno.h. -/
def EBUSY : Int := 16

/-- Value of ESHUTDOWN in linux/errno.h. -/
def ESHUTDOWN : Int := 108

/-- Constants of usb-wwan.h and of the kernel configuration. -/
structure Config where
  N_OUT_URB : Nat
  OUT_BUFLEN : Nat
  N_IN_URB : Nat
  HZ : Nat
  BITS_PER_LONG : Nat

/-- Identity of a transfer request of one port. -/
inductive Urb where
  | out (i : Nat)
  | inp (j : Nat)
  deriving DecidableEq, Repr

/-- The fields of a write request the driver uses. -/
structure OutUrb where
  transfer_buffer : List Byte
  transfer_buffer_length : Nat
  deriving DecidableEq, Repr

/-- The fields of a read request the driver uses. -/
structure InUrb where
  transfer_buffer : List Byte
  actual_length : Nat
  deriving DecidableEq, Repr

/-- One call of usb_submit_urb: the request, the bytes handed over and the answer. -/
structure WireEv where
  urb : Urb
  data : List Byte
  err : Int
  deriving DecidableEq, Repr

/-- The per-port state: struct usb_wwan_port_private, the throttle flags of
struct usb_serial_port, the bytes the tty has accepted (tty_rx), the record of
submissions (wire) and of usb_unlink_urb calls (unlink_reqs). -/
structure Port where
  out_urbs : Nat → OutUrb
  out_busy : Nat
  tx_start_time : Nat → Nat
  in_urbs : Nat → InUrb
  in_urb_list : List Nat
  n_read : Nat
  in_work_pending : Bool
  opened : Bool
  throttle_req : Bool
  throttled : Bool
  delayed : List Urb
  submitted : List Urb
  tty_rx : List Byte
  wire : List WireEv
  unlink_reqs : List Urb

/-- The per-interface state: struct usb_wwan_intf_private (suspended, in_flight) and
the usage counter of the power management of serial->interface. -/
structure Intf where
  suspended : Bool
  in_flight : Int
  pm_usage_cnt : Int
  deriving DecidableEq, Repr

/-- The device: struct usb_serial with its ports and its interface data. -/
structure Serial where
  num_ports : Nat
  port : Nat → Port
  intf : Intf

/-! ## Bit operations on the occupancy bitmap (linux/bitops.h) -/

/-- The bit i of the word w (test_bit). -/
def test_bit (i : Nat) (w : Nat) : Bool := w.testBit i

/-- The word w with bit i set (set_bit, and the write half of test_and_set_bit). -/
def set_bit (i : Nat) (w : Nat) : Nat := w ||| (1 <<< i)

/-- The word w with bit i cleared (clear_bit). -/
def clear_bit (i : Nat) (w : Nat) : Nat := if w.testBit i then w ^^^ (1 <<< i) else w

/-- The comparison time_before(a, b) of linux/jiffies.h on unsigned long:
the difference a - b, read as a signed long, is negative. -/
def time_before (cfg : Config) (a b : Nat) : Bool :=
  decide (2 ^ (cfg.BITS_PER_LONG - 1) ≤
    (a % 2 ^ cfg.BITS_PER_LONG + 2 ^ cfg.BITS_PER_LONG - b % 2 ^ cfg.BITS_PER_LONG)
      % 2 ^ cfg.BITS_PER_LONG)

/-! ## The transport as the driver sees it -/

/-- The request is put at the tail of the anchor (usb_anchor_urb). -/
def usb_anchor_urb (u : Urb) (a : List Urb) : List Urb := a ++ [u]

/-- The request is taken off the anchor (usb_unanchor_urb). -/
def usb_unanchor_urb (u : Urb) (a : List Urb) : List Urb := a.filter (fun v => v != u)

/-- The test urb->anchor != NULL. -/
def anchored (p : Port) (u : Urb) : Bool := p.submitted.contains u || p.delayed.contains u

/-- The bytes a request carries at submission: the first transfer_buffer_length
bytes of a write request, nothing for a read request. -/
def payload (p : Port) : Urb → List Byte
  | Urb.out i => (p.out_urbs i).transfer_buffer.take (p.out_urbs i).transfer_buffer_length
  | Urb.inp _ => []

/-- The call usb_submit_urb(u) answered with err: the call is recorded on the wire. -/
def usb_submit_urb (u : Urb) (err : Int) (p : Port) : Port :=
  { p with wire := p.wire ++ [{ urb := u, data := payload p u, err := err }] }

/-- The call usb_unlink_urb(u): an asynchronous cancellation request is recorded;
the completion it causes is a later give-back. -/
def usb_unlink_urb (u : Urb) (p : Port) : Port :=
  { p with unlink_reqs := p.unlink_reqs ++ [u] }

/-- The write requests that were submitted with success, in order. -/
def submitted_writes (w : List WireEv) : List Urb :=
  (w.filter (fun e => e.err == 0 && (match e.urb with | Urb.out _ => true | Urb.inp _ => false))).map
    (fun e => e.urb)

/-! ## usb_wwan_write -/

/-- What the collaborators answer during one call of usb_wwan_write: the tick
counter, the result of usb_autopm_get_interface_async and of usb_submit_urb for
slot i. -/
structure WriteEnv where
  jiffies : Nat
  autopm_get : Nat → Int
  submit : Nat → Int

/-- The variables of the loop of usb_wwan_write. -/
structure WriteLoop where
  port : Port
  intf : Intf
  buf : List Byte
  left : Int

/-- The copy memcpy(dst, src, n): the first n bytes of dst are replaced. -/
def memcpy (dst src : List Byte) (n : Nat) : List Byte := src.take n ++ dst.drop n

/-- The size "todo" of the next chunk: left, capped at OUT_BUFLEN. -/
def todo_of (cfg : Config) (left : Int) : Int :=
  if left > (cfg.OUT_BUFLEN : Int) then (cfg.OUT_BUFLEN : Int) else left

/-- One pass of the body of the for loop of usb_wwan_write for slot i.  The flag is
true when the loop goes on with slot i + 1 (continue, or the end of the body) and
false on break. -/
def write_slot (cfg : Config) (env : WriteEnv) (i : Nat) (st : WriteLoop) : WriteLoop × Bool :=
  let todo : Int := todo_of cfg st.left
  if test_bit i st.port.out_busy then
    if time_before cfg env.jiffies (st.port.tx_start_time i + 10 * cfg.HZ) then
      (st, true)
    else
      ({ st with port := usb_unlink_urb (Urb.out i) st.port }, true)
  else
    let busy1 := set_bit i st.port.out_busy
    let err := env.autopm_get i
    if err < 0 then
      ({ st with port := { st.port with out_busy := clear_bit i busy1 } }, false)
    else
      let intf1 : Intf := { st.intf with pm_usage_cnt := st.intf.pm_usage_cnt + 1 }
      let urb1 : OutUrb :=
        { transfer_buffer := memcpy (st.port.out_urbs i).transfer_buffer st.buf todo.toNat,
          transfer_buffer_length := todo.toNat }
      let p1 : Port :=
        { st.port with out_busy := busy1, out_urbs := Function.update st.port.out_urbs i urb1 }
      if intf1.suspended then
        let p2 : Port := { p1 with delayed := usb_anchor_urb (Urb.out i) p1.delayed }
        ({ port := { p2 with tx_start_time := Function.update p2.tx_start_time i env.jiffies },
           intf := intf1,
           buf := st.buf.drop todo.toNat,
           left := st.left - todo }, true)
      else
        let intf2 : Intf := { intf1 with in_flight := intf1.in_flight + 1 }
        let err2 := env.submit i
        let p2 : Port :=
          usb_submit_urb (Urb.out i) err2
            { p1 with submitted := usb_anchor_urb (Urb.out i) p1.submitted }
        if err2 ≠ 0 then
          ({ st with
              port := { p2 with submitted := usb_unanchor_urb (Urb.out i) p2.submitted,
                                out_busy := clear_bit i p2.out_busy },
              intf := { intf2 with in_flight := intf2.in_flight - 1,
                                   pm_usage_cnt := intf2.pm_usage_cnt - 1 } }, false)
        else
          ({ port := { p2 with tx_start_time := Function.update p2.tx_start_time i env.jiffies },
             intf := intf2,
             buf := st.buf.drop todo.toNat,
             left := st.left - todo }, true)

/-- The for loop of usb_wwan_write from slot i on, with n = N_OUT_URB - i slots
still to examine. -/
def write_loop (cfg : Config) (env : WriteEnv) : Nat → Nat → WriteLoop → WriteLoop
  | 0, _, st => st
  | n + 1, i, st =>
    if st.left > 0 then
      match write_slot cfg env i st with
      | (st1, true) => write_loop cfg env n (i + 1) st1
      | (st1, false) => st1
    else st

/-- The function usb_wwan_write: the port and interface afterwards and the returned
count. -/
def usb_wwan_write (cfg : Config) (env : WriteEnv) (p : Port) (intf : Intf)
    (buf : List Byte) (count : Int) : Port × Intf × Int :=
  let st := write_loop cfg env cfg.N_OUT_URB 0 { port := p, intf := intf, buf := buf, left := count }
  (st.port, st.intf, count - st.left)

/-! ## Completion of a write and the search of a request in out_urbs -/

/-- The search loop "for (i = 0; i < N_OUT_URB; ++i) if (out_urbs[i] == urb)" shared
by usb_wwan_outdat_callback and unbusy_queued_urb: the first matching slot. -/
def find_out_urb (cfg : Config) (urb : Urb) : Option Nat :=
  (List.range cfg.N_OUT_URB).find? (fun i => decide (Urb.out i = urb))

/-- The function unbusy_queued_urb: the busy bit of the slot of the request is
cleared. -/
def unbusy_queued_urb (cfg : Config) (urb : Urb) (p : Port) : Port :=
  match find_out_urb cfg urb with
  | some i => { p with out_busy := clear_bit i p.out_busy }
  | none => p

/-- The function usb_wwan_outdat_callback: the wake reference is released,
in_flight is decremented and the busy bit of the slot is cleared. -/
def usb_wwan_outdat_callback (cfg : Config) (urb : Urb) (p : Port) (intf : Intf) : Port × Intf :=
  let intf1 : Intf :=
    { intf with pm_usage_cnt := intf.pm_usage_cnt - 1, in_flight := intf.in_flight - 1 }
  match find_out_urb cfg urb with
  | some i => ({ p with out_busy := clear_bit i p.out_busy }, intf1)
  | none => (p, intf1)

/-! ## The read path -/

/-- The function usb_wwan_indat_callback for in_urbs[j] completed with the given
status; suberr is the answer of usb_submit_urb should the callback resubmit.  The
first branch is list_add_tail for a request that is not on in_urb_list; for a
request that is already linked there the list does not describe the queue. -/
def usb_wwan_indat_callback (j : Nat) (status : Int) (suberr : Int) (p : Port) (intf : Intf) :
    Port :=
  if (status == -ENOENT || status == 0) && (p.in_urbs j).actual_length != 0 then
    { p with in_urb_list := p.in_urb_list ++ [j], in_work_pending := true }
  else if intf.suspended || !p.opened then p
  else if status != -ESHUTDOWN then
    let p1 := usb_submit_urb (Urb.inp j) suberr
      { p with submitted := usb_anchor_urb (Urb.inp j) p.submitted }
    if suberr != 0 then { p1 with submitted := usb_unanchor_urb (Urb.inp j) p1.submitted }
    else p1
  else p

/-- What the collaborators answer during one run of usb_wwan_in_work: for the k-th
pass of the loop, tty k is none when tty_port_tty_get returns NULL and some r when
the flip buffer has room for r bytes; submit j is the answer of usb_submit_urb for
in_urbs[j]. -/
structure WorkEnv where
  tty : Nat → Option Nat
  submit : Nat → Int

/-- The while loop of usb_wwan_in_work.  The first argument is the queue
in_urb_list as the pass finds it and k counts the passes. -/
def in_work_loop (env : WorkEnv) (intf : Intf) : List Nat → Nat → Port → Port
  | [], _, p => { p with in_urb_list := [] }
  | urb :: rest, k, p =>
    if p.throttle_req || p.throttled then { p with in_urb_list := urb :: rest }
    else
      match env.tty k with
      | none => { p with in_urb_list := urb :: rest }
      | some room =>
        let len := (p.in_urbs urb).actual_length - p.n_read
        let data := (p.in_urbs urb).transfer_buffer.drop p.n_read
        let count := min len room
        let p1 : Port := { p with in_urb_list := rest, tty_rx := p.tty_rx ++ data.take count }
        if count < len then
          { p1 with n_read := p1.n_read + count, throttled := true, in_urb_list := urb :: rest }
        else
          let p2 : Port := { p1 with n_read := 0 }
          let p3 : Port :=
            if !intf.suspended && !anchored p2 (Urb.inp urb) then
              let err := env.submit urb
              let p4 := usb_submit_urb (Urb.inp urb) err
                { p2 with submitted := usb_anchor_urb (Urb.inp urb) p2.submitted }
              if err != 0 then { p4 with submitted := usb_unanchor_urb (Urb.inp urb) p4.submitted }
              else p4
            else p2
          in_work_loop env intf rest (k + 1) p3

/-- The function usb_wwan_in_work: the work item leaves the pending state and the
reassembly queue is drained into the tty. -/
def usb_wwan_in_work (env : WorkEnv) (p : Port) (intf : Intf) : Port :=
  in_work_loop env intf p.in_urb_list 0 { p with in_work_pending := false }

/-- The function usb_wwan_throttle. -/
def usb_wwan_throttle (p : Port) : Port := { p with throttle_req := true }

/-- The function usb_wwan_unthrottle. -/
def usb_wwan_unthrottle (p : Port) : Port :=
  { p with throttle_req := false, throttled := false, in_work_pending := true }

/-! ## Give-back and cancellation by the USB core -/

/-- The transport stores the received bytes in the buffer of in_urbs[j] and sets
actual_length. -/
def receive (j : Nat) (data : List Byte) (p : Port) : Port :=
  let urb1 : InUrb :=
    { transfer_buffer := memcpy (p.in_urbs j).transfer_buffer data data.length,
      actual_length := data.length }
  { p with in_urbs := Function.update p.in_urbs j urb1 }

/-- The USB core gives back the write request of slot i, if it is in flight: it
leaves the anchor and its completion handler runs. -/
def giveback_out (cfg : Config) (i : Nat) (p : Port) (intf : Intf) : Port × Intf :=
  if p.submitted.contains (Urb.out i) then
    usb_wwan_outdat_callback cfg (Urb.out i)
      { p with submitted := usb_unanchor_urb (Urb.out i) p.submitted } intf
  else (p, intf)

/-- The USB core gives back the read request j, if it is in flight, with a status
and the bytes received. -/
def giveback_in (j : Nat) (status : Int) (data : List Byte) (suberr : Int) (p : Port)
    (intf : Intf) : Port :=
  if p.submitted.contains (Urb.inp j) then
    usb_wwan_indat_callback j status suberr
      (receive j data { p with submitted := usb_unanchor_urb (Urb.inp j) p.submitted }) intf
  else p

/-- The call usb_kill_urb(u): a request in flight is given back with status -ENOENT
(kdata j are the bytes in_urbs[j] had received by then), and a submission made by
the handler meanwhile is rejected with -EPERM; a request not in flight is left
alone. -/
def usb_kill_urb (cfg : Config) (kdata : Nat → List Byte) (u : Urb) (p : Port) (intf : Intf) :
    Port × Intf :=
  match u with
  | Urb.out i => giveback_out cfg i p intf
  | Urb.inp j => (giveback_in j (-ENOENT) (kdata j) (-EPERM) p intf, intf)

/-- The call usb_kill_urb on each request of a list in turn. -/
def kill_list (cfg : Config) (kdata : Nat → List Byte) : List Urb → Port → Intf → Port × Intf
  | [], p, intf => (p, intf)
  | u :: us, p, intf =>
    kill_list cfg kdata us (usb_kill_urb cfg kdata u p intf).1 (usb_kill_urb cfg kdata u p intf).2

/-- The call usb_kill_anchored_urbs(&portdata->submitted): the requests of the
anchor are killed from the tail. -/
def usb_kill_anchored_urbs (cfg : Config) (kdata : Nat → List Byte) (p : Port) (intf : Intf) :
    Port × Intf :=
  kill_list cfg kdata p.submitted.reverse p intf

/-! ## Open and close -/

/-- The loop of usb_wwan_open over the read requests j, j + 1, ... (n of them). -/
def open_in_urbs (sub : Nat → Int) : Nat → Nat → Port → Port
  | 0, _, p => p
  | n + 1, j, p =>
    let err := sub j
    let p1 := usb_submit_urb (Urb.inp j) err
      { p with submitted := usb_anchor_urb (Urb.inp j) p.submitted }
    let p2 : Port :=
      if err != 0 then { p1 with submitted := usb_unanchor_urb (Urb.inp j) p1.submitted } else p1
    open_in_urbs sub n (j + 1) p2

/-- The function usb_wwan_open; sub j is the answer of usb_submit_urb for
in_urbs[j].  It returns 0. -/
def usb_wwan_open (cfg : Config) (sub : Nat → Int) (p : Port) (intf : Intf) : Port × Intf × Int :=
  let p1 := open_in_urbs sub cfg.N_IN_URB 0 p
  ({ p1 with opened := true }, { intf with pm_usage_cnt := intf.pm_usage_cnt - 1 }, 0)

/-- The loop "for (;;)" of usb_wwan_close over the delayed anchor: each request is
taken off, its slot is released and a wake reference is dropped. -/
def close_drain (cfg : Config) : List Urb → Port → Intf → Port × Intf
  | [], p, intf => ({ p with delayed := [] }, intf)
  | u :: rest, p, intf =>
    close_drain cfg rest (unbusy_queued_urb cfg u { p with delayed := rest })
      { intf with pm_usage_cnt := intf.pm_usage_cnt - 1 }

/-- The function usb_wwan_close; dev is the test "serial->dev". -/
def usb_wwan_close (cfg : Config) (kdata : Nat → List Byte) (dev : Bool) (p : Port)
    (intf : Intf) : Port × Intf :=
  if dev then
    let p1 : Port := { p with opened := false }
    let r1 := close_drain cfg p1.delayed p1 intf
    let r2 := kill_list cfg kdata ((List.range cfg.N_IN_URB).map Urb.inp) r1.1 r1.2
    let r3 := kill_list cfg kdata ((List.range cfg.N_OUT_URB).map Urb.out) r2.1 r2.2
    (r3.1, { r3.2 with pm_usage_cnt := r3.2.pm_usage_cnt + 1 })
  else (p, intf)

/-! ## Suspend and resume -/

/-- The loop of stop_read_write_urbs over the ports of the list. -/
def stop_ports (cfg : Config) (kdata : Nat → Nat → List Byte) : List Nat → Serial → Serial
  | [], s => s
  | k :: ks, s =>
    let r := usb_kill_anchored_urbs cfg (kdata k) (s.port k) s.intf
    stop_ports cfg kdata ks { s with port := Function.update s.port k r.1, intf := r.2 }

/-- The function stop_read_write_urbs. -/
def stop_read_write_urbs (cfg : Config) (kdata : Nat → Nat → List Byte) (s : Serial) : Serial :=
  stop_ports cfg kdata (List.range s.num_ports) s

/-- The function usb_wwan_disconnect. -/
def usb_wwan_disconnect (cfg : Config) (kdata : Nat → Nat → List Byte) (s : Serial) : Serial :=
  stop_read_write_urbs cfg kdata s

/-- What the caller and the collaborators give to usb_wwan_suspend: whether the
message is PMSG_IS_AUTO, the value of pm_runtime_autosuspend_expiration (nonzero
when the device was recently active), and the bytes received by the requests that
get cancelled. -/
structure SuspendEnv where
  is_auto : Bool
  autosuspend_expiration : Nat
  kdata : Nat → Nat → List Byte

/-- The function usb_wwan_suspend: the device afterwards and the returned value. -/
def usb_wwan_suspend (cfg : Config) (env : SuspendEnv) (s : Serial) : Serial × Int :=
  if env.is_auto && (s.intf.in_flight != 0 || env.autosuspend_expiration != 0) then
    (s, -EBUSY)
  else
    (stop_read_write_urbs cfg env.kdata { s with intf := { s.intf with suspended := true } }, 0)

/-- The loop "do ... while" of play_delayed that throws away the failed request and
the rest of the delayed anchor. -/
def play_drop (cfg : Config) : List Urb → Port → Intf → Port × Intf
  | [], p, intf => ({ p with delayed := [] }, intf)
  | u :: rest, p, intf =>
    play_drop cfg rest (unbusy_queued_urb cfg u { p with delayed := rest })
      { intf with pm_usage_cnt := intf.pm_usage_cnt - 1 }

/-- The function play_delayed over the delayed anchor given as first list; sub u is
the answer of usb_submit_urb for the request u.  It returns err. -/
def play_delayed (cfg : Config) (sub : Urb → Int) : List Urb → Port → Intf → Port × Intf × Int
  | [], p, intf => ({ p with delayed := [] }, intf, 0)
  | u :: rest, p, intf =>
    let err := sub u
    let p1 := usb_submit_urb u err
      { p with delayed := rest, submitted := usb_anchor_urb u p.submitted }
    if err = 0 then
      play_delayed cfg sub rest p1 { intf with in_flight := intf.in_flight + 1 }
    else
      let r := play_drop cfg (u :: rest)
        { p1 with submitted := usb_unanchor_urb u p1.submitted } intf
      (r.1, r.2, err)

/-- The loop of usb_wwan_resume over the read requests j, j + 1, ... (n of them)
of one port.  The flag is false when a submission failed (the goto err_out). -/
def resume_in_urbs (sub : Urb → Int) : Nat → Nat → Port → Int → Port × Int × Bool
  | 0, _, p, err => (p, err, true)
  | n + 1, j, p, err =>
    if anchored p (Urb.inp j) || p.in_urb_list.contains j then
      resume_in_urbs sub n (j + 1) p err
    else
      let e := sub (Urb.inp j)
      let p1 := usb_submit_urb (Urb.inp j) e
        { p with submitted := usb_anchor_urb (Urb.inp j) p.submitted }
      if e < 0 then
        ({ p1 with submitted := usb_unanchor_urb (Urb.inp j) p1.submitted }, e, false)
      else resume_in_urbs sub n (j + 1) p1 e

/-- The body of the loop of usb_wwan_resume for one open port: the port and
interface afterwards, the value of err, and false when the sweep is aborted. -/
def resume_port (cfg : Config) (sub : Urb → Int) (p : Port) (intf : Intf) :
    Port × Intf × Int × Bool :=
  let r1 := play_delayed cfg sub p.delayed p intf
  let r2 := resume_in_urbs sub cfg.N_IN_URB 0 r1.1 r1.2.2
  if r2.2.2 then
    let r3 := play_delayed cfg sub r2.1.delayed r2.1 r1.2.1
    (r3.1, r3.2.1, r2.2.1, true)
  else
    (r2.1, { r1.2.1 with suspended := true }, r2.2.1, false)

/-- The loop of usb_wwan_resume over the ports of the list; err is the current
value of the local variable. -/
def resume_ports (cfg : Config) (sub : Nat → Urb → Int) : List Nat → Serial → Int → Serial × Int
  | [], s, err => (s, err)
  | k :: ks, s, err =>
    if !(s.port k).opened then resume_ports cfg sub ks s err
    else
      let r := resume_port cfg (sub k) (s.port k) s.intf
      let s1 : Serial := { s with port := Function.update s.port k r.1, intf := r.2.1 }
      if r.2.2.2 then resume_ports cfg sub ks s1 r.2.2.1
      else (s1, r.2.2.1)

/-- What the collaborators answer during usb_wwan_resume: submit k u is the answer
of usb_submit_urb for the request u of port k; err0 is the value the local variable
err, which has no initialiser, happens to hold at entry. -/
structure ResumeEnv where
  submit : Nat → Urb → Int
  err0 : Int

/-- The function usb_wwan_resume: the device afterwards and the returned value. -/
def usb_wwan_resume (cfg : Config) (env : ResumeEnv) (s : Serial) : Serial × Int :=
  resume_ports cfg env.submit (List.range s.num_ports)
    { s with intf := { s.intf with suspended := false } } env.err0

/-! ## States used as worked examples -/

/-- The port as usb_wwan_startup and usb_wwan_setup_urbs leave it: the private data
is zeroed (kzalloc), the anchors and the reassembly queue are empty, and every
request owns its buffer (out_mem i, in_mem j), whose contents are whatever kmalloc
returned. -/
def startup_port (cfg : Config) (out_mem in_mem : Nat → List Byte) : Port where
  out_urbs := fun i => { transfer_buffer := out_mem i, transfer_buffer_length := cfg.OUT_BUFLEN }
  out_busy := 0
  tx_start_time := fun _ => 0
  in_urbs := fun j => { transfer_buffer := in_mem j, actual_length := 0 }
  in_urb_list := []
  n_read := 0
  in_work_pending := false
  opened := false
  throttle_req := false
  throttled := false
  delayed := []
  submitted := []
  tty_rx := []
  wire := []
  unlink_reqs := []

/-- A pool of four slots of 64 bytes. -/
def demo_cfg : Config :=
  { N_OUT_URB := 4, OUT_BUFLEN := 64, N_IN_URB := 4, HZ := 100, BITS_PER_LONG := 32 }

/-- A freshly started port of the demo pool, with zeroed buffers. -/
def demo_port : Port :=
  startup_port demo_cfg (fun _ => List.replicate 64 0) (fun _ => List.replicate 64 0)

/-- An interface that is awake and idle. -/
def demo_intf : Intf := { suspended := false, in_flight := 0, pm_usage_cnt := 0 }

/-- Collaborators that grant every wake reference and every submission, at tick 1000. -/
def demo_env : WriteEnv := { jiffies := 1000, autopm_get := fun _ => 0, submit := fun _ => 0 }

/-- The slots a call of usb_wwan_write claimed: free in the port p before the call
and busy in the port p1 after it, in index order. -/
def claimed_slots (cfg : Config) (p p1 : Port) : List Nat :=
  (List.range cfg.N_OUT_URB).filter (fun i => !test_bit i p.out_busy && test_bit i p1.out_busy)

/-- Collaborators that reject the submission of slot 1 with -ENODEV (-19). -/
def demo_env_reject : WriteEnv :=
  { jiffies := 1000, autopm_get := fun _ => 0, submit := fun i => if i = 1 then -19 else 0 }

/-! ## Invariants and reachable states -/

/-- The invariant of the write-slot pool of one port: a slot is busy exactly when
its request is in flight or on the delayed anchor; no request is on both anchors;
the delayed anchor holds write requests only, each once; only slots of the pool are
ever busy. -/
structure PortInv (cfg : Config) (p : Port) : Prop where
  busy_iff : ∀ i, test_bit i p.out_busy = true ↔ (Urb.out i ∈ p.submitted ∨ Urb.out i ∈ p.delayed)
  disjoint : ∀ i, Urb.out i ∈ p.submitted → Urb.out i ∉ p.delayed
  nodup : p.delayed.Nodup
  delayed_out : ∀ u, u ∈ p.delayed → ∃ i, u = Urb.out i
  bound : ∀ i, test_bit i p.out_busy = true → i < cfg.N_OUT_URB

/-- The write side of p1 is that of p: same bitmap, same delayed anchor, the same
write requests in flight. -/
structure OutSame (p p1 : Port) : Prop where
  busy : p1.out_busy = p.out_busy
  delayed : p1.delayed = p.delayed
  flight : ∀ i, Urb.out i ∈ p1.submitted ↔ Urb.out i ∈ p.submitted

/-- The device after an operation on port k that left the port as p and the
interface data as intf. -/
def Serial.set (s : Serial) (k : Nat) (p : Port) (intf : Intf) : Serial :=
  { s with port := Function.update s.port k p, intf := intf }

/-- The device as usb_wwan_startup leaves it: every port freshly started, the
interface awake with no write in flight; pm0 is the usage counter at that time. -/
def startup_serial (cfg : Config) (num_ports : Nat) (out_mem in_mem : Nat → Nat → List Byte)
    (pm0 : Int) : Serial :=
  { num_ports := num_ports,
    port := fun k => startup_port cfg (out_mem k) (in_mem k),
    intf := { suspended := false, in_flight := 0, pm_usage_cnt := pm0 } }

/-- One step of the device: a call of the driver on a port, on the whole device, or
a give-back by the USB core.  Between two steps the state is observable. -/
inductive Step (cfg : Config) : Serial → Serial → Prop
  | op_open (s : Serial) (k : Nat) (hk : k < s.num_ports) (sub : Nat → Int) :
      Step cfg s (s.set k (usb_wwan_open cfg sub (s.port k) s.intf).1
        (usb_wwan_open cfg sub (s.port k) s.intf).2.1)
  | op_write (s : Serial) (k : Nat) (hk : k < s.num_ports) (env : WriteEnv) (buf : List Byte)
      (count : Int) :
      Step cfg s (s.set k (usb_wwan_write cfg env (s.port k) s.intf buf count).1
        (usb_wwan_write cfg env (s.port k) s.intf buf count).2.1)
  | write_done (s : Serial) (k : Nat) (hk : k < s.num_ports) (i : Nat) :
      Step cfg s (s.set k (giveback_out cfg i (s.port k) s.intf).1
        (giveback_out cfg i (s.port k) s.intf).2)
  | read_done (s : Serial) (k : Nat) (hk : k < s.num_ports) (j : Nat) (status : Int)
      (data : List Byte) (suberr : Int) :
      Step cfg s (s.set k (giveback_in j status data suberr (s.port k) s.intf) s.intf)
  | op_in_work (s : Serial) (k : Nat) (hk : k < s.num_ports) (env : WorkEnv) :
      Step cfg s (s.set k (usb_wwan_in_work env (s.port k) s.intf) s.intf)
  | op_throttle (s : Serial) (k : Nat) (hk : k < s.num_ports) :
      Step cfg s (s.set k (usb_wwan_throttle (s.port k)) s.intf)
  | op_unthrottle (s : Serial) (k : Nat) (hk : k < s.num_ports) :
      Step cfg s (s.set k (usb_wwan_unthrottle (s.port k)) s.intf)
  | op_suspend (s : Serial) (env : SuspendEnv) : Step cfg s (usb_wwan_suspend cfg env s).1
  | op_resume (s : Serial) (env : ResumeEnv) : Step cfg s (usb_wwan_resume cfg env s).1
  | op_close (s : Serial) (k : Nat) (hk : k < s.num_ports) (kdata : Nat → List Byte)
      (dev : Bool) :
      Step cfg s (s.set k (usb_wwan_close cfg kdata dev (s.port k) s.intf).1
        (usb_wwan_close cfg kdata dev (s.port k) s.intf).2)
  | op_disconnect (s : Serial) (kdata : Nat → Nat → List Byte) :
      Step cfg s (usb_wwan_disconnect cfg kdata s)

/-- The states the device reaches from s0 by any sequence of steps. -/
inductive Reachable (cfg : Config) (s0 : Serial) : Serial → Prop
  | init : Reachable cfg s0 s0
  | step {s s1 : Serial} : Reachable cfg s0 s → Step cfg s s1 → Reachable cfg s0 s1

/-- A sequence of calls of usb_wwan_write on one port, each with its collaborators,
its buffer and its count. -/
def writes (cfg : Config) : List (WriteEnv × List Byte × Int) → Port → Intf → Port × Intf
  | [], p, intf => (p, intf)
  | c :: cs, p, intf =>
    writes cfg cs (usb_wwan_write cfg c.1 p intf c.2.1 c.2.2).1
      (usb_wwan_write cfg c.1 p intf c.2.1 c.2.2).2.1

/-- A device with one freshly started demo port. -/
def demo_serial : Serial :=
  startup_serial demo_cfg 1 (fun _ _ => List.replicate 64 0) (fun _ _ => List.replicate 64 0) 0

/-- A system suspend (not PMSG_IS_AUTO) of an idle device; cancelled reads have
received nothing. -/
def demo_suspend_env : SuspendEnv :=
  { is_auto := false, autosuspend_expiration := 0, kdata := fun _ _ => [] }

/-- The demo device after its port was opened, every read request accepted. -/
def demo_opened : Serial :=
  demo_serial.set 0 (usb_wwan_open demo_cfg (fun _ => 0) (demo_serial.port 0) demo_serial.intf).1
    (usb_wwan_open demo_cfg (fun _ => 0) (demo_serial.port 0) demo_serial.intf).2.1

/-- The demo device after the port was opened and the system suspended. -/
def demo_suspended : Serial := (usb_wwan_suspend demo_cfg demo_suspend_env demo_opened).1

/-- One call of usb_wwan_write with 200 bytes. -/
def demo_calls : List (WriteEnv × List Byte × Int) := [(demo_env, List.range 200, 200)]

/-- The port and interface of the suspended demo device after the demo calls. -/
def demo_written : Port × Intf :=
  writes demo_cfg demo_calls (demo_suspended.port 0) demo_suspended.intf

/-- A transport that rejects the write request of slot 2 with -ENODEV (-19). -/
def demo_replay_sub : Urb → Int := fun u => if u = Urb.out 2 then -19 else 0

/-- The port after usb_wwan_resume has processed it. -/
def demo_resumed : Port × Intf × Int × Bool :=
  resume_port demo_cfg demo_replay_sub demo_written.1 { demo_written.2 with suspended := false }

/-- The opened demo device after a write of 10 bytes: one write is in flight. -/
def demo_busy : Serial :=
  demo_opened.set 0
    (usb_wwan_write demo_cfg demo_env (demo_opened.port 0) demo_opened.intf (List.range 10) 10).1
    (usb_wwan_write demo_cfg demo_env (demo_opened.port 0) demo_opened.intf (List.range 10) 10).2.1

/-- An auto suspend (PMSG_IS_AUTO) of a device that was not recently active. -/
def demo_auto_env : SuspendEnv :=
  { is_auto := true, autosuspend_expiration := 0, kdata := fun _ _ => [] }

/-- An opened demo port with two busy write slots (slot 0 in flight, slot 1 on the
delayed anchor) and read request 0 in flight. -/
def demo_close_port : Port :=
  { demo_port with
      opened := true, out_busy := 3, submitted := [Urb.inp 0, Urb.out 0], delayed := [Urb.out 1] }

/-- The opened demo device with its port throttled by the tty. -/
def demo_throttled : Serial := demo_opened.set 0 (usb_wwan_throttle (demo_opened.port 0)) demo_opened.intf

/-- The device s after read request j of port 0 completed with status 0 and one
byte of data. -/
def demo_read_done (s : Serial) (j : Nat) : Serial :=
  s.set 0 (giveback_in j 0 [7] 0 (s.port 0) s.intf) s.intf

/-- The throttled demo device after its four read requests completed with data:
all of them wait on the reassembly queue. -/
def demo_queued : Serial :=
  demo_read_done (demo_read_done (demo_read_done (demo_read_done demo_throttled 0) 1) 2) 3

/-- The device after the system was then suspended. -/
def demo_queued_suspended : Serial := (usb_wwan_suspend demo_cfg demo_suspend_env demo_queued).1

/-- The device after 10 bytes were then written: slot 0 is on the delayed anchor. -/
def demo_queued_written : Serial :=
  demo_queued_suspended.set 0
    (usb_wwan_write demo_cfg demo_env (demo_queued_suspended.port 0) demo_queued_suspended.intf
      (List.range 10) 10).1
    (usb_wwan_write demo_cfg demo_env (demo_queued_suspended.port 0) demo_queued_suspended.intf
      (List.range 10) 10).2.1

/-- A transport that rejects every submission with -ENODEV (-19); the local err of
usb_wwan_resume happens to hold 0 at entry. -/
def demo_reject_all : ResumeEnv := { submit := fun _ _ => -19, err0 := 0 }

/-- A transport that accepts every submission; the local err of usb_wwan_resume
happens to hold -5 at entry. -/
def demo_stale_err : ResumeEnv := { submit := fun _ _ => 0, err0 := -5 }

/-- The submission of slot 1 that the transport of demo_env_reject turns down: the
second chunk of 64 bytes of the input, answered with -19. -/
def demo_rejected_ev : WireEv :=
  { urb := Urb.out 1, data := ((List.range 300).drop 64).take 64, err := -19 }

/-! ## The read side: what is still to be delivered, and its steps -/

/-- The bytes a completed read request holds: the first actual_length bytes of its
buffer. -/
def in_data (p : Port) (j : Nat) : List Byte :=
  (p.in_urbs j).transfer_buffer.take (p.in_urbs j).actual_length

/-- The bytes of the reassembly queue not yet handed to the tty: the head request
from offset n_read on, then the later requests in queue order. -/
def pending (p : Port) : List Byte :=
  match p.in_urb_list with
  | [] => []
  | h :: t => (in_data p h).drop p.n_read ++ (t.map (in_data p)).flatten

/-- Whether usb_wwan_indat_callback queues a completion for reassembly: status 0 or
-ENOENT, and data. -/
def queues (status : Int) (data : List Byte) : Bool :=
  (status == -ENOENT || status == 0) && data.length != 0

/-- One step of the read side of a port, paired with the concatenation of the read
buffers completed with data so far, in completion order: the give-back of a read
request in flight, a run of usb_wwan_in_work, a throttle or an unthrottle.  The
interface data the step sees is arbitrary. -/
inductive RxStep : Port × List Byte → Port × List Byte → Prop
  | completion (p : Port) (done : List Byte) (j : Nat) (status : Int) (data : List Byte)
      (suberr : Int) (intf : Intf) (hfl : Urb.inp j ∈ p.submitted) :
      RxStep (p, done)
        (giveback_in j status data suberr p intf,
          if queues status data then done ++ data else done)
  | work (p : Port) (done : List Byte) (env : WorkEnv) (intf : Intf) :
      RxStep (p, done) (usb_wwan_in_work env p intf, done)
  | throttle (p : Port) (done : List Byte) : RxStep (p, done) (usb_wwan_throttle p, done)
  | unthrottle (p : Port) (done : List Byte) : RxStep (p, done) (usb_wwan_unthrottle p, done)

/-- The states the read side reaches from a port with an empty reassembly queue
that has delivered nothing yet. -/
inductive RxReach (p0 : Port) : Port × List Byte → Prop
  | init : RxReach p0 (p0, [])
  | step {a b : Port × List Byte} : RxReach p0 a → RxStep a b → RxReach p0 b

/-- The invariant of the read side: delivered bytes followed by pending bytes are
the completed bytes; no queued request is in flight; the queue has no repetition;
n_read is 0 when the queue is empty. -/
structure RxInv (p : Port) (done : List Byte) : Prop where
  account : p.tty_rx ++ pending p = done
  owned : ∀ j, j ∈ p.in_urb_list → Urb.inp j ∉ p.submitted
  nodup : p.in_urb_list.Nodup
  idle : p.in_urb_list = [] → p.n_read = 0

/-- Every request of the reassembly queue still holds bytes for the tty: each queued
request has data, and n_read is short of the length of the one at the head. -/
structure RxPos (p : Port) : Prop where
  data : ∀ j, j ∈ p.in_urb_list → 0 < (p.in_urbs j).actual_length
  head : ∀ h t, p.in_urb_list = h :: t → p.n_read < (p.in_urbs h).actual_length

/-- The offset in the buffer of the j-th request of the queue from which pass j of a
run of usb_wwan_in_work reads when the tty took the whole of every earlier pass:
n_read for the request at the head, 0 for the later ones. -/
def offered_from (p : Port) (j : Nat) : Nat := if j = 0 then p.n_read else 0

/-- The number of bytes that pass offers to the tty: what the j-th request of the
queue holds from that offset on (the variable len of the source). -/
def offered_len (p : Port) (j : Nat) : Nat :=
  (p.in_urbs (p.in_urb_list.getD j 0)).actual_length - offered_from p j

/-- The port of the opened demo device: four read requests in flight, nothing queued
or delivered. -/
def demo_rx0 : Port := demo_opened.port 0

/-- The port after read request 0 completed with the bytes 1, 2, 3. -/
def demo_rx1 : Port := giveback_in 0 0 [1, 2, 3] 0 demo_rx0 demo_intf

/-- The port after read request 1 then completed with the bytes 4, 5. -/
def demo_rx2 : Port := giveback_in 1 0 [4, 5] 0 demo_rx1 demo_intf

/-- A tty with room for three bytes at the first pass of usb_wwan_in_work and for
one byte at each later pass; every resubmission is accepted. -/
def demo_short_env : WorkEnv :=
  { tty := fun k => if k = 0 then some 3 else some 1, submit := fun _ => 0 }

/-! ## Read requests across close and open -/

/-- The throttled demo device after read request 0 completed with one byte: the
request waits on the reassembly queue. -/
def demo_one_queued : Serial := demo_read_done demo_throttled 0

/-- The device after the port was then closed (the device is present; the cancelled
reads had received nothing). -/
def demo_closed : Serial :=
  demo_one_queued.set 0
    (usb_wwan_close demo_cfg (fun _ => []) true (demo_one_queued.port 0) demo_one_queued.intf).1
    (usb_wwan_close demo_cfg (fun _ => []) true (demo_one_queued.port 0) demo_one_queued.intf).2

/-- The device after the port was then opened again, every submission accepted. -/
def demo_reopened : Serial :=
  demo_closed.set 0 (usb_wwan_open demo_cfg (fun _ => 0) (demo_closed.port 0) demo_closed.intf).1
    (usb_wwan_open demo_cfg (fun _ => 0) (demo_closed.port 0) demo_closed.intf).2.1

/-! ## Stale slots and the in-flight count -/

/-- Whether slot m of the port is busy and stale at the tick jiffies, that is whether
the test time_before(jiffies, tx_start_time[m] + 10 * HZ) of usb_wwan_write fails. -/
def stale_slot (cfg : Config) (jiffies : Nat) (p : Port) (m : Nat) : Bool :=
  test_bit m p.out_busy && !time_before cfg jiffies (p.tx_start_time m + 10 * cfg.HZ)

/-- A demo port with its four slots busy since tick 980. -/
def demo_all_busy : Port :=
  { demo_port with
      opened := true, out_busy := 15, tx_start_time := fun _ => 980,
      submitted := [Urb.out 0, Urb.out 1, Urb.out 2, Urb.out 3] }

/-- A demo port with its four slots busy, slots 1 and 3 since tick 0 and slots 0 and
2 since tick 980. -/
def demo_some_stale : Port :=
  { demo_port with
      opened := true, out_busy := 15, tx_start_time := fun i => if i % 2 = 1 then 0 else 980,
      submitted := [Urb.out 0, Urb.out 1, Urb.out 2, Urb.out 3] }

/-- Whether a request is a write request. -/
def is_out : Urb → Bool
  | Urb.out _ => true
  | Urb.inp _ => false

/-- The number of write requests of the port that are submitted to the transport. -/
def flight_count (p : Port) : Nat := (p.submitted.filter is_out).length

/-- The number of write requests submitted to the transport over the ports
0, ..., n - 1 of the device. -/
def flight_total (port : Nat → Port) : Nat → Nat
  | 0 => 0
  | n + 1 => flight_total port n + flight_count (port n)

/-- The share of one port in the in-flight counter: no write request is twice on the
submitted anchor, and in_flight is the number of write requests of this port in
flight plus c, the number of those of the other ports. -/
structure FlightInv (p : Port) (intf : Intf) (c : Int) : Prop where
  nodup : (p.submitted.filter is_out).Nodup
  count : intf.in_flight = c + (flight_count p : Int)

/-- The invariant of the in-flight counter of the device: on no port is a write
request twice on the submitted anchor, and in_flight is the number of write requests
in flight over all ports. -/
structure SerialFlight (s : Serial) : Prop where
  nodup : ∀ k, ((s.port k).submitted.filter is_out).Nodup
  count : s.intf.in_flight = (flight_total s.port s.num_ports : Int)

/-! ## The occupancy bitmap -/

theorem test_bit_set_bit (i j w : Nat) :
    test_bit j (set_bit i w) = (test_bit j w || decide (i = j)) := by
  simp [test_bit, set_bit, Nat.one_shiftLeft, Nat.testBit_two_pow]

theorem test_bit_clear_bit (i j w : Nat) :
    test_bit j (clear_bit i w) = (test_bit j w && !decide (i = j)) := by
  unfold test_bit clear_bit
  by_cases h : w.testBit i = true
  · by_cases hij : i = j
    · subst hij
      simp [h, Nat.one_shiftLeft, Nat.testBit_two_pow]
    · simp [h, hij, Nat.one_shiftLeft, Nat.testBit_two_pow]
  · by_cases hij : i = j
    · subst hij
      simp [h]
    · simp [h, hij]

theorem clear_bit_set_bit_of_clear (i w : Nat) (h : test_bit i w = false) :
    clear_bit i (set_bit i w) = w := by
  apply Nat.eq_of_testBit_eq
  intro j
  have h1 := test_bit_clear_bit i j (set_bit i w)
  have h2 := test_bit_set_bit i j w
  unfold test_bit at h1 h2 h
  rw [h1, h2]
  by_cases hij : i = j
  · subst hij
    simp [h]
  · simp [hij]

/-! ## The cases of one pass of the write loop -/

theorem write_slot_busy_fresh (cfg : Config) (env : WriteEnv) (i : Nat) (st : WriteLoop)
    (hb : test_bit i st.port.out_busy = true)
    (ht : time_before cfg env.jiffies (st.port.tx_start_time i + 10 * cfg.HZ) = true) :
    write_slot cfg env i st = (st, true) := by
  simp [write_slot, hb, ht]

theorem write_slot_busy_stale (cfg : Config) (env : WriteEnv) (i : Nat) (st : WriteLoop)
    (hb : test_bit i st.port.out_busy = true)
    (ht : time_before cfg env.jiffies (st.port.tx_start_time i + 10 * cfg.HZ) = false) :
    write_slot cfg env i st = ({ st with port := usb_unlink_urb (Urb.out i) st.port }, true) := by
  simp [write_slot, hb, ht]

theorem write_slot_pm_fail (cfg : Config) (env : WriteEnv) (i : Nat) (st : WriteLoop)
    (hb : test_bit i st.port.out_busy = false) (hpm : env.autopm_get i < 0) :
    write_slot cfg env i st = (st, false) := by
  simp [write_slot, hb, hpm, clear_bit_set_bit_of_clear]

theorem write_slot_delayed (cfg : Config) (env : WriteEnv) (i : Nat) (st : WriteLoop)
    (hb : test_bit i st.port.out_busy = false) (hpm : 0 ≤ env.autopm_get i)
    (hs : st.intf.suspended = true) :
    write_slot cfg env i st =
      ({ port := { st.port with
                    out_busy := set_bit i st.port.out_busy,
                    out_urbs := Function.update st.port.out_urbs i
                      { transfer_buffer := memcpy (st.port.out_urbs i).transfer_buffer st.buf
                          (todo_of cfg st.left).toNat,
                        transfer_buffer_length := (todo_of cfg st.left).toNat },
                    delayed := st.port.delayed ++ [Urb.out i],
                    tx_start_time := Function.update st.port.tx_start_time i env.jiffies },
         intf := { st.intf with pm_usage_cnt := st.intf.pm_usage_cnt + 1 },
         buf := st.buf.drop (todo_of cfg st.left).toNat,
         left := st.left - todo_of cfg st.left }, true) := by
  simp [write_slot, hb, not_lt.mpr hpm, hs, usb_anchor_urb, todo_of]

theorem unanchor_anchor (u : Urb) (a : List Urb) :
    usb_unanchor_urb u (usb_anchor_urb u a) = usb_unanchor_urb u a := by
  simp [usb_unanchor_urb, usb_anchor_urb, List.filter_append]

theorem write_slot_submit_fail (cfg : Config) (env : WriteEnv) (i : Nat) (st : WriteLoop)
    (hb : test_bit i st.port.out_busy = false) (hpm : 0 ≤ env.autopm_get i)
    (hs : st.intf.suspended = false) (he : env.submit i ≠ 0) :
    write_slot cfg env i st =
      ({ st with
          port := { st.port with
                    out_urbs := Function.update st.port.out_urbs i
                      { transfer_buffer := memcpy (st.port.out_urbs i).transfer_buffer st.buf
                          (todo_of cfg st.left).toNat,
                        transfer_buffer_length := (todo_of cfg st.left).toNat },
                    submitted := usb_unanchor_urb (Urb.out i) st.port.submitted,
                    wire := st.port.wire ++
                      [{ urb := Urb.out i,
                         data := (memcpy (st.port.out_urbs i).transfer_buffer st.buf
                            (todo_of cfg st.left).toNat).take (todo_of cfg st.left).toNat,
                         err := env.submit i }] } }, false) := by
  simp [write_slot, hb, not_lt.mpr hpm, hs, he, usb_submit_urb, payload, unanchor_anchor,
    clear_bit_set_bit_of_clear]
  cases st with
  | mk port intf buf left =>
    cases intf
    simp_all

theorem write_slot_submit_ok (cfg : Config) (env : WriteEnv) (i : Nat) (st : WriteLoop)
    (hb : test_bit i st.port.out_busy = false) (hpm : 0 ≤ env.autopm_get i)
    (hs : st.intf.suspended = false) (he : env.submit i = 0) :
    write_slot cfg env i st =
      ({ port := { st.port with
                    out_busy := set_bit i st.port.out_busy,
                    out_urbs := Function.update st.port.out_urbs i
                      { transfer_buffer := memcpy (st.port.out_urbs i).transfer_buffer st.buf
                          (todo_of cfg st.left).toNat,
                        transfer_buffer_length := (todo_of cfg st.left).toNat },
                    submitted := st.port.submitted ++ [Urb.out i],
                    wire := st.port.wire ++
                      [{ urb := Urb.out i,
                         data := (memcpy (st.port.out_urbs i).transfer_buffer st.buf
                            (todo_of cfg st.left).toNat).take (todo_of cfg st.left).toNat,
                         err := 0 }],
                    tx_start_time := Function.update st.port.tx_start_time i env.jiffies },
         intf := { st.intf with pm_usage_cnt := st.intf.pm_usage_cnt + 1,
                                in_flight := st.intf.in_flight + 1 },
         buf := st.buf.drop (todo_of cfg st.left).toNat,
         left := st.left - todo_of cfg st.left }, true) := by
  simp [write_slot, hb, not_lt.mpr hpm, hs, he, usb_submit_urb, payload, usb_anchor_urb]

/-- The six ways one pass of the write loop can go. -/
theorem write_slot_cases (cfg : Config) (env : WriteEnv) (i : Nat) (st : WriteLoop) :
    (test_bit i st.port.out_busy = true ∧
      time_before cfg env.jiffies (st.port.tx_start_time i + 10 * cfg.HZ) = true ∧
      write_slot cfg env i st = (st, true)) ∨
    (test_bit i st.port.out_busy = true ∧
      time_before cfg env.jiffies (st.port.tx_start_time i + 10 * cfg.HZ) = false ∧
      write_slot cfg env i st = ({ st with port := usb_unlink_urb (Urb.out i) st.port }, true)) ∨
    (test_bit i st.port.out_busy = false ∧ env.autopm_get i < 0 ∧
      write_slot cfg env i st = (st, false)) ∨
    (test_bit i st.port.out_busy = false ∧ 0 ≤ env.autopm_get i ∧ st.intf.suspended = true ∧
      write_slot cfg env i st =
      ({ port := { st.port with
                    out_busy := set_bit i st.port.out_busy,
                    out_urbs := Function.update st.port.out_urbs i
                      { transfer_buffer := memcpy (st.port.out_urbs i).transfer_buffer st.buf
                          (todo_of cfg st.left).toNat,
                        transfer_buffer_length := (todo_of cfg st.left).toNat },
                    delayed := st.port.delayed ++ [Urb.out i],
                    tx_start_time := Function.update st.port.tx_start_time i env.jiffies },
         intf := { st.intf with pm_usage_cnt := st.intf.pm_usage_cnt + 1 },
         buf := st.buf.drop (todo_of cfg st.left).toNat,
         left := st.left - todo_of cfg st.left }, true)) ∨
    (test_bit i st.port.out_busy = false ∧ 0 ≤ env.autopm_get i ∧ st.intf.suspended = false ∧
      env.submit i ≠ 0 ∧
      write_slot cfg env i st =
      ({ st with
          port := { st.port with
                    out_urbs := Function.update st.port.out_urbs i
                      { transfer_buffer := memcpy (st.port.out_urbs i).transfer_buffer st.buf
                          (todo_of cfg st.left).toNat,
                        transfer_buffer_length := (todo_of cfg st.left).toNat },
                    submitted := usb_unanchor_urb (Urb.out i) st.port.submitted,
                    wire := st.port.wire ++
                      [{ urb := Urb.out i,
                         data := (memcpy (st.port.out_urbs i).transfer_buffer st.buf
                            (todo_of cfg st.left).toNat).take (todo_of cfg st.left).toNat,
                         err := env.submit i }] } }, false)) ∨
    (test_bit i st.port.out_busy = false ∧ 0 ≤ env.autopm_get i ∧ st.intf.suspended = false ∧
      env.submit i = 0 ∧
      write_slot cfg env i st =
      ({ port := { st.port with
                    out_busy := set_bit i st.port.out_busy,
                    out_urbs := Function.update st.port.out_urbs i
                      { transfer_buffer := memcpy (st.port.out_urbs i).transfer_buffer st.buf
                          (todo_of cfg st.left).toNat,
                        transfer_buffer_length := (todo_of cfg st.left).toNat },
                    submitted := st.port.submitted ++ [Urb.out i],
                    wire := st.port.wire ++
                      [{ urb := Urb.out i,
                         data := (memcpy (st.port.out_urbs i).transfer_buffer st.buf
                            (todo_of cfg st.left).toNat).take (todo_of cfg st.left).toNat,
                         err := 0 }],
                    tx_start_time := Function.update st.port.tx_start_time i env.jiffies },
         intf := { st.intf with pm_usage_cnt := st.intf.pm_usage_cnt + 1,
                                in_flight := st.intf.in_flight + 1 },
         buf := st.buf.drop (todo_of cfg st.left).toNat,
         left := st.left - todo_of cfg st.left }, true)) := by
  by_cases hb : test_bit i st.port.out_busy = true
  · by_cases ht : time_before cfg env.jiffies (st.port.tx_start_time i + 10 * cfg.HZ) = true
    · exact Or.inl ⟨hb, ht, write_slot_busy_fresh cfg env i st hb ht⟩
    · have ht1 : time_before cfg env.jiffies (st.port.tx_start_time i + 10 * cfg.HZ) = false := by
        simpa using ht
      exact Or.inr (Or.inl ⟨hb, ht1, write_slot_busy_stale cfg env i st hb ht1⟩)
  · have hb1 : test_bit i st.port.out_busy = false := by simpa using hb
    by_cases hpm : env.autopm_get i < 0
    · exact Or.inr (Or.inr (Or.inl ⟨hb1, hpm, write_slot_pm_fail cfg env i st hb1 hpm⟩))
    · have hpm1 : 0 ≤ env.autopm_get i := not_lt.mp hpm
      by_cases hs : st.intf.suspended = true
      · exact Or.inr (Or.inr (Or.inr (Or.inl
          ⟨hb1, hpm1, hs, write_slot_delayed cfg env i st hb1 hpm1 hs⟩)))
      · have hs1 : st.intf.suspended = false := by simpa using hs
        by_cases he : env.submit i = 0
        · exact Or.inr (Or.inr (Or.inr (Or.inr (Or.inr
            ⟨hb1, hpm1, hs1, he, write_slot_submit_ok cfg env i st hb1 hpm1 hs1 he⟩))))
        · exact Or.inr (Or.inr (Or.inr (Or.inr (Or.inl
            ⟨hb1, hpm1, hs1, he, write_slot_submit_fail cfg env i st hb1 hpm1 hs1 he⟩))))

/-- Unfolding of the write loop when slot i lets the loop go on. -/
theorem write_loop_succ_continue (cfg : Config) (env : WriteEnv) (n i : Nat) (st st1 : WriteLoop)
    (hpos : st.left > 0) (h : write_slot cfg env i st = (st1, true)) :
    write_loop cfg env (n + 1) i st = write_loop cfg env n (i + 1) st1 := by
  simp [write_loop, hpos, h]

/-- Unfolding of the write loop when slot i breaks out of the loop. -/
theorem write_loop_succ_break (cfg : Config) (env : WriteEnv) (n i : Nat) (st st1 : WriteLoop)
    (hpos : st.left > 0) (h : write_slot cfg env i st = (st1, false)) :
    write_loop cfg env (n + 1) i st = st1 := by
  simp [write_loop, hpos, h]

/-- The write loop stops at once when nothing is left. -/
theorem write_loop_done (cfg : Config) (env : WriteEnv) (n i : Nat) (st : WriteLoop)
    (hpos : ¬ st.left > 0) : write_loop cfg env n i st = st := by
  cases n <;> simp [write_loop, hpos]

/-! ## Admission from an idle pool -/

theorem write_loop_idle (cfg : Config) (env : WriteEnv) (hL : 0 < cfg.OUT_BUFLEN)
    (hpm : ∀ i, i < cfg.N_OUT_URB → 0 ≤ env.autopm_get i)
    (hsub : ∀ i, i < cfg.N_OUT_URB → env.submit i = 0) :
    ∀ (n i : Nat) (st : WriteLoop), i + n ≤ cfg.N_OUT_URB → st.intf.suspended = false →
      (∀ m, i ≤ m → m < i + n → test_bit m st.port.out_busy = false) → 0 ≤ st.left →
      (write_loop cfg env n i st).left = max 0 (st.left - n * cfg.OUT_BUFLEN) ∧
      ∀ m, test_bit m (write_loop cfg env n i st).port.out_busy =
        (test_bit m st.port.out_busy ||
          decide (i ≤ m ∧ m < i + n ∧ ((m - i : Nat) : Int) * cfg.OUT_BUFLEN < st.left)) := by
  intro n
  induction n with
  | zero =>
    intro i st _ _ _ hl
    refine ⟨by simp [write_loop, hl], fun m => ?_⟩
    simp [write_loop]
    intro h1 h2
    omega
  | succ n ih =>
    intro i st hin hs hfree hl
    by_cases hpos : st.left > 0
    · have hb : test_bit i st.port.out_busy = false := hfree i (le_refl _) (by omega)
      have hstep := write_slot_submit_ok cfg env i st hb (hpm i (by omega)) hs (hsub i (by omega))
      have hunf : write_loop cfg env (n + 1) i st = write_loop cfg env n (i + 1)
          (write_slot cfg env i st).1 := by
        simp [write_loop, hpos, hstep]
      have h1 : (write_slot cfg env i st).1.left = st.left - todo_of cfg st.left := by
        rw [hstep]
      have h2 : (write_slot cfg env i st).1.intf.suspended = false := by
        rw [hstep]; exact hs
      have h3 : (write_slot cfg env i st).1.port.out_busy = set_bit i st.port.out_busy := by
        rw [hstep]
      rw [hunf]
      have htodo : todo_of cfg st.left = min st.left cfg.OUT_BUFLEN := by
        unfold todo_of
        split <;> omega
      have := ih (i + 1) (write_slot cfg env i st).1 (by omega) h2
        (by
          intro m hm1 hm2
          rw [h3, test_bit_set_bit, hfree m (by omega) (by omega)]
          have : ¬ i = m := by omega
          simp [this])
        (by rw [h1, htodo]; omega)
      rw [h1, h3] at this
      obtain ⟨ihl, ihb⟩ := this
      refine ⟨?_, fun m => ?_⟩
      · rw [ihl]
        simp only [htodo]
        push_cast
        have hLi : (0 : Int) < cfg.OUT_BUFLEN := by exact_mod_cast hL
        have hn : (0 : Int) ≤ (n : Int) * cfg.OUT_BUFLEN := by positivity
        rcases le_total st.left (cfg.OUT_BUFLEN : Int) with h | h
        · rw [min_eq_left h]
          rw [max_eq_left (by linarith), max_eq_left (by linarith)]
        · rw [min_eq_right h]
          ring_nf
      · rw [ihb]
        simp only [test_bit_set_bit, htodo]
        by_cases hmi : m = i
        · subst hmi
          simp
          omega
        · have hLi : (0 : Int) < cfg.OUT_BUFLEN := by exact_mod_cast hL
          by_cases hlt : i < m
          · have e1 : ((m - i : Nat) : Int) = ((m - (i + 1) : Nat) : Int) + 1 := by omega
            have hd : (0 : Int) ≤ ((m - (i + 1) : Nat) : Int) * cfg.OUT_BUFLEN := by positivity
            rw [e1]
            have e2 : (((m - (i + 1) : Nat) : Int) + 1) * (cfg.OUT_BUFLEN : Int)
                = ((m - (i + 1) : Nat) : Int) * cfg.OUT_BUFLEN + cfg.OUT_BUFLEN := by ring
            rw [e2]
            generalize ((m - (i + 1) : Nat) : Int) * (cfg.OUT_BUFLEN : Int) = x at hd ⊢
            have hne : ¬ i = m := fun h => hmi h.symm
            simp only [hne, decide_False, Bool.or_false]
            have hiff : (i + 1 ≤ m ∧ m < i + 1 + n ∧ x < st.left - min st.left ↑cfg.OUT_BUFLEN) ↔
                (i ≤ m ∧ m < i + (n + 1) ∧ x + ↑cfg.OUT_BUFLEN < st.left) := by
              rcases le_total st.left (cfg.OUT_BUFLEN : Int) with h | h
              · rw [min_eq_left h]
                constructor
                · rintro ⟨_, _, h3⟩
                  omega
                · rintro ⟨_, _, h3⟩
                  omega
              · rw [min_eq_right h]
                constructor
                · rintro ⟨_, _, h3⟩
                  refine ⟨by omega, by omega, by omega⟩
                · rintro ⟨_, _, h3⟩
                  refine ⟨by omega, by omega, by omega⟩
            rw [decide_eq_decide.mpr hiff]
          · have hne : ¬ i = m := fun h => hmi h.symm
            have h1 : ¬ (i + 1 ≤ m) := by omega
            have h2 : ¬ (i ≤ m) := by omega
            simp [hne, h1, h2]
    · have hz : st.left = 0 := by omega
      have hunf : write_loop cfg env (n + 1) i st = st := by
        simp [write_loop, hpos]
      rw [hunf]
      refine ⟨?_, fun m => ?_⟩
      · rw [hz]
        have hn : (0 : Int) ≤ ((n + 1 : Nat) : Int) * cfg.OUT_BUFLEN := by positivity
        rw [max_eq_left (by linarith)]
      · rw [hz]
        have hd : (0 : Int) ≤ ((m - i : Nat) : Int) * cfg.OUT_BUFLEN := by positivity
        have : ¬ (((m - i : Nat) : Int) * cfg.OUT_BUFLEN < 0) := by omega
        simp [this]

/-- C1. From an idle pool, with the interface not suspended and every wake
reference and submission granted, usb_wwan_write returns
min (count, N_OUT_URB * OUT_BUFLEN), and afterwards slot i is busy exactly when i is
among the first ceil (result / OUT_BUFLEN) slots. -/
theorem usb_wwan_write_idle_pool (cfg : Config) (env : WriteEnv) (p : Port) (intf : Intf)
    (buf : List Byte) (count : Int)
    (hcap : 0 < cfg.OUT_BUFLEN) (hcount : 0 ≤ count)
    (hfree : ∀ i, i < cfg.N_OUT_URB → test_bit i p.out_busy = false)
    (hsusp : intf.suspended = false)
    (hpm : ∀ i, i < cfg.N_OUT_URB → 0 ≤ env.autopm_get i)
    (hsub : ∀ i, i < cfg.N_OUT_URB → env.submit i = 0) :
    (usb_wwan_write cfg env p intf buf count).2.2
        = min count ((cfg.N_OUT_URB : Int) * cfg.OUT_BUFLEN) ∧
    ∀ i, i < cfg.N_OUT_URB →
      test_bit i (usb_wwan_write cfg env p intf buf count).1.out_busy
        = decide (i < ((usb_wwan_write cfg env p intf buf count).2.2.toNat
            + cfg.OUT_BUFLEN - 1) / cfg.OUT_BUFLEN) := by
  obtain ⟨hl, hbits⟩ := write_loop_idle cfg env hcap hpm hsub cfg.N_OUT_URB 0
    { port := p, intf := intf, buf := buf, left := count } (by omega) hsusp
    (fun m _ hm => hfree m (by omega)) hcount
  have hres : (usb_wwan_write cfg env p intf buf count).2.2
      = min count ((cfg.N_OUT_URB : Int) * cfg.OUT_BUFLEN) := by
    simp only [usb_wwan_write, hl]
    have hn : (0 : Int) ≤ (cfg.N_OUT_URB : Int) * cfg.OUT_BUFLEN := by positivity
    rcases le_total count ((cfg.N_OUT_URB : Int) * cfg.OUT_BUFLEN) with h | h
    · rw [min_eq_left h, max_eq_left (by linarith)]
      ring
    · rw [min_eq_right h, max_eq_right (by linarith)]
      ring
  refine ⟨hres, fun i hi => ?_⟩
  rw [hres]
  have hb : (usb_wwan_write cfg env p intf buf count).1.out_busy
      = (write_loop cfg env cfg.N_OUT_URB 0
          { port := p, intf := intf, buf := buf, left := count }).port.out_busy := rfl
  rw [hb, hbits i, hfree i hi]
  simp only [Bool.false_or, Nat.sub_zero, Nat.zero_add, Nat.zero_le, true_and, hi]
  rw [decide_eq_decide]
  have hiL : ((i * cfg.OUT_BUFLEN : Nat) : Int) < (cfg.N_OUT_URB : Int) * cfg.OUT_BUFLEN := by
    have : i * cfg.OUT_BUFLEN < cfg.N_OUT_URB * cfg.OUT_BUFLEN :=
      Nat.mul_lt_mul_of_pos_right hi hcap
    exact_mod_cast this
  have hn : (0 : Int) ≤ (cfg.N_OUT_URB : Int) * cfg.OUT_BUFLEN := by positivity
  have hq : ∀ x : Nat, (i < (x + cfg.OUT_BUFLEN - 1) / cfg.OUT_BUFLEN ↔ i * cfg.OUT_BUFLEN < x) := by
    intro x
    rw [Nat.lt_iff_add_one_le, Nat.le_div_iff_mul_le hcap, Nat.add_mul]
    omega
  rw [hq]
  have hm : 0 ≤ min count ((cfg.N_OUT_URB : Int) * cfg.OUT_BUFLEN) := le_min hcount hn
  push_cast at hiL
  constructor
  · intro h
    have : ((i * cfg.OUT_BUFLEN : Nat) : Int) < min count ((cfg.N_OUT_URB : Int) * cfg.OUT_BUFLEN) := by
      push_cast
      exact lt_min h hiL
    omega
  · intro h
    have h2 : ((i * cfg.OUT_BUFLEN : Nat) : Int) < min count ((cfg.N_OUT_URB : Int) * cfg.OUT_BUFLEN) := by
      omega
    push_cast at h2
    exact lt_of_lt_of_le h2 (min_le_left _ _)

/-- Witness of C1: four slots of 64 bytes and 300 bytes to write. -/
theorem usb_wwan_write_idle_pool_witness :
    (usb_wwan_write demo_cfg demo_env demo_port demo_intf (List.range 300) 300).2.2
        = min 300 ((demo_cfg.N_OUT_URB : Int) * demo_cfg.OUT_BUFLEN) ∧
    ∀ i, i < demo_cfg.N_OUT_URB →
      test_bit i (usb_wwan_write demo_cfg demo_env demo_port demo_intf (List.range 300) 300).1.out_busy
        = decide (i < ((usb_wwan_write demo_cfg demo_env demo_port demo_intf
            (List.range 300) 300).2.2.toNat + demo_cfg.OUT_BUFLEN - 1) / demo_cfg.OUT_BUFLEN) :=
  usb_wwan_write_idle_pool demo_cfg demo_env demo_port demo_intf (List.range 300) 300
    (by decide) (by decide) (fun i _ => by simp [demo_port, startup_port, test_bit]) rfl
    (fun _ _ => le_refl _) (fun _ _ => rfl)

/-! ## The write round trip -/

/-- One pass of the write loop for slot i leaves the busy bit and the request of
every other slot alone. -/
theorem write_slot_frame (cfg : Config) (env : WriteEnv) (i m : Nat) (st : WriteLoop)
    (hm : m ≠ i) :
    test_bit m (write_slot cfg env i st).1.port.out_busy = test_bit m st.port.out_busy ∧
    (write_slot cfg env i st).1.port.out_urbs m = st.port.out_urbs m := by
  have hne : ¬ i = m := fun h => hm h.symm
  rcases write_slot_cases cfg env i st with ⟨_, _, h⟩ | ⟨_, _, h⟩ | ⟨_, _, h⟩ | ⟨_, _, _, h⟩ |
    ⟨_, _, _, _, h⟩ | ⟨_, _, _, _, h⟩ <;>
  simp [h, usb_unlink_urb, test_bit_set_bit, hne, Function.update_noteq hm]

/-- The write loop from slot i on leaves the slots below i alone. -/
theorem write_loop_frame (cfg : Config) (env : WriteEnv) :
    ∀ (n i : Nat) (st : WriteLoop) (m : Nat), m < i →
      test_bit m (write_loop cfg env n i st).port.out_busy = test_bit m st.port.out_busy ∧
      (write_loop cfg env n i st).port.out_urbs m = st.port.out_urbs m := by
  intro n
  induction n with
  | zero => intro i st m _; simp [write_loop]
  | succ n ih =>
    intro i st m hm
    by_cases hpos : st.left > 0
    · have hf := write_slot_frame cfg env i m st (by omega)
      cases hr : write_slot cfg env i st with
      | mk st1 flag =>
        rw [hr] at hf
        cases flag with
        | true =>
          rw [write_loop_succ_continue cfg env n i st st1 hpos hr]
          have := ih (i + 1) st1 m (by omega)
          exact ⟨this.1.trans hf.1, this.2.trans hf.2⟩
        | false =>
          rw [write_loop_succ_break cfg env n i st st1 hpos hr]
          exact hf
    · rw [write_loop_done cfg env (n + 1) i st hpos]
      exact ⟨rfl, rfl⟩

theorem todo_of_bounds (cfg : Config) (left : Int) (hpos : left > 0) (hL : 0 < cfg.OUT_BUFLEN) :
    1 ≤ todo_of cfg left ∧ todo_of cfg left ≤ cfg.OUT_BUFLEN ∧ todo_of cfg left ≤ left := by
  unfold todo_of
  split <;> omega

/-- What one pass of the write loop does to the bitmap, the byte count and the
input pointer: the slot is skipped, claimed, or the loop is left. -/
theorem write_slot_summary (cfg : Config) (env : WriteEnv) (i : Nat) (st : WriteLoop) :
    ((write_slot cfg env i st).2 = true ∧ test_bit i st.port.out_busy = true ∧
      (write_slot cfg env i st).1.port.out_busy = st.port.out_busy ∧
      (write_slot cfg env i st).1.left = st.left ∧ (write_slot cfg env i st).1.buf = st.buf) ∨
    ((write_slot cfg env i st).2 = true ∧ test_bit i st.port.out_busy = false ∧
      (write_slot cfg env i st).1.port.out_busy = set_bit i st.port.out_busy ∧
      (write_slot cfg env i st).1.left = st.left - todo_of cfg st.left ∧
      (write_slot cfg env i st).1.buf = st.buf.drop (todo_of cfg st.left).toNat ∧
      (write_slot cfg env i st).1.port.out_urbs i =
        { transfer_buffer := memcpy (st.port.out_urbs i).transfer_buffer st.buf
            (todo_of cfg st.left).toNat,
          transfer_buffer_length := (todo_of cfg st.left).toNat }) ∨
    ((write_slot cfg env i st).2 = false ∧
      (write_slot cfg env i st).1.port.out_busy = st.port.out_busy ∧
      (write_slot cfg env i st).1.left = st.left) := by
  rcases write_slot_cases cfg env i st with ⟨hb, _, h⟩ | ⟨hb, _, h⟩ | ⟨hb, _, h⟩ | ⟨hb, _, _, h⟩ |
    ⟨hb, _, _, _, h⟩ | ⟨hb, _, _, _, h⟩
  · exact Or.inl (by simp [h, hb])
  · exact Or.inl (by simp [h, hb, usb_unlink_urb])
  · exact Or.inr (Or.inr (by simp [h]))
  · exact Or.inr (Or.inl (by simp [h, hb]))
  · exact Or.inr (Or.inr (by simp [h]))
  · exact Or.inr (Or.inl (by simp [h, hb]))

theorem payload_memcpy (dst src : List Byte) (n : Nat) (h : n ≤ src.length) :
    (memcpy dst src n).take n = src.take n := by
  unfold memcpy
  exact List.take_left' (by simp [List.length_take, h])

theorem write_loop_round_trip (cfg : Config) (env : WriteEnv) (hL : 0 < cfg.OUT_BUFLEN) :
    ∀ (n i : Nat) (st : WriteLoop), st.left ≤ st.buf.length →
      (write_loop cfg env n i st).left ≤ st.left ∧
      (0 ≤ st.left → 0 ≤ (write_loop cfg env n i st).left) ∧
      (((List.range' i n).filter (fun m => !test_bit m st.port.out_busy &&
          test_bit m (write_loop cfg env n i st).port.out_busy)).map
        (fun m => payload (write_loop cfg env n i st).port (Urb.out m))).flatten
        = st.buf.take (st.left - (write_loop cfg env n i st).left).toNat ∧
      (∀ m ∈ (List.range' i n).filter (fun m => !test_bit m st.port.out_busy &&
          test_bit m (write_loop cfg env n i st).port.out_busy),
        1 ≤ ((write_loop cfg env n i st).port.out_urbs m).transfer_buffer_length ∧
        ((write_loop cfg env n i st).port.out_urbs m).transfer_buffer_length ≤ cfg.OUT_BUFLEN) ∧
      (((List.range' i n).filter (fun m => !test_bit m st.port.out_busy &&
          test_bit m (write_loop cfg env n i st).port.out_busy)).map
        (fun m => (((write_loop cfg env n i st).port.out_urbs m).transfer_buffer_length : Int))).sum
        = st.left - (write_loop cfg env n i st).left := by
  intro n
  induction n with
  | zero => intro i st _; simp [write_loop]
  | succ n ih =>
    intro i st hbuf
    by_cases hpos : st.left > 0
    · obtain ⟨ht1, ht2, ht3⟩ := todo_of_bounds cfg st.left hpos hL
      cases hr : write_slot cfg env i st with
      | mk st1 flag =>
        have hsum := write_slot_summary cfg env i st
        rw [hr] at hsum
        simp only at hsum
        rcases hsum with ⟨hf, hb, hbusy, hleft, hbf⟩ | ⟨hf, hb, hbusy, hleft, hbf, hurb⟩ |
          ⟨hf, hbusy, hleft⟩
        · -- the slot is busy and is skipped
          subst hf
          rw [write_loop_succ_continue cfg env n i st st1 hpos hr]
          have hih := ih (i + 1) st1 (by rw [hleft, hbf]; exact hbuf)
          rw [hleft, hbf, hbusy] at hih
          rw [List.range'_succ]
          simp only [List.filter_cons, hb, Bool.not_true, Bool.false_and, Bool.false_eq_true,
            if_false]
          exact hih
        · -- the slot is claimed
          subst hf
          rw [write_loop_succ_continue cfg env n i st st1 hpos hr]
          have hih := ih (i + 1) st1 (by
            rw [hleft, hbf, List.length_drop]
            omega)
          obtain ⟨hfb, hfu⟩ := write_loop_frame cfg env n (i + 1) st1 i (by omega)
          have hbi : test_bit i (write_loop cfg env n (i + 1) st1).port.out_busy = true := by
            rw [hfb, hbusy, test_bit_set_bit]; simp
          have hfilt : (List.range' (i + 1) n).filter (fun m => !test_bit m st1.port.out_busy &&
                test_bit m (write_loop cfg env n (i + 1) st1).port.out_busy)
              = (List.range' (i + 1) n).filter (fun m => !test_bit m st.port.out_busy &&
                test_bit m (write_loop cfg env n (i + 1) st1).port.out_busy) := by
            apply List.filter_congr
            intro m hm
            rw [List.mem_range'_1] at hm
            have : ¬ i = m := by omega
            rw [hbusy, test_bit_set_bit]
            simp [this]
          rw [hfilt, hleft, hbf] at hih
          obtain ⟨h1, h2, h3, h4, h5⟩ := hih
          have hlen_i : ((write_loop cfg env n (i + 1) st1).port.out_urbs i).transfer_buffer_length
              = (todo_of cfg st.left).toNat := by rw [hfu, hurb]
          have hpay_i : payload (write_loop cfg env n (i + 1) st1).port (Urb.out i)
              = st.buf.take (todo_of cfg st.left).toNat := by
            simp only [payload]
            rw [hfu, hurb]
            dsimp only
            exact payload_memcpy _ _ _ (by omega)
          rw [List.range'_succ]
          simp only [List.filter_cons, hb, hbi, Bool.not_false, Bool.and_self, if_true,
            List.map_cons, List.flatten_cons, List.sum_cons, List.mem_cons]
          refine ⟨by omega, fun _ => h2 (by omega), ?_, ?_, ?_⟩
          · rw [hpay_i, h3]
            have : (st.left - (write_loop cfg env n (i + 1) st1).left).toNat
                = (todo_of cfg st.left).toNat
                  + (st.left - todo_of cfg st.left - (write_loop cfg env n (i + 1) st1).left).toNat := by
              omega
            rw [this, List.take_add]
          · intro m hm
            rcases hm with rfl | hm
            · rw [hlen_i]; omega
            · exact h4 m hm
          · rw [hlen_i, h5]
            omega
        · -- the loop is left: nothing more is claimed
          subst hf
          rw [write_loop_succ_break cfg env n i st st1 hpos hr]
          have hnone : (List.range' i (n + 1)).filter (fun m => !test_bit m st.port.out_busy &&
              test_bit m st1.port.out_busy) = [] := by
            rw [List.filter_eq_nil_iff]
            intro m _
            rw [hbusy]
            simp
          rw [hnone, hleft]
          simp
    · rw [write_loop_done cfg env (n + 1) i st hpos]
      have hnone : (List.range' i (n + 1)).filter (fun m => !test_bit m st.port.out_busy &&
          test_bit m st.port.out_busy) = [] := by
        rw [List.filter_eq_nil_iff]
        intro m _
        simp
      rw [hnone]
      simp

/-- C2. Whatever the pool state, after usb_wwan_write returns r the payloads of the
slots claimed by the call, in slot order, make up the first r bytes of the input;
each recorded length lies between 1 and OUT_BUFLEN and the lengths add up to r. -/
theorem usb_wwan_write_round_trip (cfg : Config) (env : WriteEnv) (p : Port) (intf : Intf)
    (buf : List Byte) (count : Int)
    (hcap : 0 < cfg.OUT_BUFLEN) (hbuf : count ≤ buf.length) :
    0 ≤ (usb_wwan_write cfg env p intf buf count).2.2 ∧
    ((claimed_slots cfg p (usb_wwan_write cfg env p intf buf count).1).map
        (fun i => payload (usb_wwan_write cfg env p intf buf count).1 (Urb.out i))).flatten
      = buf.take (usb_wwan_write cfg env p intf buf count).2.2.toNat ∧
    (∀ i ∈ claimed_slots cfg p (usb_wwan_write cfg env p intf buf count).1,
      1 ≤ ((usb_wwan_write cfg env p intf buf count).1.out_urbs i).transfer_buffer_length ∧
      ((usb_wwan_write cfg env p intf buf count).1.out_urbs i).transfer_buffer_length
        ≤ cfg.OUT_BUFLEN) ∧
    ((claimed_slots cfg p (usb_wwan_write cfg env p intf buf count).1).map
        (fun i => (((usb_wwan_write cfg env p intf buf count).1.out_urbs i).transfer_buffer_length
          : Int))).sum
      = (usb_wwan_write cfg env p intf buf count).2.2 := by
  obtain ⟨h1, _, h3, h4, h5⟩ := write_loop_round_trip cfg env hcap cfg.N_OUT_URB 0
    { port := p, intf := intf, buf := buf, left := count } hbuf
  simp only [claimed_slots, usb_wwan_write, List.range_eq_range']
  exact ⟨by simpa using h1, h3, h4, h5⟩

/-- Witness of C2: 300 bytes written into the idle demo pool. -/
theorem usb_wwan_write_round_trip_witness :
    0 ≤ (usb_wwan_write demo_cfg demo_env demo_port demo_intf (List.range 300) 300).2.2 ∧
    ((claimed_slots demo_cfg demo_port
        (usb_wwan_write demo_cfg demo_env demo_port demo_intf (List.range 300) 300).1).map
        (fun i => payload
          (usb_wwan_write demo_cfg demo_env demo_port demo_intf (List.range 300) 300).1
          (Urb.out i))).flatten
      = (List.range 300).take
          (usb_wwan_write demo_cfg demo_env demo_port demo_intf (List.range 300) 300).2.2.toNat ∧
    (∀ i ∈ claimed_slots demo_cfg demo_port
        (usb_wwan_write demo_cfg demo_env demo_port demo_intf (List.range 300) 300).1,
      1 ≤ ((usb_wwan_write demo_cfg demo_env demo_port demo_intf (List.range 300) 300).1.out_urbs
            i).transfer_buffer_length ∧
      ((usb_wwan_write demo_cfg demo_env demo_port demo_intf (List.range 300) 300).1.out_urbs
            i).transfer_buffer_length ≤ demo_cfg.OUT_BUFLEN) ∧
    ((claimed_slots demo_cfg demo_port
        (usb_wwan_write demo_cfg demo_env demo_port demo_intf (List.range 300) 300).1).map
        (fun i => (((usb_wwan_write demo_cfg demo_env demo_port demo_intf (List.range 300)
          300).1.out_urbs i).transfer_buffer_length : Int))).sum
      = (usb_wwan_write demo_cfg demo_env demo_port demo_intf (List.range 300) 300).2.2 :=
  usb_wwan_write_round_trip demo_cfg demo_env demo_port demo_intf (List.range 300) 300
    (by decide) (by simp)

/-! ## The pool invariant and usb_wwan_write -/

theorem mem_unanchor (u v : Urb) (a : List Urb) :
    v ∈ usb_unanchor_urb u a ↔ v ∈ a ∧ v ≠ u := by
  simp [usb_unanchor_urb]

theorem mem_anchor (u v : Urb) (a : List Urb) :
    v ∈ usb_anchor_urb u a ↔ v ∈ a ∨ v = u := by
  simp [usb_anchor_urb]

/-- A port whose write side is unchanged keeps the pool invariant. -/
theorem PortInv.of_outSame {cfg : Config} {p p1 : Port} (h : PortInv cfg p) (hs : OutSame p p1) :
    PortInv cfg p1 where
  busy_iff i := by rw [hs.busy, hs.delayed, hs.flight]; exact h.busy_iff i
  disjoint i := by rw [hs.delayed, hs.flight]; exact h.disjoint i
  nodup := by rw [hs.delayed]; exact h.nodup
  delayed_out := by rw [hs.delayed]; exact h.delayed_out
  bound i := by rw [hs.busy]; exact h.bound i

theorem OutSame.refl (p : Port) : OutSame p p := ⟨rfl, rfl, fun _ => Iff.rfl⟩

theorem OutSame.trans {p p1 p2 : Port} (h1 : OutSame p p1) (h2 : OutSame p1 p2) : OutSame p p2 :=
  ⟨h2.busy.trans h1.busy, h2.delayed.trans h1.delayed, fun i => (h2.flight i).trans (h1.flight i)⟩

/-- One pass of the write loop over a slot of the pool keeps the pool invariant. -/
theorem write_slot_inv (cfg : Config) (env : WriteEnv) (i : Nat) (st : WriteLoop)
    (hi : i < cfg.N_OUT_URB) (h : PortInv cfg st.port) :
    PortInv cfg (write_slot cfg env i st).1.port := by
  have hfree : test_bit i st.port.out_busy = false →
      Urb.out i ∉ st.port.submitted ∧ Urb.out i ∉ st.port.delayed := by
    intro hb
    have := (h.busy_iff i).not
    simp only [hb, Bool.false_eq_true, not_false_eq_true, true_iff, not_or] at this
    exact this
  rcases write_slot_cases cfg env i st with ⟨_, _, e⟩ | ⟨_, _, e⟩ | ⟨_, _, e⟩ | ⟨hb, _, _, e⟩ |
    ⟨hb, _, _, _, e⟩ | ⟨hb, _, _, _, e⟩
  · rw [e]; exact h
  · rw [e]; exact h.of_outSame ⟨rfl, rfl, fun _ => Iff.rfl⟩
  · rw [e]; exact h
  · rw [e]
    obtain ⟨hns, hnd⟩ := hfree hb
    constructor
    · intro m
      simp only [test_bit_set_bit, Bool.or_eq_true, decide_eq_true_eq, List.mem_append,
        List.mem_singleton, Urb.out.injEq, h.busy_iff m]
      constructor
      · rintro (h1 | h1)
        · rcases h1 with h1 | h1
          · exact Or.inl h1
          · exact Or.inr (Or.inl h1)
        · exact Or.inr (Or.inr h1.symm)
      · rintro (h1 | h1 | h1)
        · exact Or.inl (Or.inl h1)
        · exact Or.inl (Or.inr h1)
        · exact Or.inr h1.symm
    · intro m hm
      simp only [List.mem_append, List.mem_singleton, Urb.out.injEq, not_or]
      refine ⟨h.disjoint m hm, ?_⟩
      rintro rfl
      exact hns hm
    · simp only
      rw [List.nodup_append]
      refine ⟨h.nodup, List.nodup_singleton _, ?_⟩
      intro u hu hu2
      simp only [List.mem_singleton] at hu2
      subst hu2
      exact hnd hu
    · intro u hu
      simp only [List.mem_append, List.mem_singleton] at hu
      rcases hu with hu | hu
      · exact h.delayed_out u hu
      · exact ⟨i, hu⟩
    · intro m
      simp only [test_bit_set_bit, Bool.or_eq_true, decide_eq_true_eq]
      rintro (h1 | h1)
      · exact h.bound m h1
      · omega
  · rw [e]
    obtain ⟨hns, hnd⟩ := hfree hb
    refine h.of_outSame ⟨rfl, rfl, fun m => ?_⟩
    simp only [mem_unanchor]
    constructor
    · exact fun h1 => h1.1
    · intro h1
      refine ⟨h1, ?_⟩
      rintro h2
      rw [h2] at h1
      exact hns h1
  · rw [e]
    obtain ⟨hns, hnd⟩ := hfree hb
    constructor
    · intro m
      simp only [test_bit_set_bit, Bool.or_eq_true, decide_eq_true_eq, List.mem_append,
        List.mem_singleton, Urb.out.injEq, h.busy_iff m]
      constructor
      · rintro (h1 | h1)
        · rcases h1 with h1 | h1
          · exact Or.inl (Or.inl h1)
          · exact Or.inr h1
        · exact Or.inl (Or.inr h1.symm)
      · rintro ((h1 | h1) | h1)
        · exact Or.inl (Or.inl h1)
        · exact Or.inr h1.symm
        · exact Or.inl (Or.inr h1)
    · intro m hm
      simp only [List.mem_append, List.mem_singleton, Urb.out.injEq] at hm
      rcases hm with hm | hm
      · exact h.disjoint m hm
      · subst hm; exact hnd
    · exact h.nodup
    · exact h.delayed_out
    · intro m
      simp only [test_bit_set_bit, Bool.or_eq_true, decide_eq_true_eq]
      rintro (h1 | h1)
      · exact h.bound m h1
      · omega

/-- The write loop over slots of the pool keeps the pool invariant. -/
theorem write_loop_inv (cfg : Config) (env : WriteEnv) :
    ∀ (n i : Nat) (st : WriteLoop), i + n ≤ cfg.N_OUT_URB → PortInv cfg st.port →
      PortInv cfg (write_loop cfg env n i st).port := by
  intro n
  induction n with
  | zero => intro i st _ h; simpa [write_loop] using h
  | succ n ih =>
    intro i st hin h
    by_cases hpos : st.left > 0
    · have hs := write_slot_inv cfg env i st (by omega) h
      cases hr : write_slot cfg env i st with
      | mk st1 flag =>
        rw [hr] at hs
        cases flag with
        | true =>
          rw [write_loop_succ_continue cfg env n i st st1 hpos hr]
          exact ih (i + 1) st1 (by omega) hs
        | false =>
          rw [write_loop_succ_break cfg env n i st st1 hpos hr]
          exact hs
    · rw [write_loop_done cfg env (n + 1) i st hpos]
      exact h

/-- The function usb_wwan_write keeps the pool invariant. -/
theorem usb_wwan_write_inv (cfg : Config) (env : WriteEnv) (p : Port) (intf : Intf)
    (buf : List Byte) (count : Int) (h : PortInv cfg p) :
    PortInv cfg (usb_wwan_write cfg env p intf buf count).1 :=
  write_loop_inv cfg env cfg.N_OUT_URB 0 _ (by omega) h

/-! ## The pool invariant and the delayed anchor -/

theorem find_range' (i : Nat) : ∀ (n s : Nat),
    (List.range' s n).find? (fun x => decide (Urb.out x = Urb.out i))
      = if s ≤ i ∧ i < s + n then some i else none := by
  intro n
  induction n with
  | zero =>
    intro s
    have : ¬ (s ≤ i ∧ i < s) := by omega
    simp [this]
  | succ n ih =>
    intro s
    rw [List.range'_succ, List.find?_cons]
    by_cases h : s = i
    · subst h
      simp
    · have : decide (Urb.out s = Urb.out i) = false := by simp [h]
      rw [this, ih]
      by_cases h2 : s + 1 ≤ i ∧ i < s + 1 + n
      · have h3 : s ≤ i ∧ i < s + (n + 1) := by omega
        simp [h2, h3]
      · have h3 : ¬ (s ≤ i ∧ i < s + (n + 1)) := by omega
        simp [h2, h3]

theorem find_out_urb_out (cfg : Config) (i : Nat) :
    find_out_urb cfg (Urb.out i) = if i < cfg.N_OUT_URB then some i else none := by
  unfold find_out_urb
  rw [List.range_eq_range', find_range']
  simp

theorem find_out_urb_inp (cfg : Config) (j : Nat) : find_out_urb cfg (Urb.inp j) = none := by
  unfold find_out_urb
  rw [List.find?_eq_none]
  intro x _
  simp

/-- Releasing the head of the delayed anchor keeps the pool invariant. -/
theorem PortInv.drop_head {cfg : Config} {p : Port} {u : Urb} {rest : List Urb}
    (h : PortInv cfg { p with delayed := u :: rest }) :
    PortInv cfg (unbusy_queued_urb cfg u { p with delayed := rest }) := by
  obtain ⟨i, rfl⟩ := h.delayed_out u (by simp)
  have hbusy : test_bit i p.out_busy = true := (h.busy_iff i).mpr (Or.inr (by simp))
  have hi : i < cfg.N_OUT_URB := h.bound i hbusy
  have hnd := h.nodup
  simp only [List.nodup_cons] at hnd
  have hns : Urb.out i ∉ p.submitted := fun hm => h.disjoint i hm (by simp)
  simp only [unbusy_queued_urb, find_out_urb_out, hi, if_true]
  constructor
  · intro m
    simp only [test_bit_clear_bit, Bool.and_eq_true, Bool.not_eq_true', decide_eq_false_iff_not]
    have := h.busy_iff m
    simp only [List.mem_cons, Urb.out.injEq] at this
    rw [this]
    constructor
    · rintro ⟨h1 | h1 | h1, h2⟩
      · exact Or.inl h1
      · exact absurd h1.symm h2
      · exact Or.inr h1
    · rintro (h1 | h1)
      · refine ⟨Or.inl h1, ?_⟩
        rintro rfl
        exact hns h1
      · refine ⟨Or.inr (Or.inr h1), ?_⟩
        rintro rfl
        exact hnd.1 h1
  · intro m hm hm2
    exact h.disjoint m hm (List.mem_cons_of_mem _ hm2)
  · exact hnd.2
  · intro v hv
    exact h.delayed_out v (List.mem_cons_of_mem _ hv)
  · intro m
    simp only [test_bit_clear_bit, Bool.and_eq_true]
    exact fun h1 => h.bound m h1.1

/-- The loop of usb_wwan_close over the delayed anchor keeps the pool invariant. -/
theorem close_drain_inv (cfg : Config) : ∀ (l : List Urb) (p : Port) (intf : Intf),
    PortInv cfg { p with delayed := l } → PortInv cfg (close_drain cfg l p intf).1 := by
  intro l
  induction l with
  | nil => intro p intf h; exact h
  | cons u rest ih =>
    intro p intf h
    simp only [close_drain]
    apply ih
    have := h.drop_head
    exact this.of_outSame ⟨rfl, by simp [unbusy_queued_urb]; split <;> rfl, fun _ => Iff.rfl⟩

/-- The throw-away loop of play_delayed keeps the pool invariant. -/
theorem play_drop_inv (cfg : Config) : ∀ (l : List Urb) (p : Port) (intf : Intf),
    PortInv cfg { p with delayed := l } → PortInv cfg (play_drop cfg l p intf).1 := by
  intro l
  induction l with
  | nil => intro p intf h; exact h
  | cons u rest ih =>
    intro p intf h
    simp only [play_drop]
    apply ih
    have := h.drop_head
    exact this.of_outSame ⟨rfl, by simp [unbusy_queued_urb]; split <;> rfl, fun _ => Iff.rfl⟩

/-- The function play_delayed keeps the pool invariant. -/
theorem play_delayed_inv (cfg : Config) (sub : Urb → Int) : ∀ (l : List Urb) (p : Port) (intf : Intf),
    PortInv cfg { p with delayed := l } → PortInv cfg (play_delayed cfg sub l p intf).1 := by
  intro l
  induction l with
  | nil => intro p intf h; exact h
  | cons u rest ih =>
    intro p intf h
    obtain ⟨i, rfl⟩ := h.delayed_out u (by simp)
    have hnd := h.nodup
    simp only [List.nodup_cons] at hnd
    have hns : Urb.out i ∉ p.submitted := fun hm => h.disjoint i hm (by simp)
    simp only [play_delayed]
    split
    · apply ih
      constructor
      · intro m
        have := h.busy_iff m
        simp only [List.mem_cons, Urb.out.injEq] at this
        simp only [usb_submit_urb, usb_anchor_urb, List.mem_append, List.mem_singleton,
          Urb.out.injEq, this]
        tauto
      · intro m hm
        simp only [usb_submit_urb, usb_anchor_urb, List.mem_append, List.mem_singleton,
          Urb.out.injEq] at hm ⊢
        rcases hm with hm | hm
        · exact fun h2 => h.disjoint m hm (List.mem_cons_of_mem _ h2)
        · subst hm; exact hnd.1
      · exact hnd.2
      · intro v hv
        exact h.delayed_out v (List.mem_cons_of_mem _ hv)
      · exact h.bound
    · apply play_drop_inv
      refine h.of_outSame ⟨rfl, rfl, fun m => ?_⟩
      simp only [usb_submit_urb, unanchor_anchor, mem_unanchor]
      constructor
      · exact fun h1 => h1.1
      · intro h1
        refine ⟨h1, ?_⟩
        intro h2
        rw [h2] at h1
        exact hns h1

/-! ## The pool invariant and the other operations of a port -/

/-- Anchoring or unanchoring a read request does not change which write requests
are on an anchor. -/
theorem out_mem_anchor_inp (i j : Nat) (a : List Urb) :
    Urb.out i ∈ usb_anchor_urb (Urb.inp j) a ↔ Urb.out i ∈ a := by
  simp [usb_anchor_urb]

theorem out_mem_unanchor_inp (i j : Nat) (a : List Urb) :
    Urb.out i ∈ usb_unanchor_urb (Urb.inp j) a ↔ Urb.out i ∈ a := by
  simp [usb_unanchor_urb]

/-- The completion handler of a read request leaves the write side alone. -/
theorem indat_callback_outSame (j : Nat) (status suberr : Int) (p : Port) (intf : Intf) :
    OutSame p (usb_wwan_indat_callback j status suberr p intf) := by
  unfold usb_wwan_indat_callback
  split
  · exact ⟨rfl, rfl, fun _ => Iff.rfl⟩
  · split
    · exact OutSame.refl p
    · split
      · split
        · refine ⟨rfl, rfl, fun i => ?_⟩
          simp [usb_submit_urb, out_mem_unanchor_inp, out_mem_anchor_inp]
        · refine ⟨rfl, rfl, fun i => ?_⟩
          simp [usb_submit_urb, out_mem_anchor_inp]
      · exact OutSame.refl p

/-- The give-back of a read request leaves the write side alone. -/
theorem giveback_in_outSame (j : Nat) (status : Int) (data : List Byte) (suberr : Int)
    (p : Port) (intf : Intf) : OutSame p (giveback_in j status data suberr p intf) := by
  unfold giveback_in
  split
  · refine OutSame.trans ?_ (indat_callback_outSame j status suberr _ intf)
    refine ⟨rfl, rfl, fun i => ?_⟩
    simp [receive, out_mem_unanchor_inp]
  · exact OutSame.refl p

/-- The give-back of a write request keeps the pool invariant. -/
theorem giveback_out_inv (cfg : Config) (i : Nat) (p : Port) (intf : Intf)
    (h : PortInv cfg p) : PortInv cfg (giveback_out cfg i p intf).1 := by
  unfold giveback_out
  split
  · rename_i hm
    have hm : Urb.out i ∈ p.submitted := by simpa using hm
    have hbusy : test_bit i p.out_busy = true := (h.busy_iff i).mpr (Or.inl hm)
    have hi : i < cfg.N_OUT_URB := h.bound i hbusy
    simp only [usb_wwan_outdat_callback, find_out_urb_out, hi, if_true]
    constructor
    · intro m
      simp only [test_bit_clear_bit, Bool.and_eq_true, Bool.not_eq_true', decide_eq_false_iff_not,
        mem_unanchor, ne_eq, Urb.out.injEq, h.busy_iff m]
      constructor
      · rintro ⟨h1 | h1, h2⟩
        · exact Or.inl ⟨h1, fun h3 => h2 h3.symm⟩
        · exact Or.inr h1
      · rintro (⟨h1, h2⟩ | h1)
        · exact ⟨Or.inl h1, fun h3 => h2 h3.symm⟩
        · refine ⟨Or.inr h1, ?_⟩
          rintro rfl
          exact h.disjoint i hm h1
    · intro m hm1
      simp only [mem_unanchor] at hm1
      exact h.disjoint m hm1.1
    · exact h.nodup
    · exact h.delayed_out
    · intro m
      simp only [test_bit_clear_bit, Bool.and_eq_true]
      exact fun h1 => h.bound m h1.1
  · exact h

/-- The call usb_kill_urb keeps the pool invariant. -/
theorem usb_kill_urb_inv (cfg : Config) (kdata : Nat → List Byte) (u : Urb) (p : Port)
    (intf : Intf) (h : PortInv cfg p) : PortInv cfg (usb_kill_urb cfg kdata u p intf).1 := by
  cases u with
  | out i => exact giveback_out_inv cfg i p intf h
  | inp j => exact h.of_outSame (giveback_in_outSame j _ _ _ p intf)

/-- Killing a list of requests keeps the pool invariant. -/
theorem kill_list_inv (cfg : Config) (kdata : Nat → List Byte) :
    ∀ (l : List Urb) (p : Port) (intf : Intf), PortInv cfg p →
      PortInv cfg (kill_list cfg kdata l p intf).1 := by
  intro l
  induction l with
  | nil => intro p intf h; exact h
  | cons u us ih =>
    intro p intf h
    simp only [kill_list]
    exact ih _ _ (usb_kill_urb_inv cfg kdata u p intf h)

/-- The function usb_wwan_close keeps the pool invariant. -/
theorem usb_wwan_close_inv (cfg : Config) (kdata : Nat → List Byte) (dev : Bool) (p : Port)
    (intf : Intf) (h : PortInv cfg p) : PortInv cfg (usb_wwan_close cfg kdata dev p intf).1 := by
  unfold usb_wwan_close
  split
  · simp only
    apply kill_list_inv
    apply kill_list_inv
    apply close_drain_inv
    exact h.of_outSame ⟨rfl, rfl, fun _ => Iff.rfl⟩
  · exact h

/-- The loop of usb_wwan_open leaves the write side alone. -/
theorem open_in_urbs_outSame (sub : Nat → Int) : ∀ (n j : Nat) (p : Port),
    OutSame p (open_in_urbs sub n j p) := by
  intro n
  induction n with
  | zero => intro j p; exact OutSame.refl p
  | succ n ih =>
    intro j p
    simp only [open_in_urbs]
    refine OutSame.trans ?_ (ih (j + 1) _)
    split
    · refine ⟨rfl, rfl, fun i => ?_⟩
      simp [usb_submit_urb, out_mem_unanchor_inp, out_mem_anchor_inp]
    · refine ⟨rfl, rfl, fun i => ?_⟩
      simp [usb_submit_urb, out_mem_anchor_inp]

/-- The function usb_wwan_open leaves the write side alone. -/
theorem usb_wwan_open_outSame (cfg : Config) (sub : Nat → Int) (p : Port) (intf : Intf) :
    OutSame p (usb_wwan_open cfg sub p intf).1 := by
  have := open_in_urbs_outSame sub cfg.N_IN_URB 0 p
  exact ⟨this.busy, this.delayed, this.flight⟩

/-- The loop of usb_wwan_in_work leaves the write side alone. -/
theorem in_work_loop_outSame (env : WorkEnv) (intf : Intf) : ∀ (q : List Nat) (k : Nat) (p : Port),
    OutSame p (in_work_loop env intf q k p) := by
  intro q
  induction q with
  | nil => intro k p; exact ⟨rfl, rfl, fun _ => Iff.rfl⟩
  | cons urb rest ih =>
    intro k p
    simp only [in_work_loop]
    split
    · exact ⟨rfl, rfl, fun _ => Iff.rfl⟩
    · split
      · exact ⟨rfl, rfl, fun _ => Iff.rfl⟩
      · split
        · exact ⟨rfl, rfl, fun _ => Iff.rfl⟩
        · refine OutSame.trans ?_ (ih (k + 1) _)
          split
          · split
            · refine ⟨rfl, rfl, fun i => ?_⟩
              simp [usb_submit_urb, out_mem_unanchor_inp, out_mem_anchor_inp]
            · refine ⟨rfl, rfl, fun i => ?_⟩
              simp [usb_submit_urb, out_mem_anchor_inp]
          · exact ⟨rfl, rfl, fun _ => Iff.rfl⟩

/-- The function usb_wwan_in_work leaves the write side alone. -/
theorem usb_wwan_in_work_outSame (env : WorkEnv) (p : Port) (intf : Intf) :
    OutSame p (usb_wwan_in_work env p intf) := by
  have h := in_work_loop_outSame env intf p.in_urb_list 0 { p with in_work_pending := false }
  exact ⟨h.busy, h.delayed, h.flight⟩

/-- The read loop of usb_wwan_resume leaves the write side alone. -/
theorem resume_in_urbs_outSame (sub : Urb → Int) : ∀ (n j : Nat) (p : Port) (err : Int),
    OutSame p (resume_in_urbs sub n j p err).1 := by
  intro n
  induction n with
  | zero => intro j p err; exact OutSame.refl p
  | succ n ih =>
    intro j p err
    simp only [resume_in_urbs]
    split
    · exact ih (j + 1) p err
    · split
      · refine ⟨rfl, rfl, fun i => ?_⟩
        simp [usb_submit_urb, out_mem_unanchor_inp, out_mem_anchor_inp]
      · refine OutSame.trans ?_ (ih (j + 1) _ _)
        refine ⟨rfl, rfl, fun i => ?_⟩
        simp [usb_submit_urb, out_mem_anchor_inp]

/-- The body of the loop of usb_wwan_resume keeps the pool invariant. -/
theorem resume_port_inv (cfg : Config) (sub : Urb → Int) (p : Port) (intf : Intf)
    (h : PortInv cfg p) : PortInv cfg (resume_port cfg sub p intf).1 := by
  have h1 : PortInv cfg (play_delayed cfg sub p.delayed p intf).1 :=
    play_delayed_inv cfg sub p.delayed p intf h
  have h2 := h1.of_outSame (resume_in_urbs_outSame sub cfg.N_IN_URB 0
    (play_delayed cfg sub p.delayed p intf).1 (play_delayed cfg sub p.delayed p intf).2.2)
  unfold resume_port
  simp only
  split
  · exact play_delayed_inv cfg sub _ _ _ h2
  · exact h2

/-! ## The busy-bitmap invariant on reachable states -/

/-- Replacing a port by one that satisfies the pool invariant keeps it on every port. -/
theorem set_inv {cfg : Config} {s : Serial} (h : ∀ k, PortInv cfg (s.port k)) (k : Nat)
    (p : Port) (intf : Intf) (hp : PortInv cfg p) : ∀ m, PortInv cfg ((s.set k p intf).port m) := by
  intro m
  by_cases hm : m = k
  · subst hm; simpa [Serial.set] using hp
  · simpa [Serial.set, Function.update_noteq hm] using h m

theorem stop_ports_inv (cfg : Config) (kdata : Nat → Nat → List Byte) :
    ∀ (ks : List Nat) (s : Serial), (∀ k, PortInv cfg (s.port k)) →
      ∀ k, PortInv cfg ((stop_ports cfg kdata ks s).port k) := by
  intro ks
  induction ks with
  | nil => intro s h; exact h
  | cons k ks ih =>
    intro s h
    simp only [stop_ports]
    apply ih
    exact set_inv h k _ _ (kill_list_inv cfg (kdata k) _ _ _ (h k))

theorem usb_wwan_suspend_inv (cfg : Config) (env : SuspendEnv) (s : Serial)
    (h : ∀ k, PortInv cfg (s.port k)) : ∀ k, PortInv cfg ((usb_wwan_suspend cfg env s).1.port k) := by
  unfold usb_wwan_suspend
  split
  · exact h
  · exact stop_ports_inv cfg env.kdata _ _ h

theorem resume_ports_inv (cfg : Config) (sub : Nat → Urb → Int) :
    ∀ (ks : List Nat) (s : Serial) (err : Int), (∀ k, PortInv cfg (s.port k)) →
      ∀ k, PortInv cfg ((resume_ports cfg sub ks s err).1.port k) := by
  intro ks
  induction ks with
  | nil => intro s err h; exact h
  | cons k ks ih =>
    intro s err h
    simp only [resume_ports]
    split
    · exact ih s err h
    · have hs := set_inv h k (resume_port cfg (sub k) (s.port k) s.intf).1
        (resume_port cfg (sub k) (s.port k) s.intf).2.1 (resume_port_inv cfg (sub k) _ _ (h k))
      split
      · exact ih _ _ hs
      · exact hs

theorem usb_wwan_resume_inv (cfg : Config) (env : ResumeEnv) (s : Serial)
    (h : ∀ k, PortInv cfg (s.port k)) : ∀ k, PortInv cfg ((usb_wwan_resume cfg env s).1.port k) :=
  resume_ports_inv cfg env.submit _ _ _ h

theorem startup_port_inv (cfg : Config) (om im : Nat → List Byte) :
    PortInv cfg (startup_port cfg om im) where
  busy_iff i := by simp [startup_port, test_bit]
  disjoint i := by simp [startup_port]
  nodup := by simp [startup_port]
  delayed_out := by simp [startup_port]
  bound i := by simp [startup_port, test_bit]

theorem step_inv (cfg : Config) {s s1 : Serial} (hstep : Step cfg s s1)
    (h : ∀ k, PortInv cfg (s.port k)) : ∀ k, PortInv cfg (s1.port k) := by
  cases hstep with
  | op_open k hk sub =>
    exact set_inv h k _ _ ((h k).of_outSame (usb_wwan_open_outSame cfg sub _ _))
  | op_write k hk env buf count =>
    exact set_inv h k _ _ (usb_wwan_write_inv cfg env _ _ buf count (h k))
  | write_done k hk i => exact set_inv h k _ _ (giveback_out_inv cfg i _ _ (h k))
  | read_done k hk j status data suberr =>
    exact set_inv h k _ _ ((h k).of_outSame (giveback_in_outSame j status data suberr _ _))
  | op_in_work k hk env =>
    exact set_inv h k _ _ ((h k).of_outSame (usb_wwan_in_work_outSame env _ _))
  | op_throttle k hk =>
    exact set_inv h k _ _ ((h k).of_outSame ⟨rfl, rfl, fun _ => Iff.rfl⟩)
  | op_unthrottle k hk =>
    exact set_inv h k _ _ ((h k).of_outSame ⟨rfl, rfl, fun _ => Iff.rfl⟩)
  | op_suspend env => exact usb_wwan_suspend_inv cfg env s h
  | op_resume env => exact usb_wwan_resume_inv cfg env s h
  | op_close k hk kdata dev => exact set_inv h k _ _ (usb_wwan_close_inv cfg kdata dev _ _ (h k))
  | op_disconnect kdata => exact stop_ports_inv cfg kdata _ _ h

theorem reachable_inv (cfg : Config) (n : Nat) (om im : Nat → Nat → List Byte) (pm0 : Int)
    {s : Serial} (hr : Reachable cfg (startup_serial cfg n om im pm0) s) :
    ∀ k, PortInv cfg (s.port k) := by
  induction hr with
  | init => intro k; exact startup_port_inv cfg _ _
  | step _ hstep ih => exact step_inv cfg hstep ih

/-- C10. In every state reached from a freshly started device by open, write, write
completion, suspend, resume, close and disconnect steps (and the steps of the read
side), bit i of out_busy of a port is set exactly when out_urbs[i] is in flight or on
the delayed anchor of the port. -/
theorem busy_bitmap_invariant (cfg : Config) (n : Nat) (om im : Nat → Nat → List Byte) (pm0 : Int)
    (s : Serial) (hr : Reachable cfg (startup_serial cfg n om im pm0) s) (k i : Nat) :
    test_bit i (s.port k).out_busy = true ↔
      (Urb.out i ∈ (s.port k).submitted ∨ Urb.out i ∈ (s.port k).delayed) :=
  (reachable_inv cfg n om im pm0 hr k).busy_iff i

/-- Witness of C10: the demo device after an open, a system suspend and a write of 200 bytes
that is queued on the delayed anchor. -/
theorem busy_bitmap_invariant_witness :
    Reachable demo_cfg demo_serial
      (demo_suspended.set 0
        (usb_wwan_write demo_cfg demo_env (demo_suspended.port 0) demo_suspended.intf
          (List.range 200) 200).1
        (usb_wwan_write demo_cfg demo_env (demo_suspended.port 0) demo_suspended.intf
          (List.range 200) 200).2.1) ∧
    (test_bit 3 ((demo_suspended.set 0
        (usb_wwan_write demo_cfg demo_env (demo_suspended.port 0) demo_suspended.intf
          (List.range 200) 200).1
        (usb_wwan_write demo_cfg demo_env (demo_suspended.port 0) demo_suspended.intf
          (List.range 200) 200).2.1).port 0).out_busy = true ↔
      (Urb.out 3 ∈ ((demo_suspended.set 0
        (usb_wwan_write demo_cfg demo_env (demo_suspended.port 0) demo_suspended.intf
          (List.range 200) 200).1
        (usb_wwan_write demo_cfg demo_env (demo_suspended.port 0) demo_suspended.intf
          (List.range 200) 200).2.1).port 0).submitted ∨
       Urb.out 3 ∈ ((demo_suspended.set 0
        (usb_wwan_write demo_cfg demo_env (demo_suspended.port 0) demo_suspended.intf
          (List.range 200) 200).1
        (usb_wwan_write demo_cfg demo_env (demo_suspended.port 0) demo_suspended.intf
          (List.range 200) 200).2.1).port 0).delayed)) :=
  ⟨Reachable.step (Reachable.step (Reachable.step Reachable.init (Step.op_open demo_serial 0 (by decide) (fun _ => 0)))
        (Step.op_suspend demo_opened demo_suspend_env))
      (Step.op_write demo_suspended 0 (by decide) demo_env (List.range 200) 200),
    busy_bitmap_invariant demo_cfg 1 _ _ 0 _
      (Reachable.step (Reachable.step (Reachable.step Reachable.init (Step.op_open demo_serial 0 (by decide) (fun _ => 0)))
        (Step.op_suspend demo_opened demo_suspend_env))
        (Step.op_write demo_suspended 0 (by decide) demo_env (List.range 200) 200)) 0 3⟩

/-! ## Writes on a suspended interface -/

/-- A busy bit stays set through the write loop. -/
theorem write_loop_busy_mono (cfg : Config) (env : WriteEnv) :
    ∀ (n i : Nat) (st : WriteLoop) (m : Nat), test_bit m st.port.out_busy = true →
      test_bit m (write_loop cfg env n i st).port.out_busy = true := by
  intro n
  induction n with
  | zero => intro i st m h; simpa [write_loop] using h
  | succ n ih =>
    intro i st m h
    by_cases hpos : st.left > 0
    · cases hr : write_slot cfg env i st with
      | mk st1 flag =>
        have hsum := write_slot_summary cfg env i st
        rw [hr] at hsum
        simp only at hsum
        have h1 : test_bit m st1.port.out_busy = true := by
          rcases hsum with ⟨_, _, hb, _⟩ | ⟨_, _, hb, _⟩ | ⟨_, hb, _⟩
          · rw [hb]; exact h
          · rw [hb, test_bit_set_bit, h]; rfl
          · rw [hb]; exact h
        cases flag with
        | true =>
          rw [write_loop_succ_continue cfg env n i st st1 hpos hr]
          exact ih (i + 1) st1 m h1
        | false =>
          rw [write_loop_succ_break cfg env n i st st1 hpos hr]
          exact h1
    · rw [write_loop_done cfg env (n + 1) i st hpos]
      exact h

/-- While the interface is suspended the write loop submits nothing: the wire, the
submitted anchor and in_flight are as before, and each claimed request is appended
to the delayed anchor with its busy bit set. -/
theorem write_loop_suspended (cfg : Config) (env : WriteEnv) :
    ∀ (n i : Nat) (st : WriteLoop), st.intf.suspended = true →
      (write_loop cfg env n i st).port.wire = st.port.wire ∧
      (write_loop cfg env n i st).port.submitted = st.port.submitted ∧
      (write_loop cfg env n i st).intf.in_flight = st.intf.in_flight ∧
      (write_loop cfg env n i st).intf.suspended = true ∧
      ∃ added, (write_loop cfg env n i st).port.delayed = st.port.delayed ++ added ∧
        ∀ u ∈ added, ∃ m, u = Urb.out m ∧
          test_bit m (write_loop cfg env n i st).port.out_busy = true := by
  intro n
  induction n with
  | zero => intro i st hs; exact ⟨rfl, rfl, rfl, hs, [], by simp [write_loop], by simp⟩
  | succ n ih =>
    intro i st hs
    by_cases hpos : st.left > 0
    · rcases write_slot_cases cfg env i st with ⟨_, _, e⟩ | ⟨_, _, e⟩ | ⟨_, _, e⟩ | ⟨hb, _, _, e⟩ |
        ⟨_, _, hs2, _, _⟩ | ⟨_, _, hs2, _, _⟩
      · rw [write_loop_succ_continue cfg env n i st _ hpos e]
        exact ih (i + 1) st hs
      · rw [write_loop_succ_continue cfg env n i st _ hpos e]
        exact ih (i + 1) { st with port := usb_unlink_urb (Urb.out i) st.port } hs
      · rw [write_loop_succ_break cfg env n i st _ hpos e]
        exact ⟨rfl, rfl, rfl, hs, [], by simp, by simp⟩
      · have f0 : write_slot cfg env i st = ((write_slot cfg env i st).1, true) := by rw [e]
        have f1 : (write_slot cfg env i st).1.intf.suspended = true := by rw [e]; exact hs
        have f2 : (write_slot cfg env i st).1.port.wire = st.port.wire := by rw [e]
        have f3 : (write_slot cfg env i st).1.port.submitted = st.port.submitted := by rw [e]
        have f4 : (write_slot cfg env i st).1.intf.in_flight = st.intf.in_flight := by rw [e]
        have f5 : (write_slot cfg env i st).1.port.delayed = st.port.delayed ++ [Urb.out i] := by
          rw [e]
        have f6 : test_bit i (write_slot cfg env i st).1.port.out_busy = true := by
          rw [e]; simp [test_bit_set_bit]
        rw [write_loop_succ_continue cfg env n i st _ hpos f0]
        obtain ⟨h1, h2, h3, h4, added, h5, h6⟩ := ih (i + 1) (write_slot cfg env i st).1 f1
        refine ⟨h1.trans f2, h2.trans f3, h3.trans f4, h4, Urb.out i :: added, ?_, ?_⟩
        · rw [h5, f5]; simp
        · intro u hu
          rcases List.mem_cons.mp hu with rfl | hu
          · exact ⟨i, rfl, write_loop_busy_mono cfg env n (i + 1) _ i f6⟩
          · exact h6 u hu
      · rw [hs] at hs2; cases hs2
      · rw [hs] at hs2; cases hs2
    · rw [write_loop_done cfg env (n + 1) i st hpos]
      exact ⟨rfl, rfl, rfl, hs, [], by simp, by simp⟩

/-- A busy bit stays set through a sequence of writes. -/
theorem writes_busy_mono (cfg : Config) : ∀ (calls : List (WriteEnv × List Byte × Int))
    (p : Port) (intf : Intf) (m : Nat), test_bit m p.out_busy = true →
      test_bit m (writes cfg calls p intf).1.out_busy = true := by
  intro calls
  induction calls with
  | nil => intro p intf m h; exact h
  | cons c cs ih =>
    intro p intf m h
    simp only [writes]
    exact ih _ _ m (write_loop_busy_mono cfg c.1 cfg.N_OUT_URB 0 _ m h)

/-- A sequence of writes keeps the pool invariant. -/
theorem writes_inv (cfg : Config) : ∀ (calls : List (WriteEnv × List Byte × Int)) (p : Port)
    (intf : Intf), PortInv cfg p → PortInv cfg (writes cfg calls p intf).1 := by
  intro calls
  induction calls with
  | nil => intro p intf h; exact h
  | cons c cs ih =>
    intro p intf h
    simp only [writes]
    exact ih _ _ (usb_wwan_write_inv cfg c.1 p intf c.2.1 c.2.2 h)

/-- A sequence of writes on a suspended interface submits nothing and queues what it
claims. -/
theorem writes_suspended (cfg : Config) : ∀ (calls : List (WriteEnv × List Byte × Int))
    (p : Port) (intf : Intf), intf.suspended = true →
      (writes cfg calls p intf).1.wire = p.wire ∧
      (writes cfg calls p intf).1.submitted = p.submitted ∧
      (writes cfg calls p intf).2.in_flight = intf.in_flight ∧
      (writes cfg calls p intf).2.suspended = true ∧
      ∃ added, (writes cfg calls p intf).1.delayed = p.delayed ++ added ∧
        ∀ u ∈ added, ∃ m, u = Urb.out m ∧ test_bit m (writes cfg calls p intf).1.out_busy = true := by
  intro calls
  induction calls with
  | nil => intro p intf hs; exact ⟨rfl, rfl, rfl, hs, [], by simp [writes], by simp⟩
  | cons c cs ih =>
    intro p intf hs
    obtain ⟨a1, a2, a3, a4, add1, a5, a6⟩ := write_loop_suspended cfg c.1 cfg.N_OUT_URB 0
      { port := p, intf := intf, buf := c.2.1, left := c.2.2 } hs
    obtain ⟨b1, b2, b3, b4, add2, b5, b6⟩ := ih (usb_wwan_write cfg c.1 p intf c.2.1 c.2.2).1
      (usb_wwan_write cfg c.1 p intf c.2.1 c.2.2).2.1 a4
    simp only [writes]
    refine ⟨b1.trans a1, b2.trans a2, b3.trans a3, b4, add1 ++ add2, ?_, ?_⟩
    · rw [b5]
      simp only [usb_wwan_write]
      rw [a5, List.append_assoc]
    · intro u hu
      rcases List.mem_append.mp hu with hu | hu
      · obtain ⟨m, rfl, hm⟩ := a6 u hu
        refine ⟨m, rfl, ?_⟩
        exact writes_busy_mono cfg cs _ _ m hm
      · exact b6 u hu

/-! ## Replay of the delayed anchor -/

theorem unbusy_fields (cfg : Config) (u : Urb) (p : Port) :
    (unbusy_queued_urb cfg u p).wire = p.wire ∧
    (unbusy_queued_urb cfg u p).submitted = p.submitted ∧
    (unbusy_queued_urb cfg u p).delayed = p.delayed := by
  unfold unbusy_queued_urb
  split <;> exact ⟨rfl, rfl, rfl⟩

/-- The throw-away loop of play_delayed empties the delayed anchor and touches
neither the wire nor the submitted anchor. -/
theorem play_drop_fields (cfg : Config) : ∀ (l : List Urb) (p : Port) (intf : Intf),
    (play_drop cfg l p intf).1.wire = p.wire ∧
    (play_drop cfg l p intf).1.submitted = p.submitted ∧
    (play_drop cfg l p intf).1.delayed = [] ∧
    (play_drop cfg l p intf).2.in_flight = intf.in_flight ∧
    (play_drop cfg l p intf).2.suspended = intf.suspended := by
  intro l
  induction l with
  | nil => intro p intf; exact ⟨rfl, rfl, rfl, rfl, rfl⟩
  | cons u rest ih =>
    intro p intf
    simp only [play_drop]
    obtain ⟨h1, h2, h3, h4, h5⟩ := ih (unbusy_queued_urb cfg u { p with delayed := rest })
      { intf with pm_usage_cnt := intf.pm_usage_cnt - 1 }
    obtain ⟨g1, g2, _⟩ := unbusy_fields cfg u { p with delayed := rest }
    exact ⟨h1.trans g1, h2.trans g2, h3, h4, h5⟩

theorem submitted_writes_append (w1 w2 : List WireEv) :
    submitted_writes (w1 ++ w2) = submitted_writes w1 ++ submitted_writes w2 := by
  simp [submitted_writes, List.filter_append]

/-- The function play_delayed leaves the delayed anchor empty. -/
theorem play_delayed_empty (cfg : Config) (sub : Urb → Int) :
    ∀ (l : List Urb) (p : Port) (intf : Intf), (play_delayed cfg sub l p intf).1.delayed = [] := by
  intro l
  induction l with
  | nil => intro p intf; rfl
  | cons u rest ih =>
    intro p intf
    simp only [play_delayed]
    split
    · exact ih _ _
    · exact (play_drop_fields cfg _ _ _).2.2.1

/-- The write requests play_delayed submits with success are the longest run of
accepted requests at the head of the delayed anchor, in order. -/
theorem play_delayed_wire (cfg : Config) (sub : Urb → Int) :
    ∀ (l : List Urb) (p : Port) (intf : Intf), (∀ u ∈ l, ∃ i, u = Urb.out i) →
      submitted_writes (play_delayed cfg sub l p intf).1.wire
        = submitted_writes p.wire ++ l.takeWhile (fun u => decide (sub u = 0)) := by
  intro l
  induction l with
  | nil => intro p intf _; simp [play_delayed]
  | cons u rest ih =>
    intro p intf hl
    obtain ⟨i, rfl⟩ := hl u (by simp)
    simp only [play_delayed]
    split
    · rename_i he
      rw [ih _ _ (fun v hv => hl v (List.mem_cons_of_mem _ hv))]
      simp [usb_submit_urb, submitted_writes_append, submitted_writes, he]
    · rename_i he
      rw [(play_drop_fields cfg _ _ _).1]
      simp [usb_submit_urb, submitted_writes_append, submitted_writes, he]

/-- A request on the submitted anchor after play_delayed was there before or is one
of the requests play_delayed submitted with success. -/
theorem play_delayed_submitted (cfg : Config) (sub : Urb → Int) :
    ∀ (l : List Urb) (p : Port) (intf : Intf) (v : Urb),
      v ∈ (play_delayed cfg sub l p intf).1.submitted →
      v ∈ p.submitted ∨ v ∈ l.takeWhile (fun u => decide (sub u = 0)) := by
  intro l
  induction l with
  | nil => intro p intf v hv; exact Or.inl hv
  | cons u rest ih =>
    intro p intf v hv
    simp only [play_delayed] at hv
    split at hv
    · rename_i he
      rcases ih _ _ v hv with h | h
      · simp only [usb_submit_urb, usb_anchor_urb, List.mem_append, List.mem_singleton] at h
        rcases h with h | h
        · exact Or.inl h
        · subst h
          simp [List.takeWhile_cons, he]
      · simp [List.takeWhile_cons, he, h]
    · rw [(play_drop_fields cfg _ _ _).2.1] at hv
      simp only [usb_submit_urb, unanchor_anchor, mem_unanchor] at hv
      exact Or.inl hv.1

/-! ## Deferred writes across suspend and resume -/

/-- The read loop of usb_wwan_resume submits no write request. -/
theorem resume_in_urbs_writes (sub : Urb → Int) : ∀ (n j : Nat) (p : Port) (err : Int),
    submitted_writes (resume_in_urbs sub n j p err).1.wire = submitted_writes p.wire := by
  intro n
  induction n with
  | zero => intro j p err; rfl
  | succ n ih =>
    intro j p err
    simp only [resume_in_urbs]
    split
    · exact ih (j + 1) p err
    · split
      · simp [usb_submit_urb, submitted_writes_append, submitted_writes]
      · rw [ih]
        simp [usb_submit_urb, submitted_writes_append, submitted_writes]

/-- What the body of the loop of usb_wwan_resume does with the delayed anchor of a
port that satisfies the pool invariant. -/
theorem resume_port_replay (cfg : Config) (sub : Urb → Int) (p : Port) (intf : Intf)
    (h : PortInv cfg p) :
    submitted_writes (resume_port cfg sub p intf).1.wire
      = submitted_writes p.wire ++ p.delayed.takeWhile (fun u => decide (sub u = 0)) ∧
    (resume_port cfg sub p intf).1.delayed = [] ∧
    (∀ u ∈ p.delayed.dropWhile (fun u => decide (sub u = 0)),
      u ∉ (resume_port cfg sub p intf).1.submitted ∧
      ∀ m, u = Urb.out m → test_bit m (resume_port cfg sub p intf).1.out_busy = false) ∧
    ∀ m, test_bit m (resume_port cfg sub p intf).1.out_busy = true →
      Urb.out m ∈ (resume_port cfg sub p intf).1.submitted := by
  have hinv := resume_port_inv cfg sub p intf h
  have hsame := resume_in_urbs_outSame sub cfg.N_IN_URB 0
    (play_delayed cfg sub p.delayed p intf).1 (play_delayed cfg sub p.delayed p intf).2.2
  have hw2 := resume_in_urbs_writes sub cfg.N_IN_URB 0
    (play_delayed cfg sub p.delayed p intf).1 (play_delayed cfg sub p.delayed p intf).2.2
  have hd2 : (resume_in_urbs sub cfg.N_IN_URB 0 (play_delayed cfg sub p.delayed p intf).1
      (play_delayed cfg sub p.delayed p intf).2.2).1.delayed = [] := by
    rw [hsame.delayed]; exact play_delayed_empty cfg sub _ _ _
  have hw1 := play_delayed_wire cfg sub p.delayed p intf h.delayed_out
  have hwire : submitted_writes (resume_port cfg sub p intf).1.wire
      = submitted_writes p.wire ++ p.delayed.takeWhile (fun u => decide (sub u = 0)) := by
    unfold resume_port
    simp only
    split
    · rw [hd2]
      simp only [play_delayed]
      rw [hw2, hw1]
    · rw [hw2, hw1]
  have hdel : (resume_port cfg sub p intf).1.delayed = [] := by
    unfold resume_port
    simp only
    split
    · exact play_delayed_empty cfg sub _ _ _
    · exact hd2
  have hsub : ∀ v, v ∈ (resume_port cfg sub p intf).1.submitted →
      v ∈ (resume_in_urbs sub cfg.N_IN_URB 0 (play_delayed cfg sub p.delayed p intf).1
        (play_delayed cfg sub p.delayed p intf).2.2).1.submitted := by
    intro v
    unfold resume_port
    simp only
    split
    · rw [hd2]
      simp only [play_delayed]
      exact id
    · exact id
  have hbusy : ∀ m, test_bit m (resume_port cfg sub p intf).1.out_busy = true →
      Urb.out m ∈ (resume_port cfg sub p intf).1.submitted := by
    intro m hm
    have := (hinv.busy_iff m).mp hm
    rw [hdel] at this
    simpa using this
  refine ⟨hwire, hdel, ?_, hbusy⟩
  intro u hu
  have hul : u ∈ p.delayed := (List.dropWhile_sublist _).subset hu
  obtain ⟨i, rfl⟩ := h.delayed_out u hul
  have hnot : Urb.out i ∉ (resume_port cfg sub p intf).1.submitted := by
    intro hmem
    have h1 := (hsame.flight i).mp (hsub _ hmem)
    rcases play_delayed_submitted cfg sub p.delayed p intf _ h1 with h2 | h2
    · exact h.disjoint i h2 hul
    · have hnd := h.nodup
      rw [← List.takeWhile_append_dropWhile (fun u => decide (sub u = 0)) p.delayed,
        List.nodup_append] at hnd
      exact hnd.2.2 h2 hu
  refine ⟨hnot, ?_⟩
  intro m hm
  cases hm
  by_contra hb
  exact hnot (hbusy i (by simpa using hb))

/-- C3. On a suspended interface, a sequence of usb_wwan_write calls on a port
submits nothing and leaves in_flight alone; each claimed request is appended to the
delayed anchor with its busy bit set.  When usb_wwan_resume then processes the port
(resume_port), the write requests it submits with success are the longest accepted
run at the head of the delayed anchor, in order and each once; the request that is
rejected and all later ones are not in flight and have their busy bit cleared; the
delayed anchor ends empty and every busy slot is in flight. -/
theorem deferred_writes_replayed (cfg : Config) (n : Nat) (om im : Nat → Nat → List Byte)
    (pm0 : Int) (s : Serial) (hr : Reachable cfg (startup_serial cfg n om im pm0) s)
    (hs : s.intf.suspended = true) (k : Nat) (calls : List (WriteEnv × List Byte × Int))
    (sub : Urb → Int) :
    ((writes cfg calls (s.port k) s.intf).1.wire = (s.port k).wire ∧
     (writes cfg calls (s.port k) s.intf).1.submitted = (s.port k).submitted ∧
     (writes cfg calls (s.port k) s.intf).2.in_flight = s.intf.in_flight ∧
     (writes cfg calls (s.port k) s.intf).2.suspended = true ∧
     ∃ added, (writes cfg calls (s.port k) s.intf).1.delayed = (s.port k).delayed ++ added ∧
       ∀ u ∈ added, ∃ m, u = Urb.out m ∧
         test_bit m (writes cfg calls (s.port k) s.intf).1.out_busy = true) ∧
    (submitted_writes (resume_port cfg sub (writes cfg calls (s.port k) s.intf).1
        { (writes cfg calls (s.port k) s.intf).2 with suspended := false }).1.wire
      = submitted_writes (writes cfg calls (s.port k) s.intf).1.wire ++
          (writes cfg calls (s.port k) s.intf).1.delayed.takeWhile (fun u => decide (sub u = 0)) ∧
     (writes cfg calls (s.port k) s.intf).1.delayed.takeWhile (fun u => decide (sub u = 0))
        <+: (writes cfg calls (s.port k) s.intf).1.delayed ∧
     (writes cfg calls (s.port k) s.intf).1.delayed.Nodup ∧
     (resume_port cfg sub (writes cfg calls (s.port k) s.intf).1
        { (writes cfg calls (s.port k) s.intf).2 with suspended := false }).1.delayed = [] ∧
     (∀ u ∈ (writes cfg calls (s.port k) s.intf).1.delayed.dropWhile
          (fun u => decide (sub u = 0)),
        u ∉ (resume_port cfg sub (writes cfg calls (s.port k) s.intf).1
          { (writes cfg calls (s.port k) s.intf).2 with suspended := false }).1.submitted ∧
        ∀ m, u = Urb.out m →
          test_bit m (resume_port cfg sub (writes cfg calls (s.port k) s.intf).1
            { (writes cfg calls (s.port k) s.intf).2 with suspended := false }).1.out_busy
            = false) ∧
     ∀ m, test_bit m (resume_port cfg sub (writes cfg calls (s.port k) s.intf).1
          { (writes cfg calls (s.port k) s.intf).2 with suspended := false }).1.out_busy = true →
        Urb.out m ∈ (resume_port cfg sub (writes cfg calls (s.port k) s.intf).1
          { (writes cfg calls (s.port k) s.intf).2 with suspended := false }).1.submitted) := by
  have hinv := reachable_inv cfg n om im pm0 hr k
  have hw := writes_inv cfg calls (s.port k) s.intf hinv
  obtain ⟨r1, r2, r3, r4⟩ := resume_port_replay cfg sub (writes cfg calls (s.port k) s.intf).1
    { (writes cfg calls (s.port k) s.intf).2 with suspended := false } hw
  exact ⟨writes_suspended cfg calls (s.port k) s.intf hs,
    r1, List.takeWhile_prefix _, hw.nodup, r2, r3, r4⟩

/-- Witness of C3: the demo port is opened, the device is suspended, 200 bytes are written (four slots
are queued), and on resume the transport rejects slot 2. -/
theorem deferred_writes_replayed_witness :
    Reachable demo_cfg demo_serial demo_suspended ∧ demo_suspended.intf.suspended = true ∧
    ((demo_written.1.wire = (demo_suspended.port 0).wire ∧
      demo_written.1.submitted = (demo_suspended.port 0).submitted ∧
      demo_written.2.in_flight = demo_suspended.intf.in_flight ∧
      demo_written.2.suspended = true ∧
      ∃ added, demo_written.1.delayed = (demo_suspended.port 0).delayed ++ added ∧
        ∀ u ∈ added, ∃ m, u = Urb.out m ∧ test_bit m demo_written.1.out_busy = true) ∧
     (submitted_writes demo_resumed.1.wire
        = submitted_writes demo_written.1.wire ++
            demo_written.1.delayed.takeWhile (fun u => decide (demo_replay_sub u = 0)) ∧
      demo_written.1.delayed.takeWhile (fun u => decide (demo_replay_sub u = 0))
        <+: demo_written.1.delayed ∧
      demo_written.1.delayed.Nodup ∧
      demo_resumed.1.delayed = [] ∧
      (∀ u ∈ demo_written.1.delayed.dropWhile (fun u => decide (demo_replay_sub u = 0)),
        u ∉ demo_resumed.1.submitted ∧
        ∀ m, u = Urb.out m → test_bit m demo_resumed.1.out_busy = false) ∧
      ∀ m, test_bit m demo_resumed.1.out_busy = true → Urb.out m ∈ demo_resumed.1.submitted)) :=
  ⟨Reachable.step (Reachable.step Reachable.init (Step.op_open demo_serial 0 (by decide) (fun _ => 0)))
        (Step.op_suspend demo_opened demo_suspend_env), by decide,
    deferred_writes_replayed demo_cfg 1 _ _ 0 demo_suspended
      (Reachable.step (Reachable.step Reachable.init (Step.op_open demo_serial 0 (by decide) (fun _ => 0)))
        (Step.op_suspend demo_opened demo_suspend_env)) (by decide) 0
      demo_calls demo_replay_sub⟩

/-! ## The sweep of usb_wwan_resume and its first port -/

/-- The loop of usb_wwan_resume leaves alone every port that is not in its list. -/
theorem resume_ports_untouched (cfg : Config) (sub : Nat → Urb → Int) :
    ∀ (ks : List Nat) (s : Serial) (err : Int) (k : Nat), k ∉ ks →
      (resume_ports cfg sub ks s err).1.port k = s.port k := by
  intro ks
  induction ks with
  | nil => intro s err k _; rfl
  | cons a ks ih =>
    intro s err k hk
    simp only [List.mem_cons, not_or] at hk
    simp only [resume_ports]
    split
    · exact ih s err k hk.2
    · split
      · rw [ih _ _ k hk.2]
        simp [Function.update_noteq hk.1]
      · simp [Function.update_noteq hk.1]

/-- On a device whose port 0 is open, usb_wwan_resume processes port 0 first: what it
leaves of that port is what resume_port makes of it, starting from the interface
with suspended cleared. -/
theorem usb_wwan_resume_first_port (cfg : Config) (env : ResumeEnv) (s : Serial)
    (hn : 0 < s.num_ports) (ho : (s.port 0).opened = true) :
    (usb_wwan_resume cfg env s).1.port 0
      = (resume_port cfg (env.submit 0) (s.port 0) { s.intf with suspended := false }).1 := by
  obtain ⟨n, hn1⟩ : ∃ n, s.num_ports = n + 1 := ⟨s.num_ports - 1, by omega⟩
  have hnot : (0 : Nat) ∉ List.range' 1 n := by
    simp [List.mem_range'_1]
  simp only [usb_wwan_resume, hn1, List.range_eq_range', List.range'_succ, resume_ports, ho,
    Bool.not_true, Bool.false_eq_true, if_false]
  split
  · rw [resume_ports_untouched cfg env.submit _ _ _ 0 hnot]
    simp
  · simp

/-! ## Cancellation and suspend -/

/-- The completion handler of a write request changes the bitmap only. -/
theorem outdat_callback_fields (cfg : Config) (u : Urb) (p : Port) (intf : Intf) :
    (usb_wwan_outdat_callback cfg u p intf).1.delayed = p.delayed ∧
    (usb_wwan_outdat_callback cfg u p intf).1.submitted = p.submitted ∧
    (usb_wwan_outdat_callback cfg u p intf).1.opened = p.opened ∧
    (usb_wwan_outdat_callback cfg u p intf).2.suspended = intf.suspended ∧
    (∀ m, test_bit m (usb_wwan_outdat_callback cfg u p intf).1.out_busy = true →
      test_bit m p.out_busy = true) := by
  unfold usb_wwan_outdat_callback
  split
  · refine ⟨rfl, rfl, rfl, rfl, fun m => ?_⟩
    simp only [test_bit_clear_bit, Bool.and_eq_true]
    exact fun h => h.1
  · exact ⟨rfl, rfl, rfl, rfl, fun _ h => h⟩

/-- The completion handler of a read request whose resubmission is rejected leaves
the anchors as they are. -/
theorem indat_callback_kill_fields (j : Nat) (status suberr : Int) (hsub : suberr ≠ 0) (p : Port)
    (intf : Intf) (hj : Urb.inp j ∉ p.submitted) :
    (usb_wwan_indat_callback j status suberr p intf).delayed = p.delayed ∧
    (usb_wwan_indat_callback j status suberr p intf).opened = p.opened ∧
    (usb_wwan_indat_callback j status suberr p intf).out_busy = p.out_busy ∧
    (∀ v, v ∈ (usb_wwan_indat_callback j status suberr p intf).submitted ↔ v ∈ p.submitted) := by
  unfold usb_wwan_indat_callback
  split
  · exact ⟨rfl, rfl, rfl, fun _ => Iff.rfl⟩
  · split
    · exact ⟨rfl, rfl, rfl, fun _ => Iff.rfl⟩
    · split
      · split
        · refine ⟨rfl, rfl, rfl, fun v => ?_⟩
          simp only [usb_submit_urb, unanchor_anchor, mem_unanchor]
          constructor
          · exact fun h => h.1
          · intro h
            exact ⟨h, fun e => hj (e ▸ h)⟩
        · rename_i h
          simp [hsub] at h
      · exact ⟨rfl, rfl, rfl, fun _ => Iff.rfl⟩

/-- What usb_kill_urb leaves alone, and what it does to the submitted anchor: the
killed request is off the anchor afterwards and no other request moves. -/
theorem usb_kill_urb_fields (cfg : Config) (kdata : Nat → List Byte) (u : Urb) (p : Port)
    (intf : Intf) :
    (usb_kill_urb cfg kdata u p intf).1.delayed = p.delayed ∧
    (usb_kill_urb cfg kdata u p intf).1.opened = p.opened ∧
    (usb_kill_urb cfg kdata u p intf).2.suspended = intf.suspended ∧
    (∀ v, v ∈ (usb_kill_urb cfg kdata u p intf).1.submitted ↔ v ∈ p.submitted ∧ v ≠ u) ∧
    (∀ m, test_bit m (usb_kill_urb cfg kdata u p intf).1.out_busy = true →
      test_bit m p.out_busy = true) := by
  cases u with
  | out i =>
    by_cases hm : Urb.out i ∈ p.submitted
    · have e : usb_kill_urb cfg kdata (Urb.out i) p intf
          = usb_wwan_outdat_callback cfg (Urb.out i)
              { p with submitted := usb_unanchor_urb (Urb.out i) p.submitted } intf := by
        simp [usb_kill_urb, giveback_out, hm]
      obtain ⟨h1, h2, h3, h4, h5⟩ := outdat_callback_fields cfg (Urb.out i)
        { p with submitted := usb_unanchor_urb (Urb.out i) p.submitted } intf
      rw [e]
      refine ⟨h1, h3, h4, fun v => ?_, h5⟩
      rw [h2]
      exact mem_unanchor _ _ _
    · have e : usb_kill_urb cfg kdata (Urb.out i) p intf = (p, intf) := by
        simp [usb_kill_urb, giveback_out, hm]
      rw [e]
      refine ⟨rfl, rfl, rfl, fun v => ?_, fun _ h => h⟩
      constructor
      · intro hv
        exact ⟨hv, fun h => hm (h ▸ hv)⟩
      · exact fun hv => hv.1
  | inp j =>
    by_cases hm : Urb.inp j ∈ p.submitted
    · have e : usb_kill_urb cfg kdata (Urb.inp j) p intf
          = (usb_wwan_indat_callback j (-ENOENT) (-EPERM)
              (receive j (kdata j)
                { p with submitted := usb_unanchor_urb (Urb.inp j) p.submitted }) intf, intf) := by
        simp [usb_kill_urb, giveback_in, hm]
      have hk := indat_callback_kill_fields j (-ENOENT) (-EPERM) (by simp [EPERM])
        (receive j (kdata j) { p with submitted := usb_unanchor_urb (Urb.inp j) p.submitted }) intf
        (by simp [receive, mem_unanchor])
      obtain ⟨k1, k2, k3, k4⟩ := hk
      rw [e]
      refine ⟨k1, k2, rfl, fun v => ?_, fun m h => ?_⟩
      · rw [k4]
        exact mem_unanchor _ _ _
      · rw [k3] at h
        exact h
    · have e : usb_kill_urb cfg kdata (Urb.inp j) p intf = (p, intf) := by
        simp [usb_kill_urb, giveback_in, hm]
      rw [e]
      refine ⟨rfl, rfl, rfl, fun v => ?_, fun _ h => h⟩
      constructor
      · intro hv
        exact ⟨hv, fun h => hm (h ▸ hv)⟩
      · exact fun hv => hv.1

/-- Killing a list of requests: the delayed anchor, the opened flag and the suspended
flag stay, the killed requests leave the submitted anchor and no bit is set. -/
theorem kill_list_fields (cfg : Config) (kdata : Nat → List Byte) :
    ∀ (l : List Urb) (p : Port) (intf : Intf),
      (kill_list cfg kdata l p intf).1.delayed = p.delayed ∧
      (kill_list cfg kdata l p intf).1.opened = p.opened ∧
      (kill_list cfg kdata l p intf).2.suspended = intf.suspended ∧
      (∀ v, v ∈ (kill_list cfg kdata l p intf).1.submitted ↔ v ∈ p.submitted ∧ v ∉ l) ∧
      (∀ m, test_bit m (kill_list cfg kdata l p intf).1.out_busy = true →
        test_bit m p.out_busy = true) := by
  intro l
  induction l with
  | nil => intro p intf; exact ⟨rfl, rfl, rfl, by simp [kill_list], fun _ h => h⟩
  | cons u us ih =>
    intro p intf
    obtain ⟨a1, a2, a3, a4, a5⟩ := usb_kill_urb_fields cfg kdata u p intf
    obtain ⟨b1, b2, b3, b4, b5⟩ := ih (usb_kill_urb cfg kdata u p intf).1
      (usb_kill_urb cfg kdata u p intf).2
    simp only [kill_list]
    refine ⟨b1.trans a1, b2.trans a2, b3.trans a3, fun v => ?_, fun m h => a5 m (b5 m h)⟩
    rw [b4, a4]
    simp only [List.mem_cons, not_or]
    tauto

/-- The loop of stop_read_write_urbs keeps every delayed anchor and the suspended
flag. -/
theorem stop_ports_fields (cfg : Config) (kdata : Nat → Nat → List Byte) :
    ∀ (ks : List Nat) (s : Serial),
      (stop_ports cfg kdata ks s).intf.suspended = s.intf.suspended ∧
      ∀ k, ((stop_ports cfg kdata ks s).port k).delayed = (s.port k).delayed := by
  intro ks
  induction ks with
  | nil => intro s; exact ⟨rfl, fun _ => rfl⟩
  | cons k ks ih =>
    intro s
    simp only [stop_ports]
    obtain ⟨h1, h2⟩ := ih { s with
      port := Function.update s.port k (usb_kill_anchored_urbs cfg (kdata k) (s.port k) s.intf).1,
      intf := (usb_kill_anchored_urbs cfg (kdata k) (s.port k) s.intf).2 }
    obtain ⟨a1, _, a3, _⟩ := kill_list_fields cfg (kdata k) (s.port k).submitted.reverse
      (s.port k) s.intf
    refine ⟨h1.trans a3, fun m => ?_⟩
    rw [h2 m]
    by_cases hm : m = k
    · subst hm
      simp only [Function.update_same]
      exact a1
    · simp only [Function.update_noteq hm]

/-- C5. An auto suspend is declined with -EBUSY when a write is in flight or the
device was recently active, and then nothing changes; in the other cases (not auto,
or auto with in_flight = 0 and not recently active) usb_wwan_suspend returns 0 with
suspended set and every delayed anchor as before. -/
theorem usb_wwan_suspend_busy (cfg : Config) (env : SuspendEnv) (s : Serial) :
    (env.is_auto = true ∧ (0 < s.intf.in_flight ∨ env.autosuspend_expiration ≠ 0) →
      usb_wwan_suspend cfg env s = (s, -EBUSY)) ∧
    (env.is_auto = false ∨ (s.intf.in_flight = 0 ∧ env.autosuspend_expiration = 0) →
      (usb_wwan_suspend cfg env s).2 = 0 ∧
      (usb_wwan_suspend cfg env s).1.intf.suspended = true ∧
      ∀ k, ((usb_wwan_suspend cfg env s).1.port k).delayed = (s.port k).delayed) := by
  constructor
  · rintro ⟨ha, hb⟩
    have : (s.intf.in_flight != 0 || env.autosuspend_expiration != 0) = true := by
      rcases hb with hb | hb
      · have : s.intf.in_flight ≠ 0 := by omega
        simp [this]
      · simp [hb]
    simp [usb_wwan_suspend, ha, this]
  · intro h
    have hc : (env.is_auto && (s.intf.in_flight != 0 || env.autosuspend_expiration != 0)) = false := by
      rcases h with h | ⟨h1, h2⟩
      · simp [h]
      · simp [h1, h2]
    obtain ⟨h1, h2⟩ := stop_ports_fields cfg env.kdata (List.range s.num_ports)
      { s with intf := { s.intf with suspended := true } }
    simp only [usb_wwan_suspend, hc, Bool.false_eq_true, if_false, stop_read_write_urbs]
    exact ⟨trivial, h1, h2⟩

/-- Witness of C5: an auto suspend of the demo device with one write in flight is
declined and nothing changes; a system suspend of the idle device succeeds. -/
theorem usb_wwan_suspend_busy_witness :
    (demo_auto_env.is_auto = true ∧ demo_busy.intf.in_flight = 1 ∧
      demo_busy.intf.suspended = false ∧
      usb_wwan_suspend demo_cfg demo_auto_env demo_busy = (demo_busy, -EBUSY)) ∧
    (demo_suspend_env.is_auto = false ∧
      (usb_wwan_suspend demo_cfg demo_suspend_env demo_opened).2 = 0 ∧
      (usb_wwan_suspend demo_cfg demo_suspend_env demo_opened).1.intf.suspended = true ∧
      ∀ k, ((usb_wwan_suspend demo_cfg demo_suspend_env demo_opened).1.port k).delayed
        = (demo_opened.port k).delayed) :=
  ⟨⟨rfl, by decide, by decide,
      (usb_wwan_suspend_busy demo_cfg demo_auto_env demo_busy).1 ⟨rfl, Or.inl (by decide)⟩⟩,
    rfl, (usb_wwan_suspend_busy demo_cfg demo_suspend_env demo_opened).2 (Or.inl rfl)⟩

/-! ## Close -/

/-- The function unbusy_queued_urb sets no bit and clears the bit of the slot of the
request. -/
theorem unbusy_bits (cfg : Config) (u : Urb) (p : Port) :
    (∀ m, test_bit m (unbusy_queued_urb cfg u p).out_busy = true → test_bit m p.out_busy = true) ∧
    (∀ m, m < cfg.N_OUT_URB → u = Urb.out m →
      test_bit m (unbusy_queued_urb cfg u p).out_busy = false) ∧
    (unbusy_queued_urb cfg u p).opened = p.opened := by
  unfold unbusy_queued_urb
  split
  · refine ⟨fun m => ?_, fun m hm hu => ?_, rfl⟩
    · simp only [test_bit_clear_bit, Bool.and_eq_true]
      exact fun h => h.1
    · rename_i i hi
      subst hu
      rw [find_out_urb_out, if_pos hm] at hi
      cases hi
      simp [test_bit_clear_bit]
  · refine ⟨fun _ h => h, fun m hm hu => ?_, rfl⟩
    rename_i hi
    subst hu
    rw [find_out_urb_out, if_pos hm] at hi
    cases hi

/-- The loop of usb_wwan_close over the delayed anchor empties it, releases the slot
of every request on it, and touches neither the submitted anchor nor the opened
flag. -/
theorem close_drain_fields (cfg : Config) : ∀ (l : List Urb) (p : Port) (intf : Intf),
    (close_drain cfg l p intf).1.delayed = [] ∧
    (close_drain cfg l p intf).1.submitted = p.submitted ∧
    (close_drain cfg l p intf).1.opened = p.opened ∧
    (∀ m, test_bit m (close_drain cfg l p intf).1.out_busy = true → test_bit m p.out_busy = true) ∧
    (∀ m, m < cfg.N_OUT_URB → Urb.out m ∈ l →
      test_bit m (close_drain cfg l p intf).1.out_busy = false) := by
  intro l
  induction l with
  | nil => intro p intf; exact ⟨rfl, rfl, rfl, fun _ h => h, by simp⟩
  | cons u rest ih =>
    intro p intf
    simp only [close_drain]
    obtain ⟨h1, h2, h3, h4, h5⟩ := ih (unbusy_queued_urb cfg u { p with delayed := rest })
      { intf with pm_usage_cnt := intf.pm_usage_cnt - 1 }
    obtain ⟨g1, g2, g3⟩ := unbusy_fields cfg u { p with delayed := rest }
    obtain ⟨b1, b2, b3⟩ := unbusy_bits cfg u { p with delayed := rest }
    refine ⟨h1, h2.trans g2, h3.trans b3, fun m h => b1 m (h4 m h), fun m hm hmem => ?_⟩
    rcases List.mem_cons.mp hmem with e | hmem
    · by_contra hb
      have := b2 m hm e.symm
      rw [h4 m (by simpa using hb)] at this
      cases this
    · exact h5 m hm hmem

/-- Killing a list of requests clears the busy bit of each write request of the list
that is in flight. -/
theorem kill_list_clears (cfg : Config) (kdata : Nat → List Byte) :
    ∀ (l : List Urb) (p : Port) (intf : Intf) (m : Nat), m < cfg.N_OUT_URB → Urb.out m ∈ l →
      Urb.out m ∈ p.submitted → test_bit m (kill_list cfg kdata l p intf).1.out_busy = false := by
  intro l
  induction l with
  | nil => intro p intf m _ h; simp at h
  | cons u us ih =>
    intro p intf m hm hl hs
    simp only [kill_list]
    by_cases hu : u = Urb.out m
    · subst hu
      have hc : test_bit m (usb_kill_urb cfg kdata (Urb.out m) p intf).1.out_busy = false := by
        simp [usb_kill_urb, giveback_out, hs, usb_wwan_outdat_callback, find_out_urb_out, hm,
          test_bit_clear_bit]
      by_contra hb
      have := (kill_list_fields cfg kdata us _ _).2.2.2.2 m (by simpa using hb)
      rw [hc] at this
      cases this
    · apply ih _ _ m hm
      · rcases List.mem_cons.mp hl with e | e
        · exact absurd e.symm hu
        · exact e
      · rw [(usb_kill_urb_fields cfg kdata u p intf).2.2.2.1]
        exact ⟨hs, fun e => hu e.symm⟩

/-- C6. When the device is present and every busy write slot of the port is a slot
of the pool whose request is in flight or on the delayed anchor, then after
usb_wwan_close the port is not opened, its delayed anchor is empty, none of its read
or write requests is in flight and every bit of out_busy is clear. -/
theorem usb_wwan_close_releases (cfg : Config) (kdata : Nat → List Byte) (p : Port) (intf : Intf)
    (h : ∀ i, test_bit i p.out_busy = true →
      i < cfg.N_OUT_URB ∧ (Urb.out i ∈ p.submitted ∨ Urb.out i ∈ p.delayed)) :
    (usb_wwan_close cfg kdata true p intf).1.opened = false ∧
    (usb_wwan_close cfg kdata true p intf).1.delayed = [] ∧
    (∀ j, j < cfg.N_IN_URB → Urb.inp j ∉ (usb_wwan_close cfg kdata true p intf).1.submitted) ∧
    (∀ i, i < cfg.N_OUT_URB → Urb.out i ∉ (usb_wwan_close cfg kdata true p intf).1.submitted) ∧
    ∀ i, test_bit i (usb_wwan_close cfg kdata true p intf).1.out_busy = false := by
  obtain ⟨d1, d2, d3, d4, d5⟩ := close_drain_fields cfg p.delayed { p with opened := false } intf
  obtain ⟨a1, a2, a3, a4, a5⟩ := kill_list_fields cfg kdata ((List.range cfg.N_IN_URB).map Urb.inp)
    (close_drain cfg p.delayed { p with opened := false } intf).1
    (close_drain cfg p.delayed { p with opened := false } intf).2
  obtain ⟨b1, b2, b3, b4, b5⟩ := kill_list_fields cfg kdata ((List.range cfg.N_OUT_URB).map Urb.out)
    (kill_list cfg kdata ((List.range cfg.N_IN_URB).map Urb.inp)
      (close_drain cfg p.delayed { p with opened := false } intf).1
      (close_drain cfg p.delayed { p with opened := false } intf).2).1
    (kill_list cfg kdata ((List.range cfg.N_IN_URB).map Urb.inp)
      (close_drain cfg p.delayed { p with opened := false } intf).1
      (close_drain cfg p.delayed { p with opened := false } intf).2).2
  simp only [usb_wwan_close, if_true]
  refine ⟨b2.trans (a2.trans d3), b1.trans (a1.trans d1), fun j hj hmem => ?_,
    fun i hi hmem => ?_, fun i => ?_⟩
  · have := ((a4 _).mp ((b4 _).mp hmem).1).2
    exact this (List.mem_map.mpr ⟨j, List.mem_range.mpr hj, rfl⟩)
  · exact ((b4 _).mp hmem).2 (List.mem_map.mpr ⟨i, List.mem_range.mpr hi, rfl⟩)
  · by_contra hb
    have hb3 : test_bit i (kill_list cfg kdata ((List.range cfg.N_OUT_URB).map Urb.out)
        (kill_list cfg kdata ((List.range cfg.N_IN_URB).map Urb.inp)
          (close_drain cfg p.delayed { p with opened := false } intf).1
          (close_drain cfg p.delayed { p with opened := false } intf).2).1
        (kill_list cfg kdata ((List.range cfg.N_IN_URB).map Urb.inp)
          (close_drain cfg p.delayed { p with opened := false } intf).1
          (close_drain cfg p.delayed { p with opened := false } intf).2).2).1.out_busy = true := by
      simpa using hb
    have hb2 := b5 i hb3
    have hb1 := a5 i hb2
    have hb0 := d4 i hb1
    obtain ⟨hi, hwhere⟩ := h i hb0
    rcases hwhere with hs | hd
    · have hs2 : Urb.out i ∈ (kill_list cfg kdata ((List.range cfg.N_IN_URB).map Urb.inp)
          (close_drain cfg p.delayed { p with opened := false } intf).1
          (close_drain cfg p.delayed { p with opened := false } intf).2).1.submitted := by
        rw [a4, d2]
        exact ⟨hs, by simp⟩
      have := kill_list_clears cfg kdata ((List.range cfg.N_OUT_URB).map Urb.out)
        (kill_list cfg kdata ((List.range cfg.N_IN_URB).map Urb.inp)
          (close_drain cfg p.delayed { p with opened := false } intf).1
          (close_drain cfg p.delayed { p with opened := false } intf).2).1
        (kill_list cfg kdata ((List.range cfg.N_IN_URB).map Urb.inp)
          (close_drain cfg p.delayed { p with opened := false } intf).1
          (close_drain cfg p.delayed { p with opened := false } intf).2).2 i hi
        (List.mem_map.mpr ⟨i, List.mem_range.mpr hi, rfl⟩) hs2
      rw [hb3] at this
      cases this
    · have := d5 i hi hd
      rw [hb1] at this
      cases this

/-- Witness of C6: slot 0 in flight, slot 1 on the delayed anchor, read request 0 in
flight. -/
theorem usb_wwan_close_releases_witness :
    (∀ i, test_bit i demo_close_port.out_busy = true →
      i < demo_cfg.N_OUT_URB ∧
        (Urb.out i ∈ demo_close_port.submitted ∨ Urb.out i ∈ demo_close_port.delayed)) ∧
    ((usb_wwan_close demo_cfg (fun _ => []) true demo_close_port demo_intf).1.opened = false ∧
     (usb_wwan_close demo_cfg (fun _ => []) true demo_close_port demo_intf).1.delayed = [] ∧
     (∀ j, j < demo_cfg.N_IN_URB →
        Urb.inp j ∉ (usb_wwan_close demo_cfg (fun _ => []) true demo_close_port demo_intf).1.submitted) ∧
     (∀ i, i < demo_cfg.N_OUT_URB →
        Urb.out i ∉ (usb_wwan_close demo_cfg (fun _ => []) true demo_close_port demo_intf).1.submitted) ∧
     ∀ i, test_bit i
        (usb_wwan_close demo_cfg (fun _ => []) true demo_close_port demo_intf).1.out_busy = false) :=
  have hbusy : ∀ i, test_bit i demo_close_port.out_busy = true →
      i < demo_cfg.N_OUT_URB ∧
        (Urb.out i ∈ demo_close_port.submitted ∨ Urb.out i ∈ demo_close_port.delayed) := by
    intro i hi
    have hlt : i < 2 := by
      by_contra hge
      have h3 : 3 < 2 ^ i :=
        lt_of_lt_of_le (by decide : 3 < 2 ^ 2) (Nat.pow_le_pow_right (by decide) (by omega))
      have := Nat.testBit_lt_two_pow h3
      simp [test_bit, demo_close_port, this] at hi
    interval_cases i <;> simp [demo_close_port, demo_cfg]
  ⟨hbusy, usb_wwan_close_releases demo_cfg (fun _ => []) demo_close_port demo_intf hbusy⟩

/-! ## Throttle and unthrottle -/

/-- C9, as stated, fails: on a port that is not throttled usb_wwan_unthrottle
changes the set of scheduled work, because it queues in_work unconditionally. -/
theorem usb_wwan_unthrottle_schedules_work :
    demo_port.throttle_req = false ∧ demo_port.throttled = false ∧
    (usb_wwan_unthrottle demo_port).in_work_pending ≠ demo_port.in_work_pending := by
  decide

/-- C9, amended. Calling usb_wwan_throttle twice gives the state of calling it once;
usb_wwan_unthrottle on a port with neither throttle_req nor throttled set leaves
throttle_req, throttled, the reassembly queue and n_read as they are and schedules
in_work, so that it changes nothing exactly when in_work was already pending. -/
theorem usb_wwan_throttle_idempotent (p : Port) :
    usb_wwan_throttle (usb_wwan_throttle p) = usb_wwan_throttle p ∧
    (p.throttle_req = false → p.throttled = false →
      usb_wwan_unthrottle p = { p with in_work_pending := true } ∧
      (p.in_work_pending = true → usb_wwan_unthrottle p = p)) := by
  refine ⟨rfl, fun h1 h2 => ⟨?_, fun h3 => ?_⟩⟩
  · cases p
    simp only [usb_wwan_unthrottle] at *
    simp [h1, h2]
  · cases p
    simp only [usb_wwan_unthrottle] at *
    simp [h1, h2, h3]

/-- Witness of C9 amended, on the freshly started demo port. -/
theorem usb_wwan_throttle_idempotent_witness :
    demo_port.throttle_req = false ∧ demo_port.throttled = false ∧
    usb_wwan_throttle (usb_wwan_throttle demo_port) = usb_wwan_throttle demo_port ∧
    usb_wwan_unthrottle demo_port = { demo_port with in_work_pending := true } :=
  ⟨rfl, rfl, (usb_wwan_throttle_idempotent demo_port).1,
    ((usb_wwan_throttle_idempotent demo_port).2 rfl rfl).1⟩

/-! ## The value returned by usb_wwan_resume -/

/-- C8 on the code. With every read request of the only open port waiting on the
reassembly queue and one write on the delayed anchor, a rejected replay makes
usb_wwan_resume return the error of play_delayed (-19) although no read request was
resubmitted, and suspended ends false.  With no port open usb_wwan_resume returns
whatever the uninitialised local err held at entry. -/
theorem usb_wwan_resume_returns_stale_err :
    Reachable demo_cfg demo_serial demo_queued_written ∧
    (demo_queued_written.port 0).opened = true ∧
    (demo_queued_written.port 0).in_urb_list = [0, 1, 2, 3] ∧
    (demo_queued_written.port 0).delayed = [Urb.out 0] ∧
    (usb_wwan_resume demo_cfg demo_reject_all demo_queued_written).2 = -19 ∧
    (usb_wwan_resume demo_cfg demo_reject_all demo_queued_written).1.intf.suspended = false ∧
    (((usb_wwan_resume demo_cfg demo_reject_all demo_queued_written).1.port 0).wire.drop
        (demo_queued_written.port 0).wire.length).map (fun e => (e.urb, e.err))
      = [(Urb.out 0, -19)] ∧
    (usb_wwan_resume demo_cfg demo_stale_err demo_serial).2 = -5 := by
  refine ⟨?_, by decide, by decide, by decide, by decide, by decide, by decide, by decide⟩
  exact Reachable.step (Reachable.step (Reachable.step (Reachable.step (Reachable.step
    (Reachable.step (Reachable.step (Reachable.step Reachable.init
      (Step.op_open demo_serial 0 (by decide) (fun _ => 0)))
      (Step.op_throttle demo_opened 0 (by decide)))
      (Step.read_done demo_throttled 0 (by decide) 0 0 [7] 0))
      (Step.read_done (demo_read_done demo_throttled 0) 0 (by decide) 1 0 [7] 0))
      (Step.read_done (demo_read_done (demo_read_done demo_throttled 0) 1) 0 (by decide) 2 0 [7] 0))
      (Step.read_done (demo_read_done (demo_read_done (demo_read_done demo_throttled 0) 1) 2) 0
        (by decide) 3 0 [7] 0))
      (Step.op_suspend demo_queued demo_suspend_env))
      (Step.op_write demo_queued_suspended 0 (by decide) demo_env (List.range 10) 10)

/-! ## A rejected submission in usb_wwan_write -/

/-- The write loop only appends to the wire. -/
theorem write_loop_wire_ext (cfg : Config) (env : WriteEnv) :
    ∀ (n i : Nat) (st : WriteLoop), ∃ evs,
      (write_loop cfg env n i st).port.wire = st.port.wire ++ evs := by
  intro n
  induction n with
  | zero => intro i st; exact ⟨[], by simp [write_loop]⟩
  | succ n ih =>
    intro i st
    by_cases hpos : st.left > 0
    · rcases write_slot_cases cfg env i st with ⟨_, _, e⟩ | ⟨_, _, e⟩ | ⟨_, _, e⟩ | ⟨_, _, _, e⟩ |
        ⟨_, _, _, _, e⟩ | ⟨_, _, _, _, e⟩
      · rw [write_loop_succ_continue cfg env n i st _ hpos e]
        exact ih (i + 1) st
      · rw [write_loop_succ_continue cfg env n i st _ hpos e]
        exact ih (i + 1) { st with port := usb_unlink_urb (Urb.out i) st.port }
      · rw [write_loop_succ_break cfg env n i st _ hpos e]
        exact ⟨[], by simp⟩
      · have f0 : write_slot cfg env i st = ((write_slot cfg env i st).1, true) := by rw [e]
        have f1 : (write_slot cfg env i st).1.port.wire = st.port.wire := by rw [e]
        rw [write_loop_succ_continue cfg env n i st _ hpos f0]
        obtain ⟨evs, h⟩ := ih (i + 1) (write_slot cfg env i st).1
        exact ⟨evs, by rw [h, f1]⟩
      · rw [write_loop_succ_break cfg env n i st _ hpos e]
        exact ⟨_, rfl⟩
      · have f0 : write_slot cfg env i st = ((write_slot cfg env i st).1, true) := by rw [e]
        have f1 : ∃ ev, (write_slot cfg env i st).1.port.wire = st.port.wire ++ [ev] := by
          rw [e]; exact ⟨_, rfl⟩
        rw [write_loop_succ_continue cfg env n i st _ hpos f0]
        obtain ⟨evs, h⟩ := ih (i + 1) (write_slot cfg env i st).1
        obtain ⟨ev, h1⟩ := f1
        exact ⟨ev :: evs, by rw [h, h1]; simp⟩
    · rw [write_loop_done cfg env (n + 1) i st hpos]
      exact ⟨[], by simp⟩

/-- A rejected submission ends the write loop: it is the last call recorded on the
wire, its slot is released again and no later slot is touched. -/
theorem write_loop_reject (cfg : Config) (env : WriteEnv) :
    ∀ (n i : Nat) (st : WriteLoop), st.intf.suspended = false →
      ∀ ev, ev ∈ (write_loop cfg env n i st).port.wire.drop st.port.wire.length → ev.err ≠ 0 →
      ∃ m, i ≤ m ∧ m < i + n ∧ ev.urb = Urb.out m ∧ ev.err = env.submit m ∧
        (write_loop cfg env n i st).port.wire.getLast? = some ev ∧
        test_bit m (write_loop cfg env n i st).port.out_busy = false ∧
        Urb.out m ∉ (write_loop cfg env n i st).port.submitted ∧
        ∀ m1, m < m1 →
          test_bit m1 (write_loop cfg env n i st).port.out_busy = test_bit m1 st.port.out_busy ∧
          (write_loop cfg env n i st).port.out_urbs m1 = st.port.out_urbs m1 := by
  intro n
  induction n with
  | zero =>
    intro i st _ ev hev
    simp [write_loop] at hev
  | succ n ih =>
    intro i st hs ev hev herr
    by_cases hpos : st.left > 0
    · rcases write_slot_cases cfg env i st with ⟨_, _, e⟩ | ⟨_, _, e⟩ | ⟨_, _, e⟩ | ⟨_, _, hs2, _⟩ |
        ⟨hb, _, _, _, e⟩ | ⟨hb, _, _, _, e⟩
      · rw [write_loop_succ_continue cfg env n i st _ hpos e] at hev ⊢
        obtain ⟨m, h1, h2, h3⟩ := ih (i + 1) st hs ev hev herr
        exact ⟨m, by omega, by omega, h3⟩
      · rw [write_loop_succ_continue cfg env n i st _ hpos e] at hev ⊢
        obtain ⟨m, h1, h2, h3⟩ := ih (i + 1) { st with port := usb_unlink_urb (Urb.out i) st.port }
          hs ev hev herr
        exact ⟨m, by omega, by omega, h3⟩
      · rw [write_loop_succ_break cfg env n i st _ hpos e] at hev
        simp at hev
      · rw [hs] at hs2; cases hs2
      · rw [write_loop_succ_break cfg env n i st _ hpos e] at hev ⊢
        simp only [List.drop_left, List.mem_singleton] at hev
        subst hev
        refine ⟨i, le_refl _, by omega, rfl, rfl, by simp, hb, ?_, fun m1 hm1 => ?_⟩
        · simp [mem_unanchor]
        · have : m1 ≠ i := by omega
          simp [Function.update_noteq this]
      · have f0 : write_slot cfg env i st = ((write_slot cfg env i st).1, true) := by rw [e]
        have f1 : ∃ ev0, ev0.err = 0 ∧
            (write_slot cfg env i st).1.port.wire = st.port.wire ++ [ev0] := by
          rw [e]; exact ⟨_, rfl, rfl⟩
        have f2 : (write_slot cfg env i st).1.intf.suspended = false := by rw [e]; exact hs
        have f3 : (write_slot cfg env i st).1.port.out_busy = set_bit i st.port.out_busy := by
          rw [e]
        have f4 : ∀ m1, m1 ≠ i →
            (write_slot cfg env i st).1.port.out_urbs m1 = st.port.out_urbs m1 := by
          intro m1 hm1
          rw [e]
          simp [Function.update_noteq hm1]
        rw [write_loop_succ_continue cfg env n i st _ hpos f0] at hev ⊢
        obtain ⟨ev0, he0, hw1⟩ := f1
        obtain ⟨evs, hw⟩ := write_loop_wire_ext cfg env n (i + 1) (write_slot cfg env i st).1
        have hev1 : ev ∈ (write_loop cfg env n (i + 1) (write_slot cfg env i st).1).port.wire.drop
            (write_slot cfg env i st).1.port.wire.length := by
          rw [hw, List.drop_left]
          rw [hw, hw1, List.append_assoc, List.drop_left] at hev
          rcases List.mem_cons.mp (by simpa using hev) with h | h
          · subst h; exact absurd he0 herr
          · exact h
        obtain ⟨m, h1, h2, h3, h4, h5, h6, h7, h8⟩ :=
          ih (i + 1) (write_slot cfg env i st).1 f2 ev hev1 herr
        refine ⟨m, by omega, by omega, h3, h4, h5, h6, h7, fun m1 hm1 => ?_⟩
        obtain ⟨g1, g2⟩ := h8 m1 hm1
        have hne : ¬ i = m1 := by omega
        refine ⟨?_, g2.trans (f4 m1 (by omega))⟩
        rw [g1, f3, test_bit_set_bit]
        simp [hne]
    · rw [write_loop_done cfg env (n + 1) i st hpos] at hev
      simp at hev

/-- C7, as stated, fails: the transport rejects the submission of slot 1 with -19,
and usb_wwan_write returns 64, the bytes accepted by slot 0, not the error. -/
theorem usb_wwan_write_returns_count_on_rejection :
    demo_intf.suspended = false ∧
    (usb_wwan_write demo_cfg demo_env_reject demo_port demo_intf (List.range 300) 300).1.wire.map
        (fun e => (e.urb, e.err)) = [(Urb.out 0, 0), (Urb.out 1, -19)] ∧
    (usb_wwan_write demo_cfg demo_env_reject demo_port demo_intf (List.range 300) 300).2.2 = 64 ∧
    (usb_wwan_write demo_cfg demo_env_reject demo_port demo_intf (List.range 300) 300).2.2 ≠ -19 := by
  decide

/-- C7, amended. With the interface not suspended, when the transport rejects the
submission of a slot m that usb_wwan_write has just claimed, that submission is the
last call the function makes to the transport, slot m is released again (bit clear,
request not in flight), no slot after m is touched, every slot claimed by the call
lies before m, and the value returned is the number of bytes those slots accepted, a
count that is not negative. -/
theorem usb_wwan_write_submit_rejected (cfg : Config) (env : WriteEnv) (p : Port) (intf : Intf)
    (buf : List Byte) (count : Int) (hcap : 0 < cfg.OUT_BUFLEN) (hbuf : count ≤ buf.length)
    (hs : intf.suspended = false) (ev : WireEv)
    (hev : ev ∈ (usb_wwan_write cfg env p intf buf count).1.wire.drop p.wire.length)
    (herr : ev.err ≠ 0) :
    ∃ m, m < cfg.N_OUT_URB ∧ ev.urb = Urb.out m ∧ ev.err = env.submit m ∧
      (usb_wwan_write cfg env p intf buf count).1.wire.getLast? = some ev ∧
      test_bit m (usb_wwan_write cfg env p intf buf count).1.out_busy = false ∧
      Urb.out m ∉ (usb_wwan_write cfg env p intf buf count).1.submitted ∧
      (∀ m1, m < m1 →
        test_bit m1 (usb_wwan_write cfg env p intf buf count).1.out_busy = test_bit m1 p.out_busy ∧
        (usb_wwan_write cfg env p intf buf count).1.out_urbs m1 = p.out_urbs m1) ∧
      (∀ c ∈ claimed_slots cfg p (usb_wwan_write cfg env p intf buf count).1, c < m) ∧
      0 ≤ (usb_wwan_write cfg env p intf buf count).2.2 ∧
      (usb_wwan_write cfg env p intf buf count).2.2
        = ((claimed_slots cfg p (usb_wwan_write cfg env p intf buf count).1).map
            (fun c => (((usb_wwan_write cfg env p intf buf count).1.out_urbs c).transfer_buffer_length
              : Int))).sum := by
  obtain ⟨m, _, h2, h3, h4, h5, h6, h7, h8⟩ := write_loop_reject cfg env cfg.N_OUT_URB 0
    { port := p, intf := intf, buf := buf, left := count } hs ev hev herr
  have hrt := write_loop_round_trip cfg env hcap cfg.N_OUT_URB 0
    { port := p, intf := intf, buf := buf, left := count } hbuf
  have r1 : 0 ≤ (usb_wwan_write cfg env p intf buf count).2.2 := by
    have := hrt.1
    simp only [usb_wwan_write]
    simpa using this
  have r5 : (usb_wwan_write cfg env p intf buf count).2.2
      = ((claimed_slots cfg p (usb_wwan_write cfg env p intf buf count).1).map
          (fun c => (((usb_wwan_write cfg env p intf buf count).1.out_urbs c).transfer_buffer_length
            : Int))).sum := by
    have := hrt.2.2.2.2
    simp only [claimed_slots, usb_wwan_write, List.range_eq_range']
    exact this.symm
  refine ⟨m, by omega, h3, h4, h5, h6, h7, h8, fun c hc => ?_, r1, r5⟩
  simp only [claimed_slots, List.mem_filter, List.mem_range, Bool.and_eq_true,
    Bool.not_eq_true'] at hc
  obtain ⟨_, hc1, hc2⟩ := hc
  by_contra hge
  rcases Nat.lt_or_ge m c with hlt | hle
  · have h9 : test_bit c (usb_wwan_write cfg env p intf buf count).1.out_busy
        = test_bit c p.out_busy := (h8 c hlt).1
    rw [h9, hc1] at hc2
    cases hc2
  · have : c = m := by omega
    subst this
    have h9 : test_bit c (usb_wwan_write cfg env p intf buf count).1.out_busy = false := h6
    rw [h9] at hc2
    cases hc2

/-- Witness of C7 amended: the rejected submission of slot 1 in the demo pool. -/
theorem usb_wwan_write_submit_rejected_witness :
    demo_intf.suspended = false ∧
    demo_rejected_ev ∈ (usb_wwan_write demo_cfg demo_env_reject demo_port demo_intf
        (List.range 300) 300).1.wire.drop demo_port.wire.length ∧
    demo_rejected_ev.err ≠ 0 ∧
    ∃ m, m < demo_cfg.N_OUT_URB ∧ demo_rejected_ev.urb = Urb.out m ∧
      demo_rejected_ev.err = demo_env_reject.submit m ∧
      (usb_wwan_write demo_cfg demo_env_reject demo_port demo_intf
        (List.range 300) 300).1.wire.getLast? = some demo_rejected_ev ∧
      test_bit m (usb_wwan_write demo_cfg demo_env_reject demo_port demo_intf
        (List.range 300) 300).1.out_busy = false ∧
      Urb.out m ∉ (usb_wwan_write demo_cfg demo_env_reject demo_port demo_intf
        (List.range 300) 300).1.submitted ∧
      (∀ m1, m < m1 →
        test_bit m1 (usb_wwan_write demo_cfg demo_env_reject demo_port demo_intf
          (List.range 300) 300).1.out_busy = test_bit m1 demo_port.out_busy ∧
        (usb_wwan_write demo_cfg demo_env_reject demo_port demo_intf
          (List.range 300) 300).1.out_urbs m1 = demo_port.out_urbs m1) ∧
      (∀ c ∈ claimed_slots demo_cfg demo_port (usb_wwan_write demo_cfg demo_env_reject demo_port
          demo_intf (List.range 300) 300).1, c < m) ∧
      0 ≤ (usb_wwan_write demo_cfg demo_env_reject demo_port demo_intf (List.range 300) 300).2.2 ∧
      (usb_wwan_write demo_cfg demo_env_reject demo_port demo_intf (List.range 300) 300).2.2
        = ((claimed_slots demo_cfg demo_port (usb_wwan_write demo_cfg demo_env_reject demo_port
            demo_intf (List.range 300) 300).1).map
            (fun c => (((usb_wwan_write demo_cfg demo_env_reject demo_port demo_intf
              (List.range 300) 300).1.out_urbs c).transfer_buffer_length : Int))).sum :=
  ⟨rfl, by decide, by decide,
    usb_wwan_write_submit_rejected demo_cfg demo_env_reject demo_port demo_intf (List.range 300) 300
      (by decide) (by simp) rfl demo_rejected_ev (by decide) (by decide)⟩

/-! ## Read ordering: the reassembly work -/

theorem take_drop_split (buf : List Byte) (a n c : Nat) (hc : c ≤ a - n) :
    (buf.drop n).take c ++ (buf.take a).drop (n + c) = (buf.take a).drop n := by
  rw [List.drop_take, List.drop_take, ← List.drop_drop]
  have : a - n = c + (a - (n + c)) := by omega
  rw [this, List.take_add]

/-- With n_read = 0 the pending bytes are the queued buffers in queue order. -/
theorem pending_zero (p : Port) (h : p.n_read = 0) :
    pending p = (p.in_urb_list.map (in_data p)).flatten := by
  unfold pending
  cases p.in_urb_list with
  | nil => rfl
  | cons a t => simp [h]

/-- The pending bytes depend on the queue, on n_read and on the queued requests
only. -/
theorem pending_congr (p p1 : Port) (hq : p1.in_urb_list = p.in_urb_list)
    (hn : p1.n_read = p.n_read) (hu : ∀ j, j ∈ p.in_urb_list → p1.in_urbs j = p.in_urbs j) :
    pending p1 = pending p := by
  have hd : ∀ j, j ∈ p.in_urb_list → in_data p1 j = in_data p j := by
    intro j hj
    simp only [in_data, hu j hj]
  unfold pending
  rw [hq, hn]
  cases hl : p.in_urb_list with
  | nil => rfl
  | cons a t =>
    rw [hl] at hd
    simp only
    rw [hd a (by simp)]
    congr 2
    exact List.map_congr_left (fun j hj => hd j (List.mem_cons_of_mem _ hj))

/-- The read-side invariant carries over to a port with the same delivered bytes,
queue, offset and queued requests, when no queued request has become in flight. -/
theorem RxInv.congr {p p1 : Port} {done : List Byte} (h : RxInv p done)
    (ht : p1.tty_rx = p.tty_rx) (hq : p1.in_urb_list = p.in_urb_list)
    (hn : p1.n_read = p.n_read) (hu : ∀ j, j ∈ p.in_urb_list → p1.in_urbs j = p.in_urbs j)
    (hs : ∀ j, j ∈ p.in_urb_list → Urb.inp j ∈ p1.submitted → Urb.inp j ∈ p.submitted) :
    RxInv p1 done where
  account := by rw [ht, pending_congr p p1 hq hn hu]; exact h.account
  owned j hj := by
    rw [hq] at hj
    exact fun hm => h.owned j hj (hs j hj hm)
  nodup := by rw [hq]; exact h.nodup
  idle := by rw [hq, hn]; exact h.idle

/-- The loop of usb_wwan_in_work keeps the read-side invariant. -/
theorem in_work_loop_rx (env : WorkEnv) (intf : Intf) :
    ∀ (q : List Nat) (k : Nat) (p : Port) (done : List Byte),
      RxInv { p with in_urb_list := q } done → RxInv (in_work_loop env intf q k p) done := by
  intro q
  induction q with
  | nil => intro k p done h; exact h
  | cons urb rest ih =>
    intro k p done h
    simp only [in_work_loop]
    split
    · exact h
    · split
      · exact h
      · rename_i room _
        have hacc := h.account
        simp only [pending] at hacc
        have hnd := h.nodup
        simp only [List.nodup_cons] at hnd
        split
        · -- the tty took only a part of the head request
          rename_i hlt
          have hc : min ((p.in_urbs urb).actual_length - p.n_read) room
              ≤ (p.in_urbs urb).actual_length - p.n_read := min_le_left _ _
          constructor
          · simp only [pending, in_data] at hacc ⊢
            rw [List.append_assoc, ← List.append_assoc (List.take _ _),
              take_drop_split _ _ _ _ hc]
            exact hacc
          · exact h.owned
          · exact h.nodup
          · intro hq; cases hq
        · -- the whole head request was delivered
          rename_i hge
          have hc : min ((p.in_urbs urb).actual_length - p.n_read) room
              = (p.in_urbs urb).actual_length - p.n_read := by omega
          apply ih
          have hbase : RxInv { p with
              in_urb_list := rest,
              tty_rx := p.tty_rx ++ ((p.in_urbs urb).transfer_buffer.drop p.n_read).take
                (min ((p.in_urbs urb).actual_length - p.n_read) room),
              n_read := 0 } done := by
            constructor
            · rw [pending_zero _ rfl]
              simp only [in_data] at hacc ⊢
              rw [hc, ← List.drop_take, List.append_assoc]
              exact hacc
            · intro j hj
              exact h.owned j (List.mem_cons_of_mem _ hj)
            · exact hnd.2
            · intro _; rfl
          split
          · split
            · refine hbase.congr rfl rfl rfl (fun _ _ => rfl) (fun j hj hm => ?_)
              simp only [usb_submit_urb, unanchor_anchor, mem_unanchor] at hm
              exact hm.1
            · refine hbase.congr rfl rfl rfl (fun _ _ => rfl) (fun j hj hm => ?_)
              simp only [usb_submit_urb, usb_anchor_urb, List.mem_append, List.mem_singleton,
                Urb.inp.injEq] at hm
              rcases hm with hm | hm
              · exact hm
              · subst hm
                exact absurd hj hnd.1
          · exact hbase.congr rfl rfl rfl (fun _ _ => rfl) (fun _ _ hm => hm)

/-- The function usb_wwan_in_work keeps the read-side invariant. -/
theorem usb_wwan_in_work_rx (env : WorkEnv) (p : Port) (intf : Intf) (done : List Byte)
    (h : RxInv p done) : RxInv (usb_wwan_in_work env p intf) done :=
  in_work_loop_rx env intf p.in_urb_list 0 { p with in_work_pending := false } done
    (h.congr rfl rfl rfl (fun _ _ => rfl) (fun _ _ hm => hm))

/-! ## Read ordering: the invariant of the read side -/

/-- The pending bytes after a request joins the tail of the queue. -/
theorem pending_append (p p1 : Port) (j : Nat) (hidle : p.in_urb_list = [] → p.n_read = 0)
    (hq : p1.in_urb_list = p.in_urb_list ++ [j]) (hn : p1.n_read = p.n_read)
    (hu : p1.in_urbs = p.in_urbs) :
    pending p1 = pending p ++ in_data p j := by
  have hd : in_data p1 = in_data p := by
    funext x
    simp only [in_data, hu]
  unfold pending
  rw [hq, hn, hd]
  cases hl : p.in_urb_list with
  | nil =>
    have := hidle hl
    simp [this]
  | cons a t =>
    simp

/-- The give-back of a read request in flight keeps the read-side invariant, the
completed bytes growing by the data when the handler queues the request. -/
theorem giveback_in_rx (j : Nat) (status : Int) (data : List Byte) (suberr : Int) (p : Port)
    (intf : Intf) (done : List Byte) (hfl : Urb.inp j ∈ p.submitted) (h : RxInv p done) :
    RxInv (giveback_in j status data suberr p intf)
      (if queues status data then done ++ data else done) := by
  have hjq : j ∉ p.in_urb_list := fun hj => h.owned j hj hfl
  have hbase : RxInv (receive j data
      { p with submitted := usb_unanchor_urb (Urb.inp j) p.submitted }) done := by
    refine h.congr rfl rfl rfl (fun j1 hj1 => ?_) (fun j1 _ hm => ?_)
    · have : j1 ≠ j := fun e => hjq (e ▸ hj1)
      simp [receive, Function.update_noteq this]
    · simp only [receive, mem_unanchor] at hm
      exact hm.1
  have hnot : Urb.inp j ∉ (receive j data
      { p with submitted := usb_unanchor_urb (Urb.inp j) p.submitted }).submitted := by
    simp [receive, mem_unanchor]
  have hdata : in_data (receive j data
      { p with submitted := usb_unanchor_urb (Urb.inp j) p.submitted }) j = data := by
    simp only [in_data, receive, Function.update_same]
    rw [payload_memcpy _ _ _ (le_refl _)]
    simp
  have hlen : ((receive j data
      { p with submitted := usb_unanchor_urb (Urb.inp j) p.submitted }).in_urbs j).actual_length
      = data.length := by
    simp [receive]
  have hq2 : (receive j data
      { p with submitted := usb_unanchor_urb (Urb.inp j) p.submitted }).in_urb_list
      = p.in_urb_list := rfl
  have hgb : giveback_in j status data suberr p intf
      = usb_wwan_indat_callback j status suberr (receive j data
          { p with submitted := usb_unanchor_urb (Urb.inp j) p.submitted }) intf := by
    simp [giveback_in, hfl]
  rw [hgb]
  generalize receive j data { p with submitted := usb_unanchor_urb (Urb.inp j) p.submitted } = p2
    at hbase hnot hdata hlen hq2
  have hjq2 : j ∉ p2.in_urb_list := by rw [hq2]; exact hjq
  by_cases hqu : queues status data = true
  · have hcb : usb_wwan_indat_callback j status suberr p2 intf
        = { p2 with in_urb_list := p2.in_urb_list ++ [j], in_work_pending := true } := by
      unfold queues at hqu
      simp only [usb_wwan_indat_callback, hlen, hqu, if_true]
    rw [hcb, if_pos hqu]
    constructor
    · have hp := pending_append p2
        { p2 with in_urb_list := p2.in_urb_list ++ [j], in_work_pending := true } j hbase.idle
        rfl rfl rfl
      rw [hp, hdata, ← List.append_assoc]
      exact congrArg (· ++ data) hbase.account
    · intro j1 hj1
      simp only [List.mem_append, List.mem_singleton] at hj1
      rcases hj1 with hj1 | hj1
      · exact hbase.owned j1 hj1
      · subst hj1; exact hnot
    · simp only
      rw [List.nodup_append]
      refine ⟨hbase.nodup, List.nodup_singleton _, ?_⟩
      intro x hx hx2
      simp only [List.mem_singleton] at hx2
      subst hx2
      exact hjq2 hx
    · intro hq
      simp at hq
  · have hqf : ((status == -ENOENT || status == 0) && (p2.in_urbs j).actual_length != 0) = false := by
      unfold queues at hqu
      rw [hlen]
      simpa using hqu
    rw [if_neg hqu]
    unfold usb_wwan_indat_callback
    rw [hqf]
    simp only [Bool.false_eq_true, if_false]
    split
    · exact hbase
    · split
      · split
        · refine hbase.congr rfl rfl rfl (fun _ _ => rfl) (fun j1 _ hm => ?_)
          simp only [usb_submit_urb, unanchor_anchor, mem_unanchor] at hm
          exact hm.1
        · refine hbase.congr rfl rfl rfl (fun _ _ => rfl) (fun j1 hj1 hm => ?_)
          simp only [usb_submit_urb, usb_anchor_urb, List.mem_append, List.mem_singleton,
            Urb.inp.injEq] at hm
          rcases hm with hm | hm
          · exact hm
          · subst hm
            exact absurd hj1 hjq2
      · exact hbase

/-- Every state the read side reaches satisfies the read-side invariant. -/
theorem rx_reach_inv (p0 : Port) (h0 : p0.in_urb_list = [] ∧ p0.n_read = 0 ∧ p0.tty_rx = [])
    (a : Port × List Byte) (hr : RxReach p0 a) : RxInv a.1 a.2 := by
  induction hr with
  | init =>
    obtain ⟨h1, h2, h3⟩ := h0
    constructor
    · simp [pending, h1, h3]
    · intro j hj
      simp [h1] at hj
    · simp [h1]
    · exact fun _ => h2
  | step _ hstep ih =>
    cases hstep with
    | completion p done j status data suberr intf hfl =>
      exact giveback_in_rx j status data suberr p intf done hfl ih
    | work p done env intf => exact usb_wwan_in_work_rx env p intf done ih
    | throttle p done => exact ih.congr rfl rfl rfl (fun _ _ => rfl) (fun _ _ hm => hm)
    | unthrottle p done => exact ih.congr rfl rfl rfl (fun _ _ => rfl) (fun _ _ hm => hm)

/-! ## Read ordering: the passes of one run of the reassembly work -/

/-- A pass of the loop of usb_wwan_in_work in which the tty takes all that is offered:
the bytes of the head request from n_read on are delivered, n_read is reset and the
loop goes on with the rest of the queue. -/
theorem in_work_loop_pass_whole (env : WorkEnv) (intf : Intf) (urb : Nat) (rest : List Nat)
    (k : Nat) (p : Port) (r : Nat) (h1 : p.throttle_req = false) (h2 : p.throttled = false)
    (htty : env.tty k = some r) (hr : (p.in_urbs urb).actual_length - p.n_read ≤ r) :
    ∃ p3 : Port, in_work_loop env intf (urb :: rest) k p = in_work_loop env intf rest (k + 1) p3 ∧
      p3.tty_rx = p.tty_rx ++ (in_data p urb).drop p.n_read ∧
      p3.n_read = 0 ∧ p3.in_urbs = p.in_urbs ∧
      p3.throttle_req = false ∧ p3.throttled = false := by
  have hmin : min ((p.in_urbs urb).actual_length - p.n_read) r
      = (p.in_urbs urb).actual_length - p.n_read := by omega
  have hd : (in_data p urb).drop p.n_read
      = ((p.in_urbs urb).transfer_buffer.drop p.n_read).take
          ((p.in_urbs urb).actual_length - p.n_read) := by
    simp only [in_data, List.drop_take]
  simp only [in_work_loop, h1, h2, Bool.or_self, Bool.false_eq_true, if_false, htty, hmin,
    lt_irrefl, hd]
  split
  · split
    · exact ⟨_, rfl, rfl, rfl, rfl, rfl, rfl⟩
    · exact ⟨_, rfl, rfl, rfl, rfl, rfl, rfl⟩
  · exact ⟨_, rfl, rfl, rfl, rfl, rfl, rfl⟩

/-- A pass of the loop of usb_wwan_in_work in which the tty takes less than is
offered, whichever pass it is. -/
theorem in_work_loop_pass_short (env : WorkEnv) (intf : Intf) (urb : Nat) (rest : List Nat)
    (k : Nat) (p : Port) (room : Nat) (h1 : p.throttle_req = false) (h2 : p.throttled = false)
    (htty : env.tty k = some room) (hroom : room < (p.in_urbs urb).actual_length - p.n_read) :
    in_work_loop env intf (urb :: rest) k p =
      { p with in_urb_list := urb :: rest,
               tty_rx := p.tty_rx ++ ((p.in_urbs urb).transfer_buffer.drop p.n_read).take room,
               n_read := p.n_read + room,
               throttled := true } := by
  have hmin : min ((p.in_urbs urb).actual_length - p.n_read) room = room := by omega
  simp only [in_work_loop, h1, h2, Bool.or_self, Bool.false_eq_true, if_false, htty, hmin,
    hroom, if_true]

/-- The first m passes of the loop of usb_wwan_in_work when the tty takes all that
each of them offers. -/
theorem in_work_loop_whole (env : WorkEnv) (intf : Intf) :
    ∀ (q : List Nat) (m k : Nat) (p : Port),
      p.throttle_req = false → p.throttled = false → m ≤ q.length →
      (∀ j, j < m → ∃ r, env.tty (k + j) = some r ∧
        offered_len { p with in_urb_list := q } j ≤ r) →
      ∃ p1 : Port,
        in_work_loop env intf q k p = in_work_loop env intf (q.drop m) (k + m) p1 ∧
        p1.tty_rx = p.tty_rx ++ pending { p with in_urb_list := q.take m } ∧
        p1.n_read = offered_from p m ∧ p1.in_urbs = p.in_urbs ∧
        p1.throttle_req = false ∧ p1.throttled = false := by
  intro q
  induction q with
  | nil =>
    intro m k p h1 h2 hm _
    have : m = 0 := by simpa using hm
    subst this
    exact ⟨p, rfl, by simp [pending], by simp [offered_from], rfl, h1, h2⟩
  | cons urb rest ih =>
    intro m k p h1 h2 hm hfull
    cases m with
    | zero => exact ⟨p, rfl, by simp [pending], by simp [offered_from], rfl, h1, h2⟩
    | succ m =>
      obtain ⟨r, htty, hr⟩ := hfull 0 (Nat.succ_pos m)
      simp only [offered_len, offered_from, List.getD_cons_zero, if_true, Nat.add_zero] at hr htty
      obtain ⟨p3, e3, t3, n3, u3, a3, b3⟩ :=
        in_work_loop_pass_whole env intf urb rest k p r h1 h2 htty hr
      have hfull3 : ∀ j, j < m → ∃ r, env.tty (k + 1 + j) = some r ∧
          offered_len { p3 with in_urb_list := rest } j ≤ r := by
        intro j hj
        obtain ⟨r1, ht1, hr1⟩ := hfull (j + 1) (Nat.succ_lt_succ hj)
        refine ⟨r1, ?_, ?_⟩
        · rw [← ht1]; congr 1; omega
        · simp only [offered_len, offered_from, List.getD_cons_succ, Nat.succ_ne_zero,
            if_false, Nat.sub_zero] at hr1
          simp only [offered_len, offered_from, u3, n3]
          split <;> simpa using hr1
      obtain ⟨p1, e1, t1, n1, u1, a1, b1⟩ :=
        ih m (k + 1) p3 a3 b3 (Nat.le_of_succ_le_succ hm) hfull3
      refine ⟨p1, ?_, ?_, ?_, u1.trans u3, a1, b1⟩
      · rw [e3, e1]
        simp only [List.drop_succ_cons]
        congr 1
        omega
      · have hd : in_data { p3 with in_urb_list := List.take m rest } = in_data p := by
          funext x
          simp only [in_data, u3]
        have hz : pending { p3 with in_urb_list := List.take m rest }
            = ((List.take m rest).map (in_data p)).flatten := by
          rw [pending_zero { p3 with in_urb_list := List.take m rest } n3, hd]
        rw [t1, hz, t3, List.append_assoc]
        simp only [pending, List.take_succ_cons]
        rfl
      · rw [n1]
        simp [offered_from, n3]

/-- A run of usb_wwan_in_work on a throttled port hands nothing to the tty: only the
work item leaves the pending state. -/
theorem usb_wwan_in_work_throttled (env : WorkEnv) (p : Port) (intf : Intf)
    (h : p.throttle_req = true ∨ p.throttled = true) :
    usb_wwan_in_work env p intf = { p with in_work_pending := false } := by
  cases p with
  | mk ou ob tx iu q n wp op tr th dl sb rx wi ul =>
    simp only at h
    unfold usb_wwan_in_work
    cases q with
    | nil => simp [in_work_loop]
    | cons a t => rcases h with h | h <;> subst h <;> simp [in_work_loop]

/-- A run of usb_wwan_in_work in which the tty takes the whole of the first m passes
and only room bytes of pass m. -/
theorem usb_wwan_in_work_short_at (env : WorkEnv) (p : Port) (intf : Intf) (m room : Nat)
    (h1 : p.throttle_req = false) (h2 : p.throttled = false) (hm : m < p.in_urb_list.length)
    (hfull : ∀ j, j < m → ∃ r, env.tty j = some r ∧ offered_len p j ≤ r)
    (htty : env.tty m = some room) (hroom : room < offered_len p m) :
    ∃ p1 : Port,
      usb_wwan_in_work env p intf =
        { p1 with in_urb_list := p.in_urb_list.drop m,
                  tty_rx := p.tty_rx ++ pending { p with in_urb_list := p.in_urb_list.take m } ++
                    ((p.in_urbs (p.in_urb_list.getD m 0)).transfer_buffer.drop
                      (offered_from p m)).take room,
                  n_read := offered_from p m + room,
                  throttled := true,
                  in_urbs := p.in_urbs } := by
  have hfull1 : ∀ j, j < m → ∃ r, env.tty (0 + j) = some r ∧
      offered_len { ({ p with in_work_pending := false } : Port) with
        in_urb_list := p.in_urb_list } j ≤ r := by
    intro j hj
    obtain ⟨r, hr1, hr2⟩ := hfull j hj
    exact ⟨r, by rw [Nat.zero_add]; exact hr1, hr2⟩
  obtain ⟨p1, e1, t1, n1, u1, a1, b1⟩ :=
    in_work_loop_whole env intf p.in_urb_list m 0 { p with in_work_pending := false } h1 h2
      (le_of_lt hm) hfull1
  have hd : p.in_urb_list.drop m = p.in_urb_list.getD m 0 :: p.in_urb_list.drop (m + 1) := by
    rw [List.getD_eq_getElem _ _ hm]
    exact List.drop_eq_getElem_cons hm
  have hn : p1.n_read = offered_from p m := n1
  have hroom1 : room < (p1.in_urbs (p.in_urb_list.getD m 0)).actual_length - p1.n_read := by
    rw [u1, hn]
    exact hroom
  rw [Nat.zero_add] at e1
  refine ⟨p1, ?_⟩
  unfold usb_wwan_in_work
  rw [e1, hd, in_work_loop_pass_short env intf _ _ m p1 room a1 b1 htty hroom1, t1, hn, u1]
  cases p1
  rfl

/-- A run of usb_wwan_in_work in which the tty takes the whole of every pass. -/
theorem usb_wwan_in_work_whole (env : WorkEnv) (p : Port) (intf : Intf)
    (h1 : p.throttle_req = false) (h2 : p.throttled = false)
    (hfull : ∀ j, j < p.in_urb_list.length → ∃ r, env.tty j = some r ∧ offered_len p j ≤ r) :
    ∃ p1 : Port,
      usb_wwan_in_work env p intf =
        { p1 with in_urb_list := [],
                  tty_rx := p.tty_rx ++ pending p,
                  n_read := offered_from p p.in_urb_list.length,
                  throttled := false,
                  in_urbs := p.in_urbs } := by
  have hfull1 : ∀ j, j < p.in_urb_list.length → ∃ r, env.tty (0 + j) = some r ∧
      offered_len { ({ p with in_work_pending := false } : Port) with
        in_urb_list := p.in_urb_list } j ≤ r := by
    intro j hj
    obtain ⟨r, hr1, hr2⟩ := hfull j hj
    exact ⟨r, by rw [Nat.zero_add]; exact hr1, hr2⟩
  obtain ⟨p1, e1, t1, n1, u1, a1, b1⟩ :=
    in_work_loop_whole env intf p.in_urb_list p.in_urb_list.length 0
      { p with in_work_pending := false } h1 h2 (le_refl _) hfull1
  have hn : p1.n_read = offered_from p p.in_urb_list.length := n1
  have ht : p1.tty_rx = p.tty_rx ++ pending p := by
    rw [t1, List.take_length]
    rfl
  refine ⟨p1, ?_⟩
  unfold usb_wwan_in_work
  rw [e1, List.drop_length, ← ht, ← hn, ← u1, ← b1]
  cases p1
  rfl

/-! ## Read ordering: every pass has bytes to offer -/

/-- The loop of usb_wwan_in_work keeps every queued request non-empty and n_read short
of the length of the head request. -/
theorem in_work_loop_pos (env : WorkEnv) (intf : Intf) :
    ∀ (q : List Nat) (k : Nat) (p : Port),
      RxPos { p with in_urb_list := q } → RxPos (in_work_loop env intf q k p) := by
  intro q
  induction q with
  | nil => intro k p h; exact h
  | cons urb rest ih =>
    intro k p h
    simp only [in_work_loop]
    split
    · exact h
    · split
      · exact h
      · rename_i room _
        split
        · rename_i hlt
          constructor
          · exact h.data
          · intro h1 t1 e
            simp only [List.cons.injEq] at e
            obtain ⟨e1, _⟩ := e
            subst e1
            simp only
            omega
        · apply ih
          have hbase : ∀ p3 : Port, p3.in_urbs = p.in_urbs → p3.n_read = 0 →
              RxPos { p3 with in_urb_list := rest } := by
            intro p3 hu hn
            constructor
            · intro j hj
              simp only [hu]
              exact h.data j (List.mem_cons_of_mem _ hj)
            · intro h1 t1 e
              simp only [hu, hn]
              simp only at e
              exact h.data h1 (by rw [e]; simp)
          split
          · split
            · exact hbase _ rfl rfl
            · exact hbase _ rfl rfl
          · exact hbase _ rfl rfl

/-- The function usb_wwan_in_work keeps every queued request non-empty and n_read
short of the length of the head request. -/
theorem usb_wwan_in_work_pos (env : WorkEnv) (p : Port) (intf : Intf) (h : RxPos p) :
    RxPos (usb_wwan_in_work env p intf) :=
  in_work_loop_pos env intf p.in_urb_list 0 { p with in_work_pending := false } ⟨h.data, h.head⟩

/-- The give-back of a read request in flight keeps every queued request non-empty
and n_read short of the length of the head request. -/
theorem giveback_in_pos (j : Nat) (status : Int) (data : List Byte) (suberr : Int) (p : Port)
    (intf : Intf) (done : List Byte) (hfl : Urb.inp j ∈ p.submitted) (hinv : RxInv p done)
    (h : RxPos p) : RxPos (giveback_in j status data suberr p intf) := by
  have hjq : j ∉ p.in_urb_list := fun hj => hinv.owned j hj hfl
  have hgb : giveback_in j status data suberr p intf
      = usb_wwan_indat_callback j status suberr (receive j data
          { p with submitted := usb_unanchor_urb (Urb.inp j) p.submitted }) intf := by
    simp [giveback_in, hfl]
  have hbase : RxPos (receive j data
      { p with submitted := usb_unanchor_urb (Urb.inp j) p.submitted }) := by
    constructor
    · intro j1 hj1
      have : j1 ≠ j := fun e => hjq (e ▸ hj1)
      simp only [receive, Function.update_noteq this]
      exact h.data j1 hj1
    · intro h1 t1 e
      have hm : h1 ∈ p.in_urb_list := by
        have e1 : p.in_urb_list = h1 :: t1 := e
        rw [e1]; simp
      have : h1 ≠ j := fun e2 => hjq (e2 ▸ hm)
      simp only [receive, Function.update_noteq this]
      exact h.head h1 t1 e
  have hlen : ((receive j data
      { p with submitted := usb_unanchor_urb (Urb.inp j) p.submitted }).in_urbs j).actual_length
      = data.length := by
    simp [receive]
  have hq2 : (receive j data
      { p with submitted := usb_unanchor_urb (Urb.inp j) p.submitted }).in_urb_list
      = p.in_urb_list := rfl
  have hn2 : (receive j data
      { p with submitted := usb_unanchor_urb (Urb.inp j) p.submitted }).n_read
      = p.n_read := rfl
  rw [hgb]
  generalize receive j data { p with submitted := usb_unanchor_urb (Urb.inp j) p.submitted } = p2
    at hbase hlen hq2 hn2
  unfold usb_wwan_indat_callback
  split
  · rename_i hq
    have hpos : 0 < (p2.in_urbs j).actual_length := by
      simp only [Bool.and_eq_true, bne_iff_ne, ne_eq] at hq
      omega
    constructor
    · intro j1 hj1
      simp only [List.mem_append, List.mem_singleton] at hj1
      rcases hj1 with hj1 | hj1
      · exact hbase.data j1 hj1
      · subst hj1; exact hpos
    · intro h1 t1 e
      simp only at e
      cases hl : p2.in_urb_list with
      | nil =>
        rw [hl] at e
        simp only [List.nil_append, List.cons.injEq] at e
        obtain ⟨e1, _⟩ := e
        subst e1
        have hz : p2.n_read = 0 := by
          rw [hn2]
          exact hinv.idle (by rw [← hq2, hl])
        simp only [hz]
        exact hpos
      | cons a t =>
        rw [hl] at e
        simp only [List.cons_append, List.cons.injEq] at e
        obtain ⟨e1, _⟩ := e
        subst e1
        exact hbase.head a t hl
  · split
    · exact hbase
    · split
      · split
        · exact ⟨hbase.data, hbase.head⟩
        · exact ⟨hbase.data, hbase.head⟩
      · exact hbase

/-- In every state the read side reaches, every queued request is non-empty and
n_read is short of the length of the head request. -/
theorem rx_reach_pos (p0 : Port) (h0 : p0.in_urb_list = [] ∧ p0.n_read = 0 ∧ p0.tty_rx = [])
    (a : Port × List Byte) (hr : RxReach p0 a) : RxPos a.1 := by
  induction hr with
  | init =>
    constructor
    · intro j hj
      simp [h0.1] at hj
    · intro h t e
      simp [h0.1] at e
  | @step a b hra hstep ih =>
    have hinv := rx_reach_inv p0 h0 a hra
    cases hstep with
    | completion p done j status data suberr intf hfl =>
      exact giveback_in_pos j status data suberr p intf done hfl hinv ih
    | work p done env intf => exact usb_wwan_in_work_pos env p intf ih
    | throttle p done => exact ⟨ih.data, ih.head⟩
    | unthrottle p done => exact ⟨ih.data, ih.head⟩

/-- With every queued request non-empty and n_read short of the head request, each
pass of a run of usb_wwan_in_work has at least one byte to offer. -/
theorem offered_len_pos (p : Port) (h : RxPos p) (j : Nat) (hj : j < p.in_urb_list.length) :
    0 < offered_len p j := by
  unfold offered_len offered_from
  cases hl : p.in_urb_list with
  | nil => simp [hl] at hj
  | cons a t =>
    cases j with
    | zero =>
      simp only [List.getD_cons_zero, if_true]
      have := h.head a t hl
      omega
    | succ j =>
      simp only [List.getD_cons_succ, Nat.succ_ne_zero, if_false, Nat.sub_zero]
      rw [hl] at hj
      have hj1 : j < t.length := by simpa using hj
      rw [List.getD_eq_getElem _ _ hj1]
      exact h.data _ (by rw [hl]; exact List.mem_cons_of_mem _ (List.getElem_mem _))

/-! ## Read ordering across throttling -/

/-- C4. From a port with an empty reassembly queue that has delivered nothing, after
any sequence of read completions, runs of usb_wwan_in_work, throttle and unthrottle
calls, the bytes handed to the tty followed by the bytes still pending in the queue
(the rest of the head request first, then the later requests in completion order)
are exactly the bytes completed so far; so the delivered bytes are a prefix of the
completed bytes.  A run of usb_wwan_in_work from such a state in which the tty takes
the whole of the passes before pass m and only room bytes of pass m, for any m, has
delivered the requests before the m-th and room bytes of the m-th, leaves n_read at
the offset of that pass plus room, sets throttled, leaves the queue from the m-th
request on with that request at its head, touches no read buffer, and keeps the
accounting.  A run in which the tty takes the whole of every pass delivers all that
was pending, empties the queue and leaves n_read 0 and throttled clear.  A run on a
port with throttle_req or throttled set hands nothing to the tty.  In each of these
states every pass has at least one byte to offer, n_read being short of the length
of the head request. -/
theorem read_order_preserved (p0 : Port)
    (h0 : p0.in_urb_list = [] ∧ p0.n_read = 0 ∧ p0.tty_rx = [])
    (p : Port) (done : List Byte) (hr : RxReach p0 (p, done)) :
    p.tty_rx ++ pending p = done ∧ p.tty_rx <+: done ∧
    (∀ (env : WorkEnv) (intf : Intf) (m room : Nat),
      p.throttle_req = false → p.throttled = false → m < p.in_urb_list.length →
      (∀ j, j < m → ∃ r, env.tty j = some r ∧ offered_len p j ≤ r) →
      env.tty m = some room → room < offered_len p m →
      (usb_wwan_in_work env p intf).n_read = offered_from p m + room ∧
      (usb_wwan_in_work env p intf).throttled = true ∧
      (usb_wwan_in_work env p intf).in_urb_list = p.in_urb_list.drop m ∧
      (usb_wwan_in_work env p intf).in_urb_list.head? = some (p.in_urb_list.getD m 0) ∧
      (usb_wwan_in_work env p intf).in_urbs = p.in_urbs ∧
      (usb_wwan_in_work env p intf).tty_rx
        = p.tty_rx ++ pending { p with in_urb_list := p.in_urb_list.take m } ++
            ((p.in_urbs (p.in_urb_list.getD m 0)).transfer_buffer.drop
              (offered_from p m)).take room ∧
      (usb_wwan_in_work env p intf).tty_rx ++ pending (usb_wwan_in_work env p intf) = done) ∧
    (∀ (env : WorkEnv) (intf : Intf),
      p.throttle_req = false → p.throttled = false →
      (∀ j, j < p.in_urb_list.length → ∃ r, env.tty j = some r ∧ offered_len p j ≤ r) →
      (usb_wwan_in_work env p intf).tty_rx = p.tty_rx ++ pending p ∧
      (usb_wwan_in_work env p intf).tty_rx = done ∧
      (usb_wwan_in_work env p intf).in_urb_list = [] ∧
      (usb_wwan_in_work env p intf).n_read = 0 ∧
      (usb_wwan_in_work env p intf).throttled = false) ∧
    (∀ (env : WorkEnv) (intf : Intf),
      p.throttle_req = true ∨ p.throttled = true →
      usb_wwan_in_work env p intf = { p with in_work_pending := false }) ∧
    (∀ j, j < p.in_urb_list.length → 0 < offered_len p j) := by
  have hinv := rx_reach_inv p0 h0 (p, done) hr
  refine ⟨hinv.account, ⟨pending p, hinv.account⟩, ?_, ?_, ?_,
    offered_len_pos p (rx_reach_pos p0 h0 (p, done) hr)⟩
  · intro env intf m room h1 h2 hm hfull htty hroom
    have hacc := (usb_wwan_in_work_rx env p intf done hinv).account
    obtain ⟨p1, e⟩ := usb_wwan_in_work_short_at env p intf m room h1 h2 hm hfull htty hroom
    rw [e] at hacc ⊢
    refine ⟨rfl, rfl, rfl, ?_, rfl, rfl, hacc⟩
    simp only
    rw [List.drop_eq_getElem_cons hm, List.getD_eq_getElem _ _ hm]
    rfl
  · intro env intf h1 h2 hfull
    have hacc := (usb_wwan_in_work_rx env p intf done hinv).account
    have hidle := (usb_wwan_in_work_rx env p intf done hinv).idle
    obtain ⟨p1, e⟩ := usb_wwan_in_work_whole env p intf h1 h2 hfull
    rw [e] at hacc hidle ⊢
    exact ⟨rfl, hinv.account, rfl, hidle rfl, rfl⟩
  · intro env intf h
    exact usb_wwan_in_work_throttled env p intf h

/-- Witness of C4: two read requests of the opened demo port complete with
[1, 2, 3] and [4, 5]; usb_wwan_in_work then runs against a tty that takes the three
bytes of the first pass and one of the two bytes of the second. -/
theorem read_order_preserved_witness :
    (demo_rx0.in_urb_list = [] ∧ demo_rx0.n_read = 0 ∧ demo_rx0.tty_rx = []) ∧
    RxReach demo_rx0 (demo_rx2, [1, 2, 3, 4, 5]) ∧
    (demo_rx2.throttle_req = false ∧ demo_rx2.throttled = false ∧
     demo_rx2.in_urb_list = [0, 1] ∧
     demo_short_env.tty 0 = some 3 ∧ offered_len demo_rx2 0 = 3 ∧
     demo_short_env.tty 1 = some 1 ∧ offered_len demo_rx2 1 = 2) ∧
    (demo_rx2.tty_rx ++ pending demo_rx2 = [1, 2, 3, 4, 5] ∧
     demo_rx2.tty_rx <+: [1, 2, 3, 4, 5]) ∧
    ((usb_wwan_in_work demo_short_env demo_rx2 demo_intf).n_read = offered_from demo_rx2 1 + 1 ∧
     (usb_wwan_in_work demo_short_env demo_rx2 demo_intf).throttled = true ∧
     (usb_wwan_in_work demo_short_env demo_rx2 demo_intf).in_urb_list
       = demo_rx2.in_urb_list.drop 1 ∧
     (usb_wwan_in_work demo_short_env demo_rx2 demo_intf).in_urb_list.head?
       = some (demo_rx2.in_urb_list.getD 1 0) ∧
     (usb_wwan_in_work demo_short_env demo_rx2 demo_intf).in_urbs = demo_rx2.in_urbs ∧
     (usb_wwan_in_work demo_short_env demo_rx2 demo_intf).tty_rx
       = demo_rx2.tty_rx ++ pending { demo_rx2 with in_urb_list := demo_rx2.in_urb_list.take 1 } ++
           ((demo_rx2.in_urbs (demo_rx2.in_urb_list.getD 1 0)).transfer_buffer.drop
             (offered_from demo_rx2 1)).take 1 ∧
     (usb_wwan_in_work demo_short_env demo_rx2 demo_intf).tty_rx
       ++ pending (usb_wwan_in_work demo_short_env demo_rx2 demo_intf) = [1, 2, 3, 4, 5]) ∧
    ((usb_wwan_in_work demo_short_env demo_rx2 demo_intf).n_read = 1 ∧
     (usb_wwan_in_work demo_short_env demo_rx2 demo_intf).in_urb_list = [1] ∧
     (usb_wwan_in_work demo_short_env demo_rx2 demo_intf).tty_rx = [1, 2, 3, 4] ∧
     pending (usb_wwan_in_work demo_short_env demo_rx2 demo_intf) = [5]) :=
  have hr : RxReach demo_rx0 (demo_rx2, [1, 2, 3, 4, 5]) :=
    RxReach.step (RxReach.step RxReach.init
      (RxStep.completion demo_rx0 [] 0 0 [1, 2, 3] 0 demo_intf (by decide)))
      (RxStep.completion demo_rx1 [1, 2, 3] 1 0 [4, 5] 0 demo_intf (by decide))
  have h := read_order_preserved demo_rx0 ⟨rfl, rfl, rfl⟩ demo_rx2 [1, 2, 3, 4, 5] hr
  ⟨⟨rfl, rfl, rfl⟩, hr, by decide, ⟨h.1, h.2.1⟩,
    h.2.2.1 demo_short_env demo_intf 1 1 (by decide) (by decide) (by decide)
      (fun j hj => ⟨3, by
        have hj0 : j = 0 := by omega
        subst hj0
        decide⟩)
      (by decide) (by decide),
    by decide⟩

/-! ## Ownership of read requests across close and open -/

/-- C13 on the code. The port is opened and throttled, read request 0 completes with
data and waits on in_urb_list, the port is closed and opened again: usb_wwan_close
leaves the queue as it is and usb_wwan_open submits request 0 although it is still
queued, so that it is in flight and on the reassembly queue at once, its byte not
yet handed to the tty. -/
theorem usb_wwan_open_submits_queued_read :
    Reachable demo_cfg demo_serial demo_reopened ∧
    (demo_closed.port 0).in_urb_list = [0] ∧
    Urb.inp 0 ∉ (demo_closed.port 0).submitted ∧
    (Urb.inp 0 ∈ (demo_reopened.port 0).submitted ∧ 0 ∈ (demo_reopened.port 0).in_urb_list) ∧
    (demo_reopened.port 0).tty_rx = [] ∧
    pending (demo_reopened.port 0) = [7] := by
  have h1 : Reachable demo_cfg demo_serial demo_reopened :=
    Reachable.step (Reachable.step (Reachable.step (Reachable.step (Reachable.step Reachable.init
      (Step.op_open demo_serial 0 (by decide) (fun _ => 0)))
      (Step.op_throttle demo_opened 0 (by decide)))
      (Step.read_done demo_throttled 0 (by decide) 0 0 [7] 0))
      (Step.op_close demo_one_queued 0 (by decide) (fun _ => []) true))
      (Step.op_open demo_closed 0 (by decide) (fun _ => 0))
  exact ⟨h1, by decide, by decide, by decide, by decide, by decide⟩

/-! ## Busy slots in usb_wwan_write -/

/-- One pass of the write loop for slot i leaves the start time of every other slot
alone. -/
theorem write_slot_frame_tx (cfg : Config) (env : WriteEnv) (i m : Nat) (st : WriteLoop)
    (hm : m ≠ i) :
    (write_slot cfg env i st).1.port.tx_start_time m = st.port.tx_start_time m := by
  rcases write_slot_cases cfg env i st with ⟨_, _, h⟩ | ⟨_, _, h⟩ | ⟨_, _, h⟩ | ⟨_, _, _, h⟩ |
    ⟨_, _, _, _, h⟩ | ⟨_, _, _, _, h⟩ <;>
  simp [h, usb_unlink_urb, Function.update_noteq hm]

/-- A slot that is busy is left as it is by one pass of the write loop, whichever
slot the pass is for. -/
theorem write_slot_busy_kept (cfg : Config) (env : WriteEnv) (i m : Nat) (st : WriteLoop)
    (hb : test_bit m st.port.out_busy = true) :
    test_bit m (write_slot cfg env i st).1.port.out_busy = true ∧
    (write_slot cfg env i st).1.port.out_urbs m = st.port.out_urbs m ∧
    (write_slot cfg env i st).1.port.tx_start_time m = st.port.tx_start_time m := by
  by_cases hm : m = i
  · subst hm
    rcases write_slot_cases cfg env m st with ⟨_, _, h⟩ | ⟨_, _, h⟩ | ⟨hf, _⟩ | ⟨hf, _⟩ |
      ⟨hf, _⟩ | ⟨hf, _⟩
    · rw [h]; exact ⟨hb, rfl, rfl⟩
    · rw [h]; exact ⟨hb, rfl, rfl⟩
    all_goals (rw [hb] at hf; cases hf)
  · obtain ⟨h1, h2⟩ := write_slot_frame cfg env i m st hm
    exact ⟨h1.trans hb, h2, write_slot_frame_tx cfg env i m st hm⟩

/-- A slot that is busy when the write loop starts is left as it is: its bit stays
set and its buffer, length and start time are unchanged. -/
theorem write_loop_busy_kept (cfg : Config) (env : WriteEnv) :
    ∀ (n i : Nat) (st : WriteLoop) (m : Nat), test_bit m st.port.out_busy = true →
      test_bit m (write_loop cfg env n i st).port.out_busy = true ∧
      (write_loop cfg env n i st).port.out_urbs m = st.port.out_urbs m ∧
      (write_loop cfg env n i st).port.tx_start_time m = st.port.tx_start_time m := by
  intro n
  induction n with
  | zero => intro i st m hb; exact ⟨by simpa [write_loop] using hb, rfl, rfl⟩
  | succ n ih =>
    intro i st m hb
    by_cases hpos : st.left > 0
    · obtain ⟨k1, k2, k3⟩ := write_slot_busy_kept cfg env i m st hb
      cases hr : write_slot cfg env i st with
      | mk st1 flag =>
        rw [hr] at k1 k2 k3
        cases flag with
        | true =>
          rw [write_loop_succ_continue cfg env n i st st1 hpos hr]
          obtain ⟨j1, j2, j3⟩ := ih (i + 1) st1 m k1
          exact ⟨j1, j2.trans k2, j3.trans k3⟩
        | false =>
          rw [write_loop_succ_break cfg env n i st st1 hpos hr]
          exact ⟨k1, k2, k3⟩
    · rw [write_loop_done cfg env (n + 1) i st hpos]
      exact ⟨hb, rfl, rfl⟩

/-- The reading of time_before when neither tick value has wrapped into the upper
half of the word: it is the plain comparison. -/
theorem time_before_eq_lt (cfg : Config) (a b : Nat)
    (ha : a < 2 ^ (cfg.BITS_PER_LONG - 1)) (hb : b < 2 ^ (cfg.BITS_PER_LONG - 1))
    (hw : 0 < cfg.BITS_PER_LONG) :
    time_before cfg a b = decide (a < b) := by
  obtain ⟨w, hw1⟩ : ∃ w, cfg.BITS_PER_LONG = w + 1 := ⟨cfg.BITS_PER_LONG - 1, by omega⟩
  unfold time_before
  rw [hw1] at ha hb ⊢
  simp only [Nat.add_sub_cancel] at ha hb ⊢
  have h2 : 2 ^ (w + 1) = 2 * 2 ^ w := by rw [pow_succ]; ring
  rw [h2]
  generalize 2 ^ w = M at ha hb
  have ha1 : a % (2 * M) = a := Nat.mod_eq_of_lt (by omega)
  have hb1 : b % (2 * M) = b := Nat.mod_eq_of_lt (by omega)
  rw [ha1, hb1, decide_eq_decide]
  by_cases hab : a < b
  · have : (a + 2 * M - b) % (2 * M) = a + 2 * M - b := Nat.mod_eq_of_lt (by omega)
    rw [this]
    omega
  · have e : a + 2 * M - b = (a - b) + 2 * M := by omega
    have : (a + 2 * M - b) % (2 * M) = a - b := by
      rw [e, Nat.add_mod_right]
      exact Nat.mod_eq_of_lt (by omega)
    rw [this]
    omega

/-! ## The slots usb_wwan_write examines -/

/-- The slots the write loop examines from slot i on are i, ..., i + v - 1 for some
v: it asks for the cancellation of exactly the stale ones among them, in order; it
touches no slot from i + v on; every submission it makes is for a slot that was
free; and it examines every slot when all of them are busy and bytes are left. -/
theorem write_loop_examined (cfg : Config) (env : WriteEnv) :
    ∀ (n i : Nat) (st : WriteLoop), ∃ v, v ≤ n ∧
      (write_loop cfg env n i st).port.unlink_reqs
        = st.port.unlink_reqs ++
            ((List.range' i v).filter (stale_slot cfg env.jiffies st.port)).map Urb.out ∧
      (∀ m, i + v ≤ m →
        test_bit m (write_loop cfg env n i st).port.out_busy = test_bit m st.port.out_busy ∧
        (write_loop cfg env n i st).port.out_urbs m = st.port.out_urbs m ∧
        (write_loop cfg env n i st).port.tx_start_time m = st.port.tx_start_time m) ∧
      (∀ ev, ev ∈ (write_loop cfg env n i st).port.wire.drop st.port.wire.length →
        ∃ m, i ≤ m ∧ ev.urb = Urb.out m ∧ test_bit m st.port.out_busy = false) ∧
      ((∀ m, i ≤ m → m < i + n → test_bit m st.port.out_busy = true) → st.left > 0 → v = n) := by
  intro n
  induction n with
  | zero =>
    intro i st
    exact ⟨0, le_refl _, by simp [write_loop], fun m _ => ⟨rfl, rfl, rfl⟩,
      by simp [write_loop], fun _ _ => rfl⟩
  | succ n ih =>
    intro i st
    by_cases hpos : st.left > 0
    · -- facts shared by the passes that go on with slot i + 1
      have hgo : ∀ st1 : WriteLoop, write_slot cfg env i st = (st1, true) →
          (∀ m, m ≠ i → test_bit m st1.port.out_busy = test_bit m st.port.out_busy ∧
            st1.port.out_urbs m = st.port.out_urbs m ∧
            st1.port.tx_start_time m = st.port.tx_start_time m) := by
        intro st1 h1 m hm
        have f1 := write_slot_frame cfg env i m st hm
        have f2 := write_slot_frame_tx cfg env i m st hm
        rw [h1] at f1 f2
        exact ⟨f1.1, f1.2, f2⟩
      have hfilt : ∀ (st1 : WriteLoop) (v : Nat),
          (∀ m, m ≠ i → test_bit m st1.port.out_busy = test_bit m st.port.out_busy ∧
            st1.port.out_urbs m = st.port.out_urbs m ∧
            st1.port.tx_start_time m = st.port.tx_start_time m) →
          (List.range' (i + 1) v).filter (stale_slot cfg env.jiffies st1.port)
            = (List.range' (i + 1) v).filter (stale_slot cfg env.jiffies st.port) := by
        intro st1 v hfr
        apply List.filter_congr
        intro m hm
        rw [List.mem_range'_1] at hm
        obtain ⟨g1, _, g3⟩ := hfr m (by omega)
        simp only [stale_slot, g1, g3]
      rcases write_slot_cases cfg env i st with ⟨hb, ht, e⟩ | ⟨hb, ht, e⟩ | ⟨hb, _, e⟩ |
        ⟨hb, _, _, e⟩ | ⟨hb, _, _, _, e⟩ | ⟨hb, _, _, _, e⟩
      · -- busy and fresh: skipped
        rw [write_loop_succ_continue cfg env n i st _ hpos e]
        obtain ⟨v, hv, h1, h2, h3, h4⟩ := ih (i + 1) st
        refine ⟨v + 1, by omega, ?_, fun m hm => h2 m (by omega), fun ev hev => ?_,
          fun hall hp => ?_⟩
        · rw [h1, List.range'_succ, List.filter_cons]
          simp [stale_slot, hb, ht]
        · obtain ⟨m, g1, g2⟩ := h3 ev hev
          exact ⟨m, by omega, g2⟩
        · have := h4 (fun m a b => hall m (by omega) (by omega)) hp
          omega
      · -- busy and stale: cancellation requested, skipped
        rw [write_loop_succ_continue cfg env n i st _ hpos e]
        obtain ⟨v, hv, h1, h2, h3, h4⟩ :=
          ih (i + 1) { st with port := usb_unlink_urb (Urb.out i) st.port }
        refine ⟨v + 1, by omega, ?_, fun m hm => h2 m (by omega), fun ev hev => ?_,
          fun hall hp => ?_⟩
        · rw [h1, List.range'_succ, List.filter_cons]
          have hs : stale_slot cfg env.jiffies st.port i = true := by
            simp [stale_slot, hb, ht]
          have hf : (List.range' (i + 1) v).filter
              (stale_slot cfg env.jiffies (usb_unlink_urb (Urb.out i) st.port))
              = (List.range' (i + 1) v).filter (stale_slot cfg env.jiffies st.port) := rfl
          rw [hf]
          simp [hs, usb_unlink_urb]
        · obtain ⟨m, g1, g2⟩ := h3 ev hev
          exact ⟨m, by omega, g2⟩
        · have := h4 (fun m a b => hall m (by omega) (by omega)) hp
          omega
      · -- free, no wake reference: the loop is left
        rw [write_loop_succ_break cfg env n i st _ hpos e]
        refine ⟨1, by omega, ?_, fun m _ => ⟨rfl, rfl, rfl⟩, by simp, fun hall _ => ?_⟩
        · simp [List.range'_succ, stale_slot, hb]
        · have := hall i (le_refl _) (by omega)
          rw [hb] at this; cases this
      · -- free, interface suspended: claimed and queued
        have f0 : write_slot cfg env i st = ((write_slot cfg env i st).1, true) := by rw [e]
        have fr := hgo _ f0
        have fu : (write_slot cfg env i st).1.port.unlink_reqs = st.port.unlink_reqs := by rw [e]
        have fw : (write_slot cfg env i st).1.port.wire = st.port.wire := by rw [e]
        rw [write_loop_succ_continue cfg env n i st _ hpos f0]
        obtain ⟨v, hv, h1, h2, h3, h4⟩ := ih (i + 1) (write_slot cfg env i st).1
        refine ⟨v + 1, by omega, ?_, fun m hm => ?_, fun ev hev => ?_, fun hall _ => ?_⟩
        · rw [h1, fu, hfilt _ v fr, List.range'_succ, List.filter_cons]
          simp [stale_slot, hb]
        · obtain ⟨g1, g2, g3⟩ := h2 m (by omega)
          obtain ⟨k1, k2, k3⟩ := fr m (by omega)
          exact ⟨g1.trans k1, g2.trans k2, g3.trans k3⟩
        · rw [fw] at h3
          obtain ⟨m, g1, g2, g3⟩ := h3 ev hev
          refine ⟨m, by omega, g2, ?_⟩
          rw [← (fr m (by omega)).1]
          exact g3
        · have := hall i (le_refl _) (by omega)
          rw [hb] at this; cases this
      · -- free, submission rejected: rolled back, the loop is left
        rw [write_loop_succ_break cfg env n i st _ hpos e]
        refine ⟨1, by omega, ?_, fun m hm => ?_, fun ev hev => ?_, fun hall _ => ?_⟩
        · simp [List.range'_succ, stale_slot, hb]
        · have : m ≠ i := by omega
          exact ⟨rfl, by simp [Function.update_noteq this], rfl⟩
        · simp only [List.drop_left, List.mem_singleton] at hev
          subst hev
          exact ⟨i, le_refl _, rfl, hb⟩
        · have := hall i (le_refl _) (by omega)
          rw [hb] at this; cases this
      · -- free, submission accepted: claimed and in flight
        have f0 : write_slot cfg env i st = ((write_slot cfg env i st).1, true) := by rw [e]
        have fr := hgo _ f0
        have fu : (write_slot cfg env i st).1.port.unlink_reqs = st.port.unlink_reqs := by rw [e]
        have fw : ∃ ev0, ev0.urb = Urb.out i ∧
            (write_slot cfg env i st).1.port.wire = st.port.wire ++ [ev0] := by
          rw [e]; exact ⟨_, rfl, rfl⟩
        rw [write_loop_succ_continue cfg env n i st _ hpos f0]
        obtain ⟨v, hv, h1, h2, h3, h4⟩ := ih (i + 1) (write_slot cfg env i st).1
        obtain ⟨ev0, hev0, hw1⟩ := fw
        obtain ⟨evs, hw⟩ := write_loop_wire_ext cfg env n (i + 1) (write_slot cfg env i st).1
        refine ⟨v + 1, by omega, ?_, fun m hm => ?_, fun ev hev => ?_, fun hall _ => ?_⟩
        · rw [h1, fu, hfilt _ v fr, List.range'_succ, List.filter_cons]
          simp [stale_slot, hb]
        · obtain ⟨g1, g2, g3⟩ := h2 m (by omega)
          obtain ⟨k1, k2, k3⟩ := fr m (by omega)
          exact ⟨g1.trans k1, g2.trans k2, g3.trans k3⟩
        · rw [hw, hw1, List.append_assoc, List.drop_left] at hev
          rcases List.mem_cons.mp (by simpa using hev) with hx | hx
          · subst hx
            exact ⟨i, le_refl _, hev0, hb⟩
          · have hx2 : ev ∈ (write_loop cfg env n (i + 1) (write_slot cfg env i st).1).port.wire.drop
                (write_slot cfg env i st).1.port.wire.length := by
              rw [hw, List.drop_left]; exact hx
            obtain ⟨m, g1, g2, g3⟩ := h3 ev hx2
            refine ⟨m, by omega, g2, ?_⟩
            rw [← (fr m (by omega)).1]
            exact g3
        · have := hall i (le_refl _) (by omega)
          rw [hb] at this; cases this
    · rw [write_loop_done cfg env (n + 1) i st hpos]
      exact ⟨0, by omega, by simp, fun m _ => ⟨rfl, rfl, rfl⟩, by simp,
        fun _ hp => absurd hp hpos⟩

/-- When every slot the write loop visits is busy, the loop takes no byte and changes
nothing but the list of cancellation requests. -/
theorem write_loop_all_busy (cfg : Config) (env : WriteEnv) :
    ∀ (n i : Nat) (st : WriteLoop),
      (∀ m, i ≤ m → m < i + n → test_bit m st.port.out_busy = true) →
      (write_loop cfg env n i st).left = st.left ∧
      (write_loop cfg env n i st).intf = st.intf ∧
      (write_loop cfg env n i st).port.wire = st.port.wire ∧
      (write_loop cfg env n i st).port.submitted = st.port.submitted ∧
      (write_loop cfg env n i st).port.delayed = st.port.delayed ∧
      (write_loop cfg env n i st).port.out_busy = st.port.out_busy := by
  intro n
  induction n with
  | zero => intro i st _; simp [write_loop]
  | succ n ih =>
    intro i st hall
    by_cases hpos : st.left > 0
    · have hbi := hall i (le_refl _) (by omega)
      rcases write_slot_cases cfg env i st with ⟨_, _, e⟩ | ⟨_, _, e⟩ | ⟨hb, _⟩ | ⟨hb, _⟩ |
        ⟨hb, _⟩ | ⟨hb, _⟩
      · rw [write_loop_succ_continue cfg env n i st _ hpos e]
        exact ih (i + 1) st (fun m a b => hall m (by omega) (by omega))
      · rw [write_loop_succ_continue cfg env n i st _ hpos e]
        exact ih (i + 1) { st with port := usb_unlink_urb (Urb.out i) st.port }
          (fun m a b => hall m (by omega) (by omega))
      all_goals (rw [hbi] at hb; cases hb)
    · rw [write_loop_done cfg env (n + 1) i st hpos]
      exact ⟨rfl, rfl, rfl, rfl, rfl, rfl⟩

/-! ## Busy slots are not reused -/

/-- C12, as stated, fails: at 100 ticks per second every slot of the pool has been
busy for 20 ticks, which is more than 10, yet usb_wwan_write examines all of them
and requests no cancellation, because the timeout of the code is 10 * HZ ticks. -/
theorem usb_wwan_write_no_cancel_after_ten_ticks :
    demo_all_busy.out_busy = 15 ∧
    demo_env.jiffies - demo_all_busy.tx_start_time 0 = 20 ∧
    demo_env.jiffies - demo_all_busy.tx_start_time 3 = 20 ∧
    (usb_wwan_write demo_cfg demo_env demo_all_busy demo_intf (List.range 10) 10).1.unlink_reqs
      = [] := by
  decide

/-- C12, amended. Whatever the pool state, tick and input, usb_wwan_write leaves every
slot that was busy at entry as it was (bit set, buffer, length and start time
unchanged) and submits only requests of slots that were free at entry.  The slots it
examines are the first v of the pool for some v: it requests the cancellation of
exactly those of them that are busy and fail the test
time_before (jiffies, tx_start_time[i] + 10 * HZ), in slot order, and touches no slot
from v on; when every slot is busy and count is positive it examines all of them.
When every slot is busy it returns 0 and changes nothing but the cancellation
requests.  While neither tick value has wrapped into the upper half of the word, a
busy slot fails the test exactly when tx_start_time[i] + 10 * HZ <= jiffies, that is
when its age is at least 10 * HZ ticks. -/
theorem usb_wwan_write_busy_slots (cfg : Config) (env : WriteEnv) (p : Port) (intf : Intf)
    (buf : List Byte) (count : Int) :
    (∀ m, test_bit m p.out_busy = true →
      test_bit m (usb_wwan_write cfg env p intf buf count).1.out_busy = true ∧
      (usb_wwan_write cfg env p intf buf count).1.out_urbs m = p.out_urbs m ∧
      (usb_wwan_write cfg env p intf buf count).1.tx_start_time m = p.tx_start_time m) ∧
    (∀ ev, ev ∈ (usb_wwan_write cfg env p intf buf count).1.wire.drop p.wire.length →
      ∃ m, ev.urb = Urb.out m ∧ test_bit m p.out_busy = false) ∧
    (∃ v, v ≤ cfg.N_OUT_URB ∧
      (usb_wwan_write cfg env p intf buf count).1.unlink_reqs
        = p.unlink_reqs ++ ((List.range v).filter (stale_slot cfg env.jiffies p)).map Urb.out ∧
      (∀ m, v ≤ m →
        test_bit m (usb_wwan_write cfg env p intf buf count).1.out_busy = test_bit m p.out_busy ∧
        (usb_wwan_write cfg env p intf buf count).1.out_urbs m = p.out_urbs m ∧
        (usb_wwan_write cfg env p intf buf count).1.tx_start_time m = p.tx_start_time m) ∧
      ((∀ m, m < cfg.N_OUT_URB → test_bit m p.out_busy = true) → 0 < count →
        v = cfg.N_OUT_URB)) ∧
    ((∀ m, m < cfg.N_OUT_URB → test_bit m p.out_busy = true) →
      (usb_wwan_write cfg env p intf buf count).2.2 = 0 ∧
      (usb_wwan_write cfg env p intf buf count).2.1 = intf ∧
      (usb_wwan_write cfg env p intf buf count).1.wire = p.wire ∧
      (usb_wwan_write cfg env p intf buf count).1.submitted = p.submitted ∧
      (usb_wwan_write cfg env p intf buf count).1.delayed = p.delayed ∧
      (usb_wwan_write cfg env p intf buf count).1.out_busy = p.out_busy) ∧
    (∀ m, 0 < cfg.BITS_PER_LONG → env.jiffies < 2 ^ (cfg.BITS_PER_LONG - 1) →
      p.tx_start_time m + 10 * cfg.HZ < 2 ^ (cfg.BITS_PER_LONG - 1) →
      (stale_slot cfg env.jiffies p m = true ↔
        test_bit m p.out_busy = true ∧ p.tx_start_time m + 10 * cfg.HZ ≤ env.jiffies)) := by
  obtain ⟨v, hv, h1, h2, h3, h4⟩ := write_loop_examined cfg env cfg.N_OUT_URB 0
    { port := p, intf := intf, buf := buf, left := count }
  refine ⟨fun m hm => write_loop_busy_kept cfg env cfg.N_OUT_URB 0
      { port := p, intf := intf, buf := buf, left := count } m hm,
    fun ev hev => ?_, ⟨v, hv, ?_, fun m hm => h2 m (by omega), fun hall hc => ?_⟩,
    fun hall => ?_, fun m hw hj ht => ?_⟩
  · obtain ⟨m, _, g2, g3⟩ := h3 ev hev
    exact ⟨m, g2, g3⟩
  · rw [List.range_eq_range']
    exact h1
  · exact h4 (fun m _ hm => hall m (by omega)) hc
  · obtain ⟨a1, a2, a3, a4, a5, a6⟩ := write_loop_all_busy cfg env cfg.N_OUT_URB 0
      { port := p, intf := intf, buf := buf, left := count } (fun m _ hm => hall m (by omega))
    refine ⟨?_, a2, a3, a4, a5, a6⟩
    simp only [usb_wwan_write, a1]
    omega
  · simp only [stale_slot, Bool.and_eq_true, Bool.not_eq_true',
      time_before_eq_lt cfg _ _ hj ht hw, decide_eq_false_iff_not, not_lt]

/-- Witness of C12 amended: four busy slots, slots 1 and 3 busy since tick 0, slots
0 and 2 since tick 980, at tick 1000 with 100 ticks per second. -/
theorem usb_wwan_write_busy_slots_witness :
    (∀ m, m < demo_cfg.N_OUT_URB → test_bit m demo_some_stale.out_busy = true) ∧
    ((usb_wwan_write demo_cfg demo_env demo_some_stale demo_intf (List.range 10) 10).2.2 = 0 ∧
     (usb_wwan_write demo_cfg demo_env demo_some_stale demo_intf (List.range 10) 10).2.1
        = demo_intf ∧
     (usb_wwan_write demo_cfg demo_env demo_some_stale demo_intf (List.range 10) 10).1.wire
        = demo_some_stale.wire ∧
     (usb_wwan_write demo_cfg demo_env demo_some_stale demo_intf (List.range 10) 10).1.submitted
        = demo_some_stale.submitted ∧
     (usb_wwan_write demo_cfg demo_env demo_some_stale demo_intf (List.range 10) 10).1.delayed
        = demo_some_stale.delayed ∧
     (usb_wwan_write demo_cfg demo_env demo_some_stale demo_intf (List.range 10) 10).1.out_busy
        = demo_some_stale.out_busy) ∧
    (usb_wwan_write demo_cfg demo_env demo_some_stale demo_intf (List.range 10) 10).1.unlink_reqs
      = [Urb.out 1, Urb.out 3] :=
  have hall : ∀ m, m < demo_cfg.N_OUT_URB → test_bit m demo_some_stale.out_busy = true := by
    intro m hm
    have hm4 : m < 4 := hm
    interval_cases m <;> decide
  ⟨hall,
    (usb_wwan_write_busy_slots demo_cfg demo_env demo_some_stale demo_intf (List.range 10)
      10).2.2.2.1 hall,
    by decide⟩

/-! ## Counting the write requests in flight -/

theorem filter_out_anchor_inp (j : Nat) (a : List Urb) :
    (usb_anchor_urb (Urb.inp j) a).filter is_out = a.filter is_out := by
  simp [usb_anchor_urb, List.filter_append, is_out]

theorem filter_out_unanchor_inp (j : Nat) (a : List Urb) :
    (usb_unanchor_urb (Urb.inp j) a).filter is_out = a.filter is_out := by
  unfold usb_unanchor_urb
  rw [List.filter_filter]
  apply List.filter_congr
  intro u _
  cases u <;> simp [is_out]

theorem filter_out_anchor_out (i : Nat) (a : List Urb) :
    (usb_anchor_urb (Urb.out i) a).filter is_out = a.filter is_out ++ [Urb.out i] := by
  simp [usb_anchor_urb, List.filter_append, is_out]

theorem unanchor_absent (u : Urb) (a : List Urb) (h : u ∉ a) : usb_unanchor_urb u a = a := by
  unfold usb_unanchor_urb
  rw [List.filter_eq_self]
  intro v hv
  simp only [bne_iff_ne, ne_eq]
  exact fun e => h (e ▸ hv)

theorem filter_out_unanchor_out (i : Nat) (a : List Urb) :
    (usb_unanchor_urb (Urb.out i) a).filter is_out
      = (a.filter is_out).filter (fun v => v != Urb.out i) := by
  unfold usb_unanchor_urb
  rw [List.filter_filter, List.filter_filter]
  apply List.filter_congr
  intro u _
  exact Bool.and_comm _ _

/-- Taking a write request that is in flight off the submitted anchor lowers the
number of write requests in flight by one. -/
theorem length_unanchor_out (i : Nat) (a : List Urb) (hnd : (a.filter is_out).Nodup)
    (hm : Urb.out i ∈ a) :
    ((usb_unanchor_urb (Urb.out i) a).filter is_out).length + 1 = (a.filter is_out).length := by
  rw [filter_out_unanchor_out]
  have hm2 : Urb.out i ∈ a.filter is_out := List.mem_filter.mpr ⟨hm, rfl⟩
  generalize a.filter is_out = l at hnd hm2
  have : l.filter (fun v => v != Urb.out i) = l.erase (Urb.out i) := by
    rw [hnd.erase_eq_filter]
  rw [this, List.length_erase_of_mem hm2]
  have : 0 < l.length := List.length_pos_of_mem hm2
  omega

/-- The share of a port in the in-flight counter carries over to a port with the same
write requests in flight and an interface with the same in_flight. -/
theorem FlightInv.same {p p1 : Port} {intf intf1 : Intf} {c : Int} (h : FlightInv p intf c)
    (hs : p1.submitted.filter is_out = p.submitted.filter is_out)
    (hi : intf1.in_flight = intf.in_flight) : FlightInv p1 intf1 c where
  nodup := by rw [hs]; exact h.nodup
  count := by rw [hi, h.count]; simp [flight_count, hs]

/-- One more write request in flight and in_flight raised by one. -/
theorem FlightInv.submit {p p1 : Port} {intf intf1 : Intf} {c : Int} {i : Nat}
    (h : FlightInv p intf c) (hn : Urb.out i ∉ p.submitted)
    (hs : p1.submitted = p.submitted ++ [Urb.out i])
    (hi : intf1.in_flight = intf.in_flight + 1) : FlightInv p1 intf1 c where
  nodup := by
    rw [hs]
    have : (p.submitted ++ [Urb.out i]).filter is_out = p.submitted.filter is_out ++ [Urb.out i] :=
      filter_out_anchor_out i p.submitted
    rw [this, List.nodup_append]
    refine ⟨h.nodup, List.nodup_singleton _, ?_⟩
    intro u hu hu2
    simp only [List.mem_singleton] at hu2
    subst hu2
    exact hn (List.mem_filter.mp hu).1
  count := by
    have : (p.submitted ++ [Urb.out i]).filter is_out = p.submitted.filter is_out ++ [Urb.out i] :=
      filter_out_anchor_out i p.submitted
    rw [hi, h.count]
    simp only [flight_count, hs, this, List.length_append, List.length_singleton]
    push_cast
    ring

/-- One write request given back and in_flight lowered by one. -/
theorem FlightInv.giveback {p p1 : Port} {intf intf1 : Intf} {c : Int} {i : Nat}
    (h : FlightInv p intf c) (hm : Urb.out i ∈ p.submitted)
    (hs : p1.submitted = usb_unanchor_urb (Urb.out i) p.submitted)
    (hi : intf1.in_flight = intf.in_flight - 1) : FlightInv p1 intf1 c where
  nodup := by
    rw [hs, filter_out_unanchor_out]
    exact h.nodup.filter _
  count := by
    have := length_unanchor_out i p.submitted h.nodup hm
    rw [hi, h.count]
    simp only [flight_count, hs]
    omega

/-! ## The in-flight counter and the operations of a port -/

/-- One pass of the write loop keeps the share of the port in the in-flight
counter. -/
theorem write_slot_flight (cfg : Config) (env : WriteEnv) (i : Nat) (st : WriteLoop) (c : Int)
    (hinv : PortInv cfg st.port) (h : FlightInv st.port st.intf c) :
    FlightInv (write_slot cfg env i st).1.port (write_slot cfg env i st).1.intf c := by
  have hfree : test_bit i st.port.out_busy = false → Urb.out i ∉ st.port.submitted := by
    intro hb hm
    have := (hinv.busy_iff i).mpr (Or.inl hm)
    rw [hb] at this; cases this
  rcases write_slot_cases cfg env i st with ⟨_, _, e⟩ | ⟨_, _, e⟩ | ⟨_, _, e⟩ | ⟨_, _, _, e⟩ |
    ⟨hb, _, _, _, e⟩ | ⟨hb, _, _, _, e⟩
  · rw [e]; exact h
  · rw [e]; exact h.same rfl rfl
  · rw [e]; exact h
  · rw [e]; exact h.same rfl rfl
  · rw [e]
    refine h.same ?_ rfl
    simp only [unanchor_absent _ _ (hfree hb)]
  · rw [e]
    exact h.submit (hfree hb) rfl rfl

/-- The write loop keeps the share of the port in the in-flight counter. -/
theorem write_loop_flight (cfg : Config) (env : WriteEnv) (c : Int) :
    ∀ (n i : Nat) (st : WriteLoop), i + n ≤ cfg.N_OUT_URB → PortInv cfg st.port →
      FlightInv st.port st.intf c →
      FlightInv (write_loop cfg env n i st).port (write_loop cfg env n i st).intf c := by
  intro n
  induction n with
  | zero => intro i st _ _ h; simpa [write_loop] using h
  | succ n ih =>
    intro i st hin hinv h
    by_cases hpos : st.left > 0
    · have h1 := write_slot_inv cfg env i st (by omega) hinv
      have h2 := write_slot_flight cfg env i st c hinv h
      cases hr : write_slot cfg env i st with
      | mk st1 flag =>
        rw [hr] at h1 h2
        cases flag with
        | true =>
          rw [write_loop_succ_continue cfg env n i st st1 hpos hr]
          exact ih (i + 1) st1 (by omega) h1 h2
        | false =>
          rw [write_loop_succ_break cfg env n i st st1 hpos hr]
          exact h2
    · rw [write_loop_done cfg env (n + 1) i st hpos]
      exact h

/-- The function usb_wwan_write keeps the share of the port in the in-flight
counter. -/
theorem usb_wwan_write_flight (cfg : Config) (env : WriteEnv) (p : Port) (intf : Intf)
    (buf : List Byte) (count : Int) (c : Int) (hinv : PortInv cfg p) (h : FlightInv p intf c) :
    FlightInv (usb_wwan_write cfg env p intf buf count).1
      (usb_wwan_write cfg env p intf buf count).2.1 c :=
  write_loop_flight cfg env c cfg.N_OUT_URB 0
    { port := p, intf := intf, buf := buf, left := count } (by omega) hinv h

/-- The give-back of a write request keeps the share of the port in the in-flight
counter. -/
theorem giveback_out_flight (cfg : Config) (i : Nat) (p : Port) (intf : Intf) (c : Int)
    (h : FlightInv p intf c) :
    FlightInv (giveback_out cfg i p intf).1 (giveback_out cfg i p intf).2 c := by
  by_cases hm : Urb.out i ∈ p.submitted
  · have e : giveback_out cfg i p intf
        = usb_wwan_outdat_callback cfg (Urb.out i)
            { p with submitted := usb_unanchor_urb (Urb.out i) p.submitted } intf := by
      simp [giveback_out, hm]
    rw [e]
    have hs := (outdat_callback_fields cfg (Urb.out i)
      { p with submitted := usb_unanchor_urb (Urb.out i) p.submitted } intf).2.1
    have hi : (usb_wwan_outdat_callback cfg (Urb.out i)
        { p with submitted := usb_unanchor_urb (Urb.out i) p.submitted } intf).2.in_flight
        = intf.in_flight - 1 := by
      unfold usb_wwan_outdat_callback
      split <;> rfl
    exact h.giveback hm hs hi
  · have e : giveback_out cfg i p intf = (p, intf) := by
      simp [giveback_out, hm]
    rw [e]
    exact h

/-- The completion handler of a read request leaves the write requests in flight as
they are. -/
theorem indat_callback_flight (j : Nat) (status suberr : Int) (p : Port) (intf : Intf) :
    (usb_wwan_indat_callback j status suberr p intf).submitted.filter is_out
      = p.submitted.filter is_out := by
  unfold usb_wwan_indat_callback
  split
  · rfl
  · split
    · rfl
    · split
      · split
        · simp only [usb_submit_urb, filter_out_unanchor_inp, filter_out_anchor_inp]
        · simp only [usb_submit_urb, filter_out_anchor_inp]
      · rfl

/-- The give-back of a read request leaves the write requests in flight as they
are. -/
theorem giveback_in_flight (j : Nat) (status : Int) (data : List Byte) (suberr : Int)
    (p : Port) (intf : Intf) :
    (giveback_in j status data suberr p intf).submitted.filter is_out
      = p.submitted.filter is_out := by
  unfold giveback_in
  split
  · rw [indat_callback_flight]
    simp only [receive, filter_out_unanchor_inp]
  · rfl

/-- The call usb_kill_urb keeps the share of the port in the in-flight counter. -/
theorem usb_kill_urb_flight (cfg : Config) (kdata : Nat → List Byte) (u : Urb) (p : Port)
    (intf : Intf) (c : Int) (h : FlightInv p intf c) :
    FlightInv (usb_kill_urb cfg kdata u p intf).1 (usb_kill_urb cfg kdata u p intf).2 c := by
  cases u with
  | out i => exact giveback_out_flight cfg i p intf c h
  | inp j => exact h.same (giveback_in_flight j _ _ _ p intf) rfl

/-- Killing a list of requests keeps the share of the port in the in-flight
counter. -/
theorem kill_list_flight (cfg : Config) (kdata : Nat → List Byte) (c : Int) :
    ∀ (l : List Urb) (p : Port) (intf : Intf), FlightInv p intf c →
      FlightInv (kill_list cfg kdata l p intf).1 (kill_list cfg kdata l p intf).2 c := by
  intro l
  induction l with
  | nil => intro p intf h; exact h
  | cons u us ih =>
    intro p intf h
    simp only [kill_list]
    exact ih _ _ (usb_kill_urb_flight cfg kdata u p intf c h)

/-- The loop of usb_wwan_close over the delayed anchor keeps the share of the port in
the in-flight counter. -/
theorem close_drain_flight (cfg : Config) (c : Int) : ∀ (l : List Urb) (p : Port) (intf : Intf),
    FlightInv p intf c → FlightInv (close_drain cfg l p intf).1 (close_drain cfg l p intf).2 c := by
  intro l
  induction l with
  | nil => intro p intf h; exact h.same rfl rfl
  | cons u rest ih =>
    intro p intf h
    simp only [close_drain]
    apply ih
    refine h.same ?_ rfl
    rw [(unbusy_fields cfg u { p with delayed := rest }).2.1]

/-- The function usb_wwan_close keeps the share of the port in the in-flight
counter. -/
theorem usb_wwan_close_flight (cfg : Config) (kdata : Nat → List Byte) (dev : Bool) (p : Port)
    (intf : Intf) (c : Int) (h : FlightInv p intf c) :
    FlightInv (usb_wwan_close cfg kdata dev p intf).1 (usb_wwan_close cfg kdata dev p intf).2 c := by
  unfold usb_wwan_close
  split
  · simp only
    have h1 : FlightInv { p with opened := false } intf c := h.same rfl rfl
    have h2 := close_drain_flight cfg c p.delayed { p with opened := false } intf h1
    have h3 := kill_list_flight cfg kdata c ((List.range cfg.N_IN_URB).map Urb.inp) _ _ h2
    have h4 := kill_list_flight cfg kdata c ((List.range cfg.N_OUT_URB).map Urb.out) _ _ h3
    exact h4.same rfl rfl
  · exact h

/-- The loop of usb_wwan_open leaves the write requests in flight as they are. -/
theorem open_in_urbs_flight (sub : Nat → Int) : ∀ (n j : Nat) (p : Port),
    (open_in_urbs sub n j p).submitted.filter is_out = p.submitted.filter is_out := by
  intro n
  induction n with
  | zero => intro j p; rfl
  | succ n ih =>
    intro j p
    simp only [open_in_urbs]
    rw [ih]
    split
    · simp only [usb_submit_urb, filter_out_unanchor_inp, filter_out_anchor_inp]
    · simp only [usb_submit_urb, filter_out_anchor_inp]

/-- The loop of usb_wwan_in_work leaves the write requests in flight as they are. -/
theorem in_work_loop_flight (env : WorkEnv) (intf : Intf) : ∀ (q : List Nat) (k : Nat) (p : Port),
    (in_work_loop env intf q k p).submitted.filter is_out = p.submitted.filter is_out := by
  intro q
  induction q with
  | nil => intro k p; rfl
  | cons urb rest ih =>
    intro k p
    simp only [in_work_loop]
    split
    · rfl
    · split
      · rfl
      · split
        · rfl
        · rw [ih]
          split
          · split
            · simp only [usb_submit_urb, filter_out_unanchor_inp, filter_out_anchor_inp]
            · simp only [usb_submit_urb, filter_out_anchor_inp]
          · rfl

/-- The read loop of usb_wwan_resume leaves the write requests in flight as they
are. -/
theorem resume_in_urbs_flight (sub : Urb → Int) : ∀ (n j : Nat) (p : Port) (err : Int),
    (resume_in_urbs sub n j p err).1.submitted.filter is_out = p.submitted.filter is_out := by
  intro n
  induction n with
  | zero => intro j p err; rfl
  | succ n ih =>
    intro j p err
    simp only [resume_in_urbs]
    split
    · exact ih (j + 1) p err
    · split
      · simp only [usb_submit_urb, filter_out_unanchor_inp, filter_out_anchor_inp]
      · rw [ih]
        simp only [usb_submit_urb, filter_out_anchor_inp]

/-! ## The in-flight counter, replay and the device -/

/-- Moving the head of the delayed anchor to the submitted anchor keeps the pool
invariant. -/
theorem PortInv.replay_head {cfg : Config} {p : Port} {i : Nat} {rest : List Urb} (err : Int)
    (h : PortInv cfg { p with delayed := Urb.out i :: rest }) :
    PortInv cfg (usb_submit_urb (Urb.out i) err
      { p with delayed := rest, submitted := usb_anchor_urb (Urb.out i) p.submitted }) := by
  have hnd := h.nodup
  simp only [List.nodup_cons] at hnd
  constructor
  · intro m
    have := h.busy_iff m
    simp only [List.mem_cons, Urb.out.injEq] at this
    simp only [usb_submit_urb, usb_anchor_urb, List.mem_append, List.mem_singleton,
      Urb.out.injEq, this]
    tauto
  · intro m hm
    simp only [usb_submit_urb, usb_anchor_urb, List.mem_append, List.mem_singleton,
      Urb.out.injEq] at hm ⊢
    rcases hm with hm | hm
    · exact fun h2 => h.disjoint m hm (List.mem_cons_of_mem _ h2)
    · subst hm; exact hnd.1
  · exact hnd.2
  · intro v hv
    exact h.delayed_out v (List.mem_cons_of_mem _ hv)
  · exact h.bound

/-- The throw-away loop of play_delayed keeps the share of the port in the in-flight
counter. -/
theorem play_drop_flight (cfg : Config) (c : Int) (l : List Urb) (p : Port) (intf : Intf)
    (h : FlightInv p intf c) :
    FlightInv (play_drop cfg l p intf).1 (play_drop cfg l p intf).2 c := by
  obtain ⟨_, h2, _, h4, _⟩ := play_drop_fields cfg l p intf
  exact h.same (by rw [h2]) h4

/-- The function play_delayed keeps the share of the port in the in-flight counter:
in_flight goes up by one for each request it submits with success. -/
theorem play_delayed_flight (cfg : Config) (sub : Urb → Int) (c : Int) :
    ∀ (l : List Urb) (p : Port) (intf : Intf), PortInv cfg { p with delayed := l } →
      FlightInv p intf c →
      FlightInv (play_delayed cfg sub l p intf).1 (play_delayed cfg sub l p intf).2.1 c := by
  intro l
  induction l with
  | nil => intro p intf _ h; exact h.same rfl rfl
  | cons u rest ih =>
    intro p intf hinv h
    obtain ⟨i, rfl⟩ := hinv.delayed_out u (by simp)
    have hns : Urb.out i ∉ p.submitted := fun hm => hinv.disjoint i hm (by simp)
    simp only [play_delayed]
    split
    · apply ih
      · exact hinv.replay_head (sub (Urb.out i))
      · exact h.submit hns rfl rfl
    · apply play_drop_flight
      refine h.same ?_ rfl
      simp only [usb_submit_urb, unanchor_anchor, unanchor_absent _ _ hns]

/-- The body of the loop of usb_wwan_resume keeps the share of the port in the
in-flight counter. -/
theorem resume_port_flight (cfg : Config) (sub : Urb → Int) (p : Port) (intf : Intf) (c : Int)
    (hinv : PortInv cfg p) (h : FlightInv p intf c) :
    FlightInv (resume_port cfg sub p intf).1 (resume_port cfg sub p intf).2.1 c := by
  have h1 := play_delayed_flight cfg sub c p.delayed p intf hinv h
  have i1 : PortInv cfg (play_delayed cfg sub p.delayed p intf).1 :=
    play_delayed_inv cfg sub p.delayed p intf hinv
  have i2 := i1.of_outSame (resume_in_urbs_outSame sub cfg.N_IN_URB 0
    (play_delayed cfg sub p.delayed p intf).1 (play_delayed cfg sub p.delayed p intf).2.2)
  have h2 : FlightInv (resume_in_urbs sub cfg.N_IN_URB 0 (play_delayed cfg sub p.delayed p intf).1
      (play_delayed cfg sub p.delayed p intf).2.2).1 (play_delayed cfg sub p.delayed p intf).2.1 c :=
    h1.same (resume_in_urbs_flight sub _ _ _ _) rfl
  unfold resume_port
  simp only
  split
  · exact play_delayed_flight cfg sub c _ _ _ i2 h2
  · exact h2.same rfl rfl

/-- The count over the ports after one port was replaced. -/
theorem flight_total_update (port : Nat → Port) (k : Nat) (p1 : Port) :
    ∀ n, k < n →
      (flight_total (Function.update port k p1) n : Int)
        = flight_total port n - flight_count (port k) + flight_count p1 := by
  intro n
  induction n with
  | zero => intro h; omega
  | succ n ih =>
    intro hk
    simp only [flight_total]
    by_cases hkn : k = n
    · subst hkn
      have hsame : ∀ m, m ≤ k → flight_total (Function.update port k p1) m = flight_total port m := by
        intro m
        induction m with
        | zero => intro _; rfl
        | succ m ihm =>
          intro hm
          have : m ≠ k := by omega
          simp only [flight_total, ihm (by omega), Function.update_noteq this]
      rw [hsame k (le_refl _)]
      simp only [Function.update_same]
      push_cast
      ring
    · have : n ≠ k := fun e => hkn e.symm
      simp only [Function.update_noteq this]
      push_cast
      rw [ih (by omega)]
      ring

/-- An operation on a port of the device that keeps the share of that port keeps the
invariant of the in-flight counter. -/
theorem set_flight {s : Serial} (h : SerialFlight s) (k : Nat) (hk : k < s.num_ports)
    (p1 : Port) (intf1 : Intf)
    (hop : ∀ c, FlightInv (s.port k) s.intf c → FlightInv p1 intf1 c) :
    SerialFlight (s.set k p1 intf1) := by
  have h0 : FlightInv (s.port k) s.intf (s.intf.in_flight - flight_count (s.port k)) :=
    ⟨h.nodup k, by ring⟩
  have h1 := hop _ h0
  constructor
  · intro m
    by_cases hm : m = k
    · subst hm
      simpa [Serial.set] using h1.nodup
    · simpa [Serial.set, Function.update_noteq hm] using h.nodup m
  · have := flight_total_update s.port k p1 s.num_ports hk
    simp only [Serial.set]
    rw [this, h1.count, h.count]

/-! ## The in-flight counter on reachable states -/

/-- The loop of stop_read_write_urbs over ports of the device keeps the invariant of
the in-flight counter. -/
theorem stop_ports_flight (cfg : Config) (kdata : Nat → Nat → List Byte) :
    ∀ (ks : List Nat) (s : Serial), (∀ k, k ∈ ks → k < s.num_ports) → SerialFlight s →
      SerialFlight (stop_ports cfg kdata ks s) := by
  intro ks
  induction ks with
  | nil => intro s _ h; exact h
  | cons k ks ih =>
    intro s hks h
    simp only [stop_ports]
    apply ih
    · intro m hm
      exact hks m (List.mem_cons_of_mem _ hm)
    · exact set_flight h k (hks k (List.mem_cons_self _ _)) _ _
        (fun c hc => kill_list_flight cfg (kdata k) c _ _ _ hc)

/-- The loop of usb_wwan_resume over ports of the device keeps the invariant of the
in-flight counter. -/
theorem resume_ports_flight (cfg : Config) (sub : Nat → Urb → Int) :
    ∀ (ks : List Nat) (s : Serial) (err : Int), (∀ k, k ∈ ks → k < s.num_ports) →
      (∀ k, PortInv cfg (s.port k)) → SerialFlight s →
      SerialFlight (resume_ports cfg sub ks s err).1 := by
  intro ks
  induction ks with
  | nil => intro s err _ _ h; exact h
  | cons k ks ih =>
    intro s err hks hinv h
    have hk := hks k (List.mem_cons_self _ _)
    have hrest : ∀ m, m ∈ ks → m < s.num_ports := fun m hm => hks m (List.mem_cons_of_mem _ hm)
    simp only [resume_ports]
    split
    · exact ih s err hrest hinv h
    · have hs : SerialFlight (s.set k (resume_port cfg (sub k) (s.port k) s.intf).1
          (resume_port cfg (sub k) (s.port k) s.intf).2.1) :=
        set_flight h k hk _ _ (fun c hc => resume_port_flight cfg (sub k) _ _ c (hinv k) hc)
      have hi := set_inv hinv k (resume_port cfg (sub k) (s.port k) s.intf).1
        (resume_port cfg (sub k) (s.port k) s.intf).2.1 (resume_port_inv cfg (sub k) _ _ (hinv k))
      split
      · exact ih _ _ hrest hi hs
      · exact hs

/-- A flag of the interface other than in_flight does not enter the invariant of the
in-flight counter. -/
theorem SerialFlight.of_intf {s : Serial} (h : SerialFlight s) (intf1 : Intf)
    (hi : intf1.in_flight = s.intf.in_flight) : SerialFlight { s with intf := intf1 } :=
  ⟨h.nodup, by simpa [hi] using h.count⟩

/-- Every step of the device keeps the invariant of the in-flight counter. -/
theorem step_flight (cfg : Config) {s s1 : Serial} (hstep : Step cfg s s1)
    (hinv : ∀ k, PortInv cfg (s.port k)) (h : SerialFlight s) : SerialFlight s1 := by
  have hrange : ∀ k, k ∈ List.range s.num_ports → k < s.num_ports :=
    fun k hk => List.mem_range.mp hk
  cases hstep with
  | op_open k hk sub =>
    exact set_flight h k hk _ _
      (fun c hc => hc.same (open_in_urbs_flight sub cfg.N_IN_URB 0 (s.port k)) rfl)
  | op_write k hk env buf count =>
    exact set_flight h k hk _ _
      (fun c hc => usb_wwan_write_flight cfg env _ _ buf count c (hinv k) hc)
  | write_done k hk i =>
    exact set_flight h k hk _ _ (fun c hc => giveback_out_flight cfg i _ _ c hc)
  | read_done k hk j status data suberr =>
    exact set_flight h k hk _ _
      (fun c hc => hc.same (giveback_in_flight j status data suberr _ _) rfl)
  | op_in_work k hk env =>
    exact set_flight h k hk _ _
      (fun c hc => hc.same (in_work_loop_flight env s.intf _ 0 _) rfl)
  | op_throttle k hk => exact set_flight h k hk _ _ (fun c hc => hc.same rfl rfl)
  | op_unthrottle k hk => exact set_flight h k hk _ _ (fun c hc => hc.same rfl rfl)
  | op_suspend env =>
    unfold usb_wwan_suspend
    split
    · exact h
    · exact stop_ports_flight cfg env.kdata _ _ hrange
        (h.of_intf { s.intf with suspended := true } rfl)
  | op_resume env =>
    exact resume_ports_flight cfg env.submit _ _ _ hrange hinv
      (h.of_intf { s.intf with suspended := false } rfl)
  | op_close k hk kdata dev =>
    exact set_flight h k hk _ _ (fun c hc => usb_wwan_close_flight cfg kdata dev _ _ c hc)
  | op_disconnect kdata => exact stop_ports_flight cfg kdata _ _ hrange h

/-- The count over freshly started ports is 0. -/
theorem flight_total_startup (cfg : Config) (om im : Nat → Nat → List Byte) :
    ∀ n, flight_total (fun k => startup_port cfg (om k) (im k)) n = 0 := by
  intro n
  induction n with
  | zero => rfl
  | succ n ih =>
    simp only [flight_total, ih]
    simp [flight_count, startup_port]

/-- Every reachable state of the device satisfies the invariant of the in-flight
counter. -/
theorem reachable_flight (cfg : Config) (n : Nat) (om im : Nat → Nat → List Byte) (pm0 : Int)
    {s : Serial} (hr : Reachable cfg (startup_serial cfg n om im pm0) s) :
    (∀ k, PortInv cfg (s.port k)) ∧ SerialFlight s := by
  induction hr with
  | init =>
    refine ⟨fun k => startup_port_inv cfg _ _, fun k => ?_, ?_⟩
    · simp [startup_serial, startup_port]
    · simp [startup_serial, flight_total_startup]
  | step _ hstep ih => exact ⟨step_inv cfg hstep ih.1, step_flight cfg hstep ih.1 ih.2⟩

/-- No write request in flight on the ports counted gives a count of 0. -/
theorem flight_total_zero (port : Nat → Port) :
    ∀ n, (∀ k, k < n → ∀ i, Urb.out i ∉ (port k).submitted) → flight_total port n = 0 := by
  intro n
  induction n with
  | zero => intro _; rfl
  | succ n ih =>
    intro h
    have h0 : flight_count (port n) = 0 := by
      simp only [flight_count, List.length_eq_zero, List.filter_eq_nil_iff]
      intro u hu
      cases u with
      | out i => exact absurd hu (h n (by omega) i)
      | inp j => simp [is_out]
    simp only [flight_total, ih (fun k hk => h k (by omega)), h0]

/-- C11. In every state reached from a freshly started device by write, write
completion, suspend, resume and close steps (and the other steps of the device),
in_flight is the number of write requests on the submitted anchors of the ports of
the device, each counted once; so it is not negative, and it is 0 when no write
request is in flight. -/
theorem in_flight_counts_submitted_writes (cfg : Config) (n : Nat)
    (om im : Nat → Nat → List Byte) (pm0 : Int) (s : Serial)
    (hr : Reachable cfg (startup_serial cfg n om im pm0) s) :
    s.intf.in_flight = (flight_total s.port s.num_ports : Int) ∧
    (∀ k, ((s.port k).submitted.filter is_out).Nodup) ∧
    0 ≤ s.intf.in_flight ∧
    ((∀ k, k < s.num_ports → ∀ i, Urb.out i ∉ (s.port k).submitted) → s.intf.in_flight = 0) := by
  obtain ⟨_, hf⟩ := reachable_flight cfg n om im pm0 hr
  refine ⟨hf.count, hf.nodup, ?_, fun h => ?_⟩
  · rw [hf.count]
    exact Int.natCast_nonneg _
  · rw [hf.count, flight_total_zero s.port s.num_ports h]
    rfl

/-- Witness of C11: the opened demo device after a write of 10 bytes has one write
request in flight and in_flight = 1. -/
theorem in_flight_counts_submitted_writes_witness :
    Reachable demo_cfg demo_serial demo_busy ∧
    (demo_busy.intf.in_flight = (flight_total demo_busy.port demo_busy.num_ports : Int) ∧
     (∀ k, ((demo_busy.port k).submitted.filter is_out).Nodup) ∧
     0 ≤ demo_busy.intf.in_flight ∧
     ((∀ k, k < demo_busy.num_ports → ∀ i, Urb.out i ∉ (demo_busy.port k).submitted) →
        demo_busy.intf.in_flight = 0)) ∧
    flight_total demo_busy.port demo_busy.num_ports = 1 :=
  have hr : Reachable demo_cfg demo_serial demo_busy :=
    Reachable.step (Reachable.step Reachable.init
      (Step.op_open demo_serial 0 (by decide) (fun _ => 0)))
      (Step.op_write demo_opened 0 (by decide) demo_env (List.range 10) 10)
  ⟨hr, in_flight_counts_submitted_writes demo_cfg 1 _ _ 0 demo_busy hr, by decide⟩

end UsbWwan
